import Mathlib

/-!
# ibmctoken: the token exchange of `ibmctoken.go` and the CLI of `cmd/ibmctoken/main.go`

A shallow embedding of the Go package `ibmctoken` together with the parts of the Go
standard library its behaviour rests on:

* `net/url`: `Values.Set`, `Values.Encode`, `QueryEscape` (and `ParseQuery`, the
  standard decoder of a form body, used to state what the request body means);
* `net/http`: `NewRequestWithContext`, `Header.Set`, the `StatusCode` and `Body`
  of a response;
* `encoding/json`: the scanner of `scanner.go`, `Decoder.Decode` of `stream.go`
  and the reflection-driven store of `decode.go`, specialised to the two
  destination types of this package, `*Token` and `*tokenErrorResponse`.

Go strings are byte sequences; `int` is taken to be 64 bits wide.
-/

set_option maxRecDepth 1000000

namespace Ibmctoken

/-! ## Bytes and strings -/

/-- A Go `byte`. -/
abbrev Byte := Fin 256

/-- A Go `string`: a finite sequence of bytes. -/
abbrev GoString := List Byte

/-- The conversion `byte(n)` of an integer: its low eight bits. -/
def byte (n : Nat) : Byte := ⟨n % 256, Nat.mod_lt _ (by decide)⟩

/-- Go `utf8.AppendRune`: the UTF-8 encoding of a code point; a surrogate or a value
past U+10FFFF is encoded as U+FFFD. -/
def EncodeRune (r : Nat) : List Byte :=
  if r ≤ 0x7F then [byte r]
  else if r ≤ 0x7FF then [byte (0xC0 + r / 64), byte (0x80 + r % 64)]
  else if r > 0x10FFFF ∨ (0xD800 ≤ r ∧ r ≤ 0xDFFF) then [0xEF, 0xBF, 0xBD]
  else if r ≤ 0xFFFF then
    [byte (0xE0 + r / 4096), byte (0x80 + r / 64 % 64), byte (0x80 + r % 64)]
  else
    [byte (0xF0 + r / 262144), byte (0x80 + r / 4096 % 64), byte (0x80 + r / 64 % 64),
      byte (0x80 + r % 64)]

/-- A Go string literal: the UTF-8 bytes of the text. -/
def str (s : String) : GoString := s.data.flatMap fun c => EncodeRune c.toNat

/-- Go `utf8.DecodeRune`: the first code point of `p` and its width in bytes; an
invalid or short encoding gives `(U+FFFD, 1)`, the empty input `(U+FFFD, 0)`. -/
def DecodeRune (p : List Byte) : Nat × Nat :=
  match p with
  | [] => (0xFFFD, 0)
  | p0 :: rest =>
    if p0.val < 0x80 then (p0.val, 1)
    else if p0.val < 0xC2 ∨ 0xF4 < p0.val then (0xFFFD, 1)
    else
      -- the width and the range accepted for the second byte, from the table `first`
      let sz : Nat := if p0.val < 0xE0 then 2 else if p0.val < 0xF0 then 3 else 4
      let lo : Nat := if p0.val = 0xE0 then 0xA0 else if p0.val = 0xF0 then 0x90 else 0x80
      let hi : Nat := if p0.val = 0xED then 0x9F else if p0.val = 0xF4 then 0x8F else 0xBF
      if rest.length + 1 < sz then (0xFFFD, 1)
      else
        match rest with
        | [] => (0xFFFD, 1)
        | b1 :: rest1 =>
          if b1.val < lo ∨ hi < b1.val then (0xFFFD, 1)
          else if sz ≤ 2 then ((p0.val % 32) * 64 + b1.val % 64, 2)
          else
            match rest1 with
            | [] => (0xFFFD, 1)
            | b2 :: rest2 =>
              if b2.val < 0x80 ∨ 0xBF < b2.val then (0xFFFD, 1)
              else if sz ≤ 3 then
                ((p0.val % 16) * 4096 + (b1.val % 64) * 64 + b2.val % 64, 3)
              else
                match rest2 with
                | [] => (0xFFFD, 1)
                | b3 :: _ =>
                  if b3.val < 0x80 ∨ 0xBF < b3.val then (0xFFFD, 1)
                  else
                    ((p0.val % 8) * 262144 + (b1.val % 64) * 4096 + (b2.val % 64) * 64
                      + b3.val % 64, 4)

/-- The hexadecimal digit `c` stands for, as in `unhex` of `net/url` and `getu4` of
`encoding/json`; `none` when `c` is no hexadecimal digit. -/
def hexVal (c : Byte) : Option Nat :=
  if '0'.toNat ≤ c.val ∧ c.val ≤ '9'.toNat then some (c.val - '0'.toNat)
  else if 'a'.toNat ≤ c.val ∧ c.val ≤ 'f'.toNat then some (c.val - 'a'.toNat + 10)
  else if 'A'.toNat ≤ c.val ∧ c.val ≤ 'F'.toNat then some (c.val - 'A'.toNat + 10)
  else none

/-! ## Errors -/

/-- A Go `error` value. `errorString` is an error known by its text alone
(`errors.New`, `fmt.Errorf` without `%w`, and whatever a transport returns);
the others are the errors `encoding/json` and `io` produce. -/
inductive GoError where
  | errorString (text : GoString)
  | EOF
  | ErrUnexpectedEOF
  | SyntaxError (msg : GoString) (Offset : Nat)
  | UnmarshalTypeError (Value TypeName Struct Field : GoString)
  deriving DecidableEq

deriving instance DecidableEq for Except

/-- The method `Error()` of each error. -/
def GoError.Error : GoError → GoString
  | .errorString text => text
  | .EOF => str "EOF"
  | .ErrUnexpectedEOF => str "unexpected EOF"
  | .SyntaxError msg _ => msg
  | .UnmarshalTypeError v ty s f =>
    if s ≠ [] ∨ f ≠ [] then
      str "json: cannot unmarshal " ++ v ++ str " into Go struct field " ++ s ++ str "." ++ f
        ++ str " of type " ++ ty
    else str "json: cannot unmarshal " ++ v ++ str " into Go value of type " ++ ty

/-! ## net/url -/

/-- The `shouldEscape(c, encodeQueryComponent)` of `net/url`: everything but the
unreserved characters is escaped. -/
def shouldEscape (c : Byte) : Bool :=
  if ('a'.toNat ≤ c.val ∧ c.val ≤ 'z'.toNat) ∨ ('A'.toNat ≤ c.val ∧ c.val ≤ 'Z'.toNat)
      ∨ ('0'.toNat ≤ c.val ∧ c.val ≤ '9'.toNat) then false
  else if c.val = '-'.toNat ∨ c.val = '_'.toNat ∨ c.val = '.'.toNat ∨ c.val = '~'.toNat then
    false
  else true

/-- The digit `upperhex[n]`, for `n < 16`. -/
def upperhex (n : Nat) : Byte :=
  if n < 10 then byte ('0'.toNat + n) else byte ('A'.toNat + (n - 10))

/-- What `escape(s, encodeQueryComponent)` writes for one byte. -/
def escapeByte (c : Byte) : List Byte :=
  if c.val = ' '.toNat then [byte '+'.toNat]
  else if shouldEscape c then [byte '%'.toNat, upperhex (c.val / 16), upperhex (c.val % 16)]
  else [c]

/-- Go `url.QueryEscape`. -/
def QueryEscape (s : GoString) : GoString := s.flatMap escapeByte

/-- Go `url.QueryUnescape`; `none` stands for the `EscapeError` of a `%` that is not
followed by two hexadecimal digits. -/
def QueryUnescape : GoString → Option GoString
  | [] => some []
  | c :: rest =>
    if c.val = '%'.toNat then
      match rest with
      | h :: l :: rest2 =>
        match hexVal h, hexVal l with
        | some a, some b => (QueryUnescape rest2).map (byte (a * 16 + b) :: ·)
        | _, _ => none
      | _ => none
    else if c.val = '+'.toNat then (QueryUnescape rest).map (byte ' '.toNat :: ·)
    else (QueryUnescape rest).map (c :: ·)

/-- Go `url.Values`, a `map[string][]string`, as an association list with one entry
per key. -/
abbrev Values := List (GoString × List GoString)

/-- Go `Values.Set`: the key now holds the single value. -/
def Values.Set : Values → GoString → GoString → Values
  | [], key, value => [(key, [value])]
  | (k, vs) :: rest, key, value =>
    if k = key then (k, [value]) :: rest else (k, vs) :: Values.Set rest key value

/-- Go `Values.Add` as `parseQuery` uses it: `m[key] = append(m[key], value)`. -/
def Values.Add : Values → GoString → GoString → Values
  | [], key, value => [(key, [value])]
  | (k, vs) :: rest, key, value =>
    if k = key then (k, vs ++ [value]) :: rest else (k, vs) :: Values.Add rest key value

/-- The order of Go strings, `a < b`: bytewise lexicographic. -/
def strLess : GoString → GoString → Bool
  | [], [] => false
  | [], _ :: _ => true
  | _ :: _, [] => false
  | a :: as, b :: bs => if a.val < b.val then true else if b.val < a.val then false else strLess as bs

/-- Insertion of an entry into a list of entries sorted by key. -/
def insertSorted (e : GoString × List GoString) : Values → Values
  | [] => [e]
  | x :: rest => if strLess e.1 x.1 then e :: x :: rest else x :: insertSorted e rest

/-- The entries in the order of `sort.Strings(keys)`. -/
def sortByKey (v : Values) : Values := v.foldr insertSorted []

/-- Go `Values.Encode`: `key=value` pairs, keys sorted, joined by `&`, each part
query-escaped. -/
def Values.Encode (v : Values) : GoString :=
  (sortByKey v).foldl
    (fun buf kv =>
      kv.2.foldl
        (fun buf value =>
          (if buf = [] then buf else buf ++ [byte '&'.toNat])
            ++ QueryEscape kv.1 ++ [byte '='.toNat] ++ QueryEscape value)
        buf)
    []

/-- Go `strings.Cut(s, sep)` for a separator of one byte: the text before the first
`sep`, the text after it, and whether `sep` was found. -/
def Cut (sep : Byte) : GoString → GoString × GoString × Bool
  | [] => ([], [], false)
  | c :: rest =>
    if c = sep then ([], rest, true)
    else
      let r := Cut sep rest
      (c :: r.1, r.2.1, r.2.2)

/-- The loop of `parseQuery` of `net/url`, `fuel` bounding the number of `&`-separated
parts; the second component tells whether an error was recorded. -/
def parseQueryLoop : Nat → Values → Bool → GoString → Values × Bool
  | 0, m, err, _ => (m, err)
  | fuel + 1, m, err, query =>
    if query = [] then (m, err)
    else
      let c := Cut (byte '&'.toNat) query
      let key := c.1
      let query := c.2.1
      if byte ';'.toNat ∈ key then parseQueryLoop fuel m true query
      else if key = [] then parseQueryLoop fuel m err query
      else
        let kv := Cut (byte '='.toNat) key
        match QueryUnescape kv.1 with
        | none => parseQueryLoop fuel m true query
        | some key1 =>
          match QueryUnescape kv.2.1 with
          | none => parseQueryLoop fuel m true query
          | some value1 => parseQueryLoop fuel (Values.Add m key1 value1) err query

/-- Go `url.ParseQuery`: the form a body stands for, and whether decoding met an
error. -/
def ParseQuery (query : GoString) : Values × Bool :=
  parseQueryLoop (query.length + 1) [] false query

/-! ## encoding/json: the scanner (`scanner.go`) -/

/-- The values of the scanner's `parseState` stack. -/
inductive ParseState where
  | parseObjectKey
  | parseObjectValue
  | parseArrayValue
  deriving DecidableEq

/-- The scanner's step functions, by name: the field `step` holds one of them. -/
inductive Step where
  | stateBeginValueOrEmpty | stateBeginValue | stateBeginStringOrEmpty | stateBeginString
  | stateEndValue | stateEndTop
  | stateInString | stateInStringEsc | stateInStringEscU | stateInStringEscU1
  | stateInStringEscU12 | stateInStringEscU123
  | stateNeg | state1 | state0 | stateDot | stateDot0 | stateE | stateESign | stateE0
  | stateT | stateTr | stateTru | stateF | stateFa | stateFal | stateFals
  | stateN | stateNu | stateNul
  | stateError
  deriving DecidableEq

/-- The opcodes a step function returns. -/
inductive Op where
  | scanContinue | scanBeginLiteral | scanBeginObject | scanObjectKey | scanObjectValue
  | scanEndObject | scanBeginArray | scanArrayValue | scanEndArray | scanSkipSpace
  | scanEnd | scanError
  deriving DecidableEq

/-- The `scanner` of `encoding/json`. The stack `parseState` is kept with its top
(Go: its last element) at the head of the list. -/
structure scanner where
  step : Step
  endTop : Bool
  parseState : List ParseState
  err : Option GoError
  bytes : Nat
  deriving DecidableEq

/-- The constant `maxNestingDepth`. -/
def maxNestingDepth : Nat := 10000

/-- The scanner after `reset()`; `bytes` starts at zero in a new decoder. -/
def scanner.reset : scanner :=
  { step := .stateBeginValue, endTop := false, parseState := [], err := none, bytes := 0 }

/-- The digit `lowerhex[n]`, for `n < 16`. -/
def lowerhex (n : Nat) : Byte :=
  if n < 10 then byte ('0'.toNat + n) else byte ('a'.toNat + (n - 10))

/-- The `quoteChar` of `scanner.go`: the byte as `strconv.Quote` shows the code point
of the same number, between apostrophes. -/
def quoteChar (c : Byte) : GoString :=
  if c.val = '\''.toNat then str "'\\''"
  else if c.val = '"'.toNat then str "'\"'"
  else if c.val = '\\'.toNat then str "'\\\\'"
  else if (0x20 ≤ c.val ∧ c.val ≤ 0x7E) ∨ (0xA1 ≤ c.val ∧ c.val ≠ 0xAD) then
    str "'" ++ EncodeRune c.val ++ str "'"
  else if c.val = 7 then str "'\\a'"
  else if c.val = 8 then str "'\\b'"
  else if c.val = 12 then str "'\\f'"
  else if c.val = 10 then str "'\\n'"
  else if c.val = 13 then str "'\\r'"
  else if c.val = 9 then str "'\\t'"
  else if c.val = 11 then str "'\\v'"
  else if c.val < 0x20 ∨ c.val = 0x7F then
    str "'\\x" ++ [lowerhex (c.val / 16), lowerhex (c.val % 16)] ++ str "'"
  else str "'\\u00" ++ [lowerhex (c.val / 16), lowerhex (c.val % 16)] ++ str "'"

/-- The scanner's method `error`: the step becomes `stateError` and the error is
`invalid character <c> <context>`, at the offset `bytes`. -/
def scanner.error (s : scanner) (c : Byte) (context : String) : Op × scanner :=
  (.scanError,
    { s with
      step := .stateError
      err := some (.SyntaxError (str "invalid character " ++ quoteChar c ++ str " " ++ str context)
        s.bytes) })

/-- The scanner's method `pushParseState`. -/
def scanner.pushParseState (s : scanner) (c : Byte) (newParseState : ParseState)
    (successState : Op) : Op × scanner :=
  let s1 := { s with parseState := newParseState :: s.parseState }
  if s1.parseState.length ≤ maxNestingDepth then (successState, s1)
  else s1.error c "exceeded max depth"

/-- The scanner's method `popParseState`. -/
def scanner.popParseState (s : scanner) : scanner :=
  let rest := s.parseState.tail
  if rest.length = 0 then { s with parseState := rest, step := .stateEndTop, endTop := true }
  else { s with parseState := rest, step := .stateEndValue }

/-- The `isSpace` of `scanner.go`. -/
def isSpace (c : Byte) : Bool :=
  c.val = ' '.toNat ∨ c.val = '\t'.toNat ∨ c.val = '\r'.toNat ∨ c.val = '\n'.toNat

/-- Whether `c` is one of `0`..`9`. -/
def isDigit (c : Byte) : Bool := '0'.toNat ≤ c.val ∧ c.val ≤ '9'.toNat

/-- The step function `stateEndTop`. -/
def stateEndTop (s : scanner) (c : Byte) : Op × scanner :=
  if !isSpace c then (.scanEnd, (s.error c "after top-level value").2)
  else (.scanEnd, s)

/-- The step function `stateEndValue`. -/
def stateEndValue (s : scanner) (c : Byte) : Op × scanner :=
  match s.parseState with
  | [] => stateEndTop { s with step := .stateEndTop, endTop := true } c
  | ps :: rest =>
    if isSpace c then (.scanSkipSpace, { s with step := .stateEndValue })
    else
      match ps with
      | .parseObjectKey =>
        if c.val = ':'.toNat then
          (.scanObjectKey, { s with parseState := .parseObjectValue :: rest, step := .stateBeginValue })
        else s.error c "after object key"
      | .parseObjectValue =>
        if c.val = ','.toNat then
          (.scanObjectValue, { s with parseState := .parseObjectKey :: rest, step := .stateBeginString })
        else if c.val = '}'.toNat then (.scanEndObject, s.popParseState)
        else s.error c "after object key:value pair"
      | .parseArrayValue =>
        if c.val = ','.toNat then (.scanArrayValue, { s with step := .stateBeginValue })
        else if c.val = ']'.toNat then (.scanEndArray, s.popParseState)
        else s.error c "after array element"

/-- The step function `stateBeginValue`. -/
def stateBeginValue (s : scanner) (c : Byte) : Op × scanner :=
  if isSpace c then (.scanSkipSpace, s)
  else if c.val = '{'.toNat then
    scanner.pushParseState { s with step := .stateBeginStringOrEmpty } c .parseObjectKey
      .scanBeginObject
  else if c.val = '['.toNat then
    scanner.pushParseState { s with step := .stateBeginValueOrEmpty } c .parseArrayValue
      .scanBeginArray
  else if c.val = '"'.toNat then (.scanBeginLiteral, { s with step := .stateInString })
  else if c.val = '-'.toNat then (.scanBeginLiteral, { s with step := .stateNeg })
  else if c.val = '0'.toNat then (.scanBeginLiteral, { s with step := .state0 })
  else if c.val = 't'.toNat then (.scanBeginLiteral, { s with step := .stateT })
  else if c.val = 'f'.toNat then (.scanBeginLiteral, { s with step := .stateF })
  else if c.val = 'n'.toNat then (.scanBeginLiteral, { s with step := .stateN })
  else if '1'.toNat ≤ c.val ∧ c.val ≤ '9'.toNat then (.scanBeginLiteral, { s with step := .state1 })
  else s.error c "looking for beginning of value"

/-- The step function `stateBeginValueOrEmpty`. -/
def stateBeginValueOrEmpty (s : scanner) (c : Byte) : Op × scanner :=
  if isSpace c then (.scanSkipSpace, s)
  else if c.val = ']'.toNat then stateEndValue s c
  else stateBeginValue s c

/-- The step function `stateBeginString`. -/
def stateBeginString (s : scanner) (c : Byte) : Op × scanner :=
  if isSpace c then (.scanSkipSpace, s)
  else if c.val = '"'.toNat then (.scanBeginLiteral, { s with step := .stateInString })
  else s.error c "looking for beginning of object key string"

/-- The step function `stateBeginStringOrEmpty`. -/
def stateBeginStringOrEmpty (s : scanner) (c : Byte) : Op × scanner :=
  if isSpace c then (.scanSkipSpace, s)
  else if c.val = '}'.toNat then
    stateEndValue { s with parseState := .parseObjectValue :: s.parseState.tail } c
  else stateBeginString s c

/-- The step function `stateInString`. -/
def stateInString (s : scanner) (c : Byte) : Op × scanner :=
  if c.val = '"'.toNat then (.scanContinue, { s with step := .stateEndValue })
  else if c.val = '\\'.toNat then (.scanContinue, { s with step := .stateInStringEsc })
  else if c.val < 0x20 then s.error c "in string literal"
  else (.scanContinue, s)

/-- The step function `stateInStringEsc`. -/
def stateInStringEsc (s : scanner) (c : Byte) : Op × scanner :=
  if c.val = 'b'.toNat ∨ c.val = 'f'.toNat ∨ c.val = 'n'.toNat ∨ c.val = 'r'.toNat
      ∨ c.val = 't'.toNat ∨ c.val = '\\'.toNat ∨ c.val = '/'.toNat ∨ c.val = '"'.toNat then
    (.scanContinue, { s with step := .stateInString })
  else if c.val = 'u'.toNat then (.scanContinue, { s with step := .stateInStringEscU })
  else s.error c "in string escape code"

/-- The step functions `stateInStringEscU`, `...U1`, `...U12` and `...U123`: a
hexadecimal digit leads to `next`. -/
def stateInStringEscHex (next : Step) (s : scanner) (c : Byte) : Op × scanner :=
  if (hexVal c).isSome then (.scanContinue, { s with step := next })
  else s.error c "in \\u hexadecimal character escape"

/-- The step function `stateNeg`. -/
def stateNeg (s : scanner) (c : Byte) : Op × scanner :=
  if c.val = '0'.toNat then (.scanContinue, { s with step := .state0 })
  else if '1'.toNat ≤ c.val ∧ c.val ≤ '9'.toNat then (.scanContinue, { s with step := .state1 })
  else s.error c "in numeric literal"

/-- The step function `state0`. -/
def state0 (s : scanner) (c : Byte) : Op × scanner :=
  if c.val = '.'.toNat then (.scanContinue, { s with step := .stateDot })
  else if c.val = 'e'.toNat ∨ c.val = 'E'.toNat then (.scanContinue, { s with step := .stateE })
  else stateEndValue s c

/-- The step function `state1`. -/
def state1 (s : scanner) (c : Byte) : Op × scanner :=
  if isDigit c then (.scanContinue, { s with step := .state1 })
  else state0 s c

/-- The step function `stateDot`. -/
def stateDot (s : scanner) (c : Byte) : Op × scanner :=
  if isDigit c then (.scanContinue, { s with step := .stateDot0 })
  else s.error c "after decimal point in numeric literal"

/-- The step function `stateDot0`. -/
def stateDot0 (s : scanner) (c : Byte) : Op × scanner :=
  if isDigit c then (.scanContinue, s)
  else if c.val = 'e'.toNat ∨ c.val = 'E'.toNat then (.scanContinue, { s with step := .stateE })
  else stateEndValue s c

/-- The step function `stateESign`. -/
def stateESign (s : scanner) (c : Byte) : Op × scanner :=
  if isDigit c then (.scanContinue, { s with step := .stateE0 })
  else s.error c "in exponent of numeric literal"

/-- The step function `stateE`. -/
def stateE (s : scanner) (c : Byte) : Op × scanner :=
  if c.val = '+'.toNat ∨ c.val = '-'.toNat then (.scanContinue, { s with step := .stateESign })
  else stateESign s c

/-- The step function `stateE0`. -/
def stateE0 (s : scanner) (c : Byte) : Op × scanner :=
  if isDigit c then (.scanContinue, s)
  else stateEndValue s c

/-- The step functions inside the literals `true`, `false` and `null`: the byte
`want` leads to `next`, any other byte is the error of `context`. -/
def stateLiteral (want : Char) (next : Step) (context : String) (s : scanner) (c : Byte) :
    Op × scanner :=
  if c.val = want.toNat then (.scanContinue, { s with step := next })
  else s.error c context

/-- One call `s.step(&s, c)`: the step function the scanner holds, applied to `c`. -/
def scanner.doStep (s : scanner) (c : Byte) : Op × scanner :=
  match s.step with
  | .stateBeginValueOrEmpty => stateBeginValueOrEmpty s c
  | .stateBeginValue => stateBeginValue s c
  | .stateBeginStringOrEmpty => stateBeginStringOrEmpty s c
  | .stateBeginString => stateBeginString s c
  | .stateEndValue => stateEndValue s c
  | .stateEndTop => stateEndTop s c
  | .stateInString => stateInString s c
  | .stateInStringEsc => stateInStringEsc s c
  | .stateInStringEscU => stateInStringEscHex .stateInStringEscU1 s c
  | .stateInStringEscU1 => stateInStringEscHex .stateInStringEscU12 s c
  | .stateInStringEscU12 => stateInStringEscHex .stateInStringEscU123 s c
  | .stateInStringEscU123 => stateInStringEscHex .stateInString s c
  | .stateNeg => stateNeg s c
  | .state1 => state1 s c
  | .state0 => state0 s c
  | .stateDot => stateDot s c
  | .stateDot0 => stateDot0 s c
  | .stateE => stateE s c
  | .stateESign => stateESign s c
  | .stateE0 => stateE0 s c
  | .stateT => stateLiteral 'r' .stateTr "in literal true (expecting 'r')" s c
  | .stateTr => stateLiteral 'u' .stateTru "in literal true (expecting 'u')" s c
  | .stateTru => stateLiteral 'e' .stateEndValue "in literal true (expecting 'e')" s c
  | .stateF => stateLiteral 'a' .stateFa "in literal false (expecting 'a')" s c
  | .stateFa => stateLiteral 'l' .stateFal "in literal false (expecting 'l')" s c
  | .stateFal => stateLiteral 's' .stateFals "in literal false (expecting 's')" s c
  | .stateFals => stateLiteral 'e' .stateEndValue "in literal false (expecting 'e')" s c
  | .stateN => stateLiteral 'u' .stateNu "in literal null (expecting 'u')" s c
  | .stateNu => stateLiteral 'l' .stateNul "in literal null (expecting 'l')" s c
  | .stateNul => stateLiteral 'l' .stateEndValue "in literal null (expecting 'l')" s c
  | .stateError => (.scanError, s)

/-! ## encoding/json: `Decoder.Decode` (`stream.go`) -/

/-- The body of a response as a reader: the bytes it delivers, and the error that ends
the stream, `none` for `io.EOF` (the body was read to its end). -/
structure Body where
  data : GoString
  readErr : Option GoError := none

/-- The `nonSpace` of `stream.go`. -/
def nonSpace (b : GoString) : Bool := b.any fun c => !isSpace c

/-- The loop of `Decoder.readValue` over the bytes not yet scanned: the length of the
first JSON value of the stream, leading space included. `buf` is all the input,
`scanp` the number of bytes scanned so far. At the end of the input a clean end of
stream is `io.EOF` when only space was read and `io.ErrUnexpectedEOF` otherwise,
unless the value is complete (a number at top level ends with the input). -/
def readValueLoop (buf : GoString) (readErr : Option GoError) :
    scanner → List Byte → Nat → Except GoError Nat
  | s, [], scanp =>
    match readErr with
    | some e => .error e
    | none =>
      if (s.doStep (byte ' '.toNat)).1 = .scanEnd then .ok scanp
      else if nonSpace buf then .error .ErrUnexpectedEOF
      else .error .EOF
  | s, c :: rest, scanp =>
    match scanner.doStep { s with bytes := s.bytes + 1 } c with
    | (.scanEnd, _) => .ok scanp
    | (.scanEndObject, s2) =>
      if (stateEndValue s2 (byte ' '.toNat)).1 = .scanEnd then .ok (scanp + 1)
      else readValueLoop buf readErr (stateEndValue s2 (byte ' '.toNat)).2 rest (scanp + 1)
    | (.scanEndArray, s2) =>
      if (stateEndValue s2 (byte ' '.toNat)).1 = .scanEnd then .ok (scanp + 1)
      else readValueLoop buf readErr (stateEndValue s2 (byte ' '.toNat)).2 rest (scanp + 1)
    | (.scanError, s2) =>
      match s2.err with
      | some e => .error e
      | none => .ok 0
    | (_, s2) => readValueLoop buf readErr s2 rest (scanp + 1)

/-- Go `Decoder.readValue` on a new decoder: the bytes of the next JSON value of the
body, or the error that `Decode` returns before it stores anything. -/
def readValue (body : Body) : Except GoError GoString :=
  match readValueLoop body.data body.readErr scanner.reset body.data 0 with
  | .ok n => .ok (body.data.take n)
  | .error e => .error e

/-! ## encoding/json: storing a value (`decode.go`) -/

/-- The bytes `bs` without their leading space: `d.scanWhile(scanSkipSpace)`. -/
def skipSpace : List Byte → List Byte
  | [] => []
  | c :: rest => if isSpace c then skipSpace rest else c :: rest

/-- The JSON value that starts `bs`, and what follows it: the decoder finds the end of
a literal (`rescanLiteral`) and of a nested value (`skip`) with the scanner. -/
def nextValue (bs : List Byte) : Option (GoString × List Byte) :=
  match readValueLoop bs none scanner.reset bs 0 with
  | .ok n => some (bs.take n, bs.drop n)
  | .error _ => none

/-- The `getu4` of `decode.go`: the code unit of a `\uXXXX` escape that starts `s`. -/
def getu4 (s : List Byte) : Option Nat :=
  match s with
  | b0 :: b1 :: h1 :: h2 :: h3 :: h4 :: _ =>
    if b0.val = '\\'.toNat ∧ b1.val = 'u'.toNat then
      match hexVal h1, hexVal h2, hexVal h3, hexVal h4 with
      | some a, some b, some c, some d => some (((a * 16 + b) * 16 + c) * 16 + d)
      | _, _, _, _ => none
    else none
  | _ => none

/-- Go `utf16.DecodeRune`, the second unit possibly missing: the code point of a
surrogate pair, U+FFFD when the two are not a pair. -/
def utf16DecodeRune (r1 : Nat) (r2 : Option Nat) : Nat :=
  match r2 with
  | some r2 =>
    if 0xD800 ≤ r1 ∧ r1 < 0xDC00 ∧ 0xDC00 ≤ r2 ∧ r2 < 0xE000 then
      (r1 - 0xD800) * 1024 + (r2 - 0xDC00) + 0x10000
    else 0xFFFD
  | none => 0xFFFD

/-- The loop of `unquoteBytes` over the text between the quotes: escapes are replaced
by what they stand for and invalid UTF-8 by U+FFFD; `none` for text that is no string
body. `fuel` bounds the number of rounds. -/
def unquoteLoop : Nat → List Byte → Option GoString
  | 0, _ => none
  | fuel + 1, s =>
    match s with
    | [] => some []
    | c :: rest =>
      if c.val = '\\'.toNat then
        match rest with
        | [] => none
        | e :: rest2 =>
          if e.val = '"'.toNat ∨ e.val = '\\'.toNat ∨ e.val = '/'.toNat ∨ e.val = '\''.toNat then
            (unquoteLoop fuel rest2).map (e :: ·)
          else if e.val = 'b'.toNat then (unquoteLoop fuel rest2).map (byte 8 :: ·)
          else if e.val = 'f'.toNat then (unquoteLoop fuel rest2).map (byte 12 :: ·)
          else if e.val = 'n'.toNat then (unquoteLoop fuel rest2).map (byte 10 :: ·)
          else if e.val = 'r'.toNat then (unquoteLoop fuel rest2).map (byte 13 :: ·)
          else if e.val = 't'.toNat then (unquoteLoop fuel rest2).map (byte 9 :: ·)
          else if e.val = 'u'.toNat then
            match getu4 s with
            | none => none
            | some rr =>
              if 0xD800 ≤ rr ∧ rr < 0xE000 then
                let dec := utf16DecodeRune rr (getu4 (s.drop 6))
                if dec ≠ 0xFFFD then (unquoteLoop fuel (s.drop 12)).map (EncodeRune dec ++ ·)
                else (unquoteLoop fuel (s.drop 6)).map (EncodeRune 0xFFFD ++ ·)
              else (unquoteLoop fuel (s.drop 6)).map (EncodeRune rr ++ ·)
          else none
      else if c.val = '"'.toNat ∨ c.val < ' '.toNat then none
      else if c.val < 0x80 then (unquoteLoop fuel rest).map (c :: ·)
      else
        let d := DecodeRune s
        (unquoteLoop fuel (s.drop d.2)).map (EncodeRune d.1 ++ ·)

/-- The `unquoteBytes` of `decode.go`: the string a quoted JSON literal stands for. -/
def unquoteBytes (s : GoString) : Option GoString :=
  match s with
  | [] => none
  | q :: rest =>
    if rest.length < 1 ∨ q.val ≠ '"'.toNat ∨ rest.getLast? ≠ some (byte '"'.toNat) then none
    else unquoteLoop rest.length rest.dropLast

/-- A JSON value as the decoder meets it when it stores into a destination: a literal,
or the text of a nested object or array. -/
inductive Item where
  | null
  | bool (b : Bool)
  | number (lit : GoString)
  | string (s : GoString)
  | object (raw : GoString)
  | array (raw : GoString)
  deriving DecidableEq

/-- The kind of the value whose text is `v`, read off its first byte as `d.value` and
`literalStore` do. -/
def classify (v : GoString) : Option Item :=
  match v with
  | [] => none
  | c :: _ =>
    if c.val = '{'.toNat then some (.object v)
    else if c.val = '['.toNat then some (.array v)
    else if c.val = '"'.toNat then (unquoteBytes v).map .string
    else if c.val = 'n'.toNat then some .null
    else if c.val = 't'.toNat then some (.bool true)
    else if c.val = 'f'.toNat then some (.bool false)
    else some (.number v)

/-- The loop of `d.object` over the members of an object, from behind its `{` or a
comma: each key unquoted, each value classified, in the order of the text. -/
def membersLoop : Nat → List Byte → Option (List (GoString × Item))
  | 0, _ => none
  | fuel + 1, bs =>
    match skipSpace bs with
    | [] => none
    | c :: rest =>
      if c.val = '}'.toNat then some []
      else
        match nextValue (c :: rest) with
        | none => none
        | some (keyLit, afterKey) =>
          match unquoteBytes keyLit, skipSpace afterKey with
          | some key, colon :: afterColon =>
            if colon.val ≠ ':'.toNat then none
            else
              match nextValue (skipSpace afterColon) with
              | none => none
              | some (valLit, afterVal) =>
                match classify valLit, skipSpace afterVal with
                | some item, sep :: more =>
                  if sep.val = ','.toNat then (membersLoop fuel more).map ((key, item) :: ·)
                  else if sep.val = '}'.toNat then some [(key, item)]
                  else none
                | _, _ => none
          | _, _ => none

/-- The members of the object whose text is `raw` (it starts with `{`). -/
def objectMembers (raw : GoString) : Option (List (GoString × Item)) :=
  membersLoop raw.length raw.tail

/-- The top-level value of `value`, the bytes `readValue` returned. -/
def topLevel (value : GoString) : Option Item := classify (skipSpace value)

/-- The `foldRune` of `encoding/json` on the code points that matter to a name of
ASCII letters: the long s (U+017F) and the Kelvin sign (U+212A) are, with the ASCII
letters, the only code points whose fold set holds an ASCII letter. Every other code
point past U+007F folds to one past U+007F and is left as it is here. -/
def foldRune (r : Nat) : Nat :=
  if r = 0x17F then 'S'.toNat else if r = 0x212A then 'K'.toNat else r

/-- The loop of `foldName` (`appendFoldedName`): ASCII letters in upper case, every
other code point replaced by `foldRune` of it. -/
def foldNameLoop : Nat → List Byte → GoString
  | 0, _ => []
  | fuel + 1, s =>
    match s with
    | [] => []
    | c :: rest =>
      if c.val < 0x80 then
        (if 'a'.toNat ≤ c.val ∧ c.val ≤ 'z'.toNat then byte (c.val - 32) else c)
          :: foldNameLoop fuel rest
      else
        let d := DecodeRune s
        EncodeRune (foldRune d.1) ++ foldNameLoop fuel (s.drop d.2)

/-- The `foldName` of `encoding/json`: two names match without regard to case when
their folded names are equal. -/
def foldName (s : GoString) : GoString := foldNameLoop s.length s

/-- The field of a struct that an object key selects in `d.object`: the field whose
JSON name is the key (`byExactName`), else the field whose folded name is the folded
key (`byFoldedName`), else none. `fields` lists the JSON names in the order of the
struct. -/
def findField {φ : Type} (fields : List (GoString × φ)) (key : GoString) : Option φ :=
  match fields.find? fun f => f.1 = key with
  | some f => some f.2
  | none => (fields.find? fun f => foldName f.1 = foldName key).map (·.2)

/-- The text `Value` of an `UnmarshalTypeError` for a JSON value that does not fit its
destination. -/
def Item.describe : Item → GoString
  | .null => str "null"
  | .bool _ => str "bool"
  | .number _ => str "number"
  | .string _ => str "string"
  | .object _ => str "object"
  | .array _ => str "array"

/-- Go `strconv.ParseUint(s, 10, 64)` without its range check (`ParseInt` below makes a
stricter one): the number the decimal digits stand for. -/
def parseDigits : List Byte → Option Nat
  | [] => none
  | digits =>
    digits.foldl
      (fun acc d =>
        match acc with
        | some n => if isDigit d then some (n * 10 + (d.val - '0'.toNat)) else none
        | none => none)
      (some 0)

/-- Go `strconv.ParseInt(s, 10, 64)`: `none` for a syntax error and for a value outside
`-2^63 .. 2^63 - 1`. -/
def ParseInt (s : GoString) : Option Int :=
  match s with
  | [] => none
  | c :: rest =>
    let neg : Bool := c.val = '-'.toNat
    let digits := if c.val = '+'.toNat ∨ c.val = '-'.toNat then rest else s
    match parseDigits digits with
    | none => none
    | some un =>
      if !neg ∧ un ≥ 2 ^ 63 then none
      else if neg ∧ un > 2 ^ 63 then none
      else some (if neg then -(un : Int) else (un : Int))

/-- The store of a JSON value into a field of kind `string` (`literalStore`,
`d.object`, `d.array`): a string is stored, `null` changes nothing, anything else is
an `UnmarshalTypeError`. -/
def storeString (struct field : String) (item : Item) (cur : GoString) :
    GoString × Option GoError :=
  match item with
  | .string s => (s, none)
  | .null => (cur, none)
  | other => (cur, some (.UnmarshalTypeError other.describe (str "string") (str struct) (str field)))

/-- The store of a JSON value into a field of kind `int` or `int64` (both 64 bits
wide, so `OverflowInt` never holds): a number that `ParseInt` accepts is stored,
`null` changes nothing, anything else is an `UnmarshalTypeError`. -/
def storeInt (type struct field : String) (item : Item) (cur : Int) : Int × Option GoError :=
  match item with
  | .number lit =>
    match ParseInt lit with
    | some n => (n, none)
    | none =>
      (cur, some (.UnmarshalTypeError (str "number " ++ lit) (str type) (str struct) (str field)))
  | .null => (cur, none)
  | other => (cur, some (.UnmarshalTypeError other.describe (str type) (str struct) (str field)))

/-- The loop of `d.object` for a struct destination: every member is stored in turn
with `store`, and of the errors met the first is kept (`d.saveError`). -/
def storeMembers {σ : Type} (store : GoString → Item → σ → σ × Option GoError)
    (members : List (GoString × Item)) (dst : σ) : σ × Option GoError :=
  members.foldl
    (fun acc kv =>
      let r := store kv.1 kv.2 acc.1
      (r.1, match acc.2 with
        | some e => some e
        | none => r.2))
    (dst, none)

/-- Go `decodeState.unmarshal` for a pointer to a struct of type `typeName`: an object
is stored member by member, `null` changes nothing, any other value is an
`UnmarshalTypeError` that names no field. -/
def unmarshalStruct {σ : Type} (typeName : String)
    (store : GoString → Item → σ → σ × Option GoError) (value : GoString) (dst : σ) :
    σ × Option GoError :=
  match topLevel value with
  | some (.object raw) =>
    match objectMembers raw with
    | some members => storeMembers store members dst
    | none => (dst, none)
  | some .null => (dst, none)
  | some other => (dst, some (.UnmarshalTypeError other.describe (str typeName) [] []))
  | none => (dst, none)

/-- Go `json.NewDecoder(body).Decode(dst)`: the first JSON value of the body is read
whole, and only then stored; an error of the read leaves `dst` as it was. -/
def Decode {σ : Type} (unmarshal : GoString → σ → σ × Option GoError) (body : Body) (dst : σ) :
    σ × Option GoError :=
  match readValue body with
  | .error e => (dst, some e)
  | .ok value => unmarshal value dst

/-! ## net/http -/

/-- A Go `context.Context` as far as `NewRequestWithContext` looks at it: `nil` is the
nil interface value. -/
inductive Context where
  | nil
  | Background
  | other (id : Nat)
  deriving DecidableEq

/-- The fields of `http.Request` this package sets. `Header` is a
`map[string][]string` like `url.Values`. -/
structure Request where
  ctx : Context
  Method : GoString
  URL : GoString
  Header : Values
  Body : GoString
  deriving DecidableEq

/-- The fields of `http.Response` this package reads. -/
structure Response where
  StatusCode : Int
  Body : Body

/-- Go `http.NewRequestWithContext` for a valid method and URL: it fails on the nil
context alone, and the new request has no header. -/
def NewRequestWithContext (ctx : Context) (method url body : GoString) : Except GoError Request :=
  if ctx = .nil then .error (.errorString (str "net/http: nil Context"))
  else .ok { ctx := ctx, Method := method, URL := url, Header := [], Body := body }

/-- Go `Header.Set`. The keys this package sets, `Content-Type` and `Accept`, are in
canonical form already, so `CanonicalMIMEHeaderKey` leaves them as they are. -/
def Header.Set (h : Values) (key value : GoString) : Values := Values.Set h key value

/-! ## ibmctoken.go -/

/-- The constant `tokenUrl`. -/
def tokenUrl : GoString := str "https://iam.cloud.ibm.com/identity/token"

/-- The constant `tokenContentType`. -/
def tokenContentType : GoString := str "application/x-www-form-urlencoded"

/-- The constant `tokenAccept`. -/
def tokenAccept : GoString := str "application/json"

/-- The constant `tokenGrantType`. -/
def tokenGrantType : GoString := str "urn:ibm:params:oauth:grant-type:apikey"

/-- The constant `http.MethodPost`. -/
def MethodPost : GoString := str "POST"

/-- A value of the interface type `httpclient`: its method `Do`, and what
`encoding/json` needs to know of the dynamic value when a response names the field
`Client`: the decoder follows the pointer held in the interface and decodes into the
value it points to, so `typeName` is the type of that value and `unmarshalObject` the
error, if any, that decoding a JSON object into it records. -/
structure httpclient where
  Do : Request → Except GoError Response
  typeName : GoString
  unmarshalObject : GoString → Option GoError

/-- The struct `tokenResponse`. -/
structure tokenResponse where
  AccessToken : GoString
  ExpiresIn : Int
  Expiration : Int
  deriving DecidableEq

/-- The struct `tokenErrorResponse`. -/
structure tokenErrorResponse where
  ErrorMessage : GoString
  ErrorDetails : GoString
  deriving DecidableEq

/-- The struct `Token`: `ApiKey`, `Client` (`none` is the nil interface) and the
embedded `tokenResponse`, whose fields are promoted. -/
structure Token extends tokenResponse where
  ApiKey : GoString
  Client : Option httpclient

/-- The fields of `Token` that `encoding/json` sees. -/
inductive TokenField where
  | ApiKey | Client | AccessToken | ExpiresIn | Expiration
  deriving DecidableEq

/-- The JSON names of the fields of `Token`, in the order of the struct: the two
untagged fields go by their Go names, the promoted ones by their tags. -/
def tokenFields : List (GoString × TokenField) :=
  [(str "ApiKey", .ApiKey), (str "Client", .Client), (str "access_token", .AccessToken),
    (str "expires_in", .ExpiresIn), (str "expiration", .Expiration)]

/-- The store of a JSON value into the field `Client`, of the interface type
`httpclient`: `null` sets it to nil; into a nil interface that has methods nothing
else can be stored; otherwise the value goes into the dynamic value the interface
points to. -/
def storeClient (item : Item) (cur : Option httpclient) : Option httpclient × Option GoError :=
  match item, cur with
  | .null, _ => (none, none)
  | other, none =>
    (none, some (.UnmarshalTypeError other.describe (str "ibmctoken.httpclient") (str "Token")
      (str "Client")))
  | .object raw, some c => (some c, c.unmarshalObject raw)
  | other, some c =>
    (some c, some (.UnmarshalTypeError other.describe c.typeName (str "Token") (str "Client")))

/-- The store of one member of a JSON object into a `Token`: the member `key: item`
goes to the field the key selects, and a key that selects none is skipped. -/
def Token.store (key : GoString) (item : Item) (t : Token) : Token × Option GoError :=
  match findField tokenFields key with
  | none => (t, none)
  | some .ApiKey =>
    let r := storeString "Token" "ApiKey" item t.ApiKey
    ({ t with ApiKey := r.1 }, r.2)
  | some .Client =>
    let r := storeClient item t.Client
    ({ t with Client := r.1 }, r.2)
  | some .AccessToken =>
    let r := storeString "Token" "access_token" item t.AccessToken
    ({ t with AccessToken := r.1 }, r.2)
  | some .ExpiresIn =>
    let r := storeInt "int" "Token" "expires_in" item t.ExpiresIn
    ({ t with ExpiresIn := r.1 }, r.2)
  | some .Expiration =>
    let r := storeInt "int64" "Token" "expiration" item t.Expiration
    ({ t with Expiration := r.1 }, r.2)

/-- The fields of `tokenErrorResponse` that `encoding/json` sees. -/
inductive ErrorField where
  | ErrorMessage | ErrorDetails
  deriving DecidableEq

/-- The JSON names of the fields of `tokenErrorResponse`. -/
def errorFields : List (GoString × ErrorField) :=
  [(str "errorMessage", .ErrorMessage), (str "errorDetails", .ErrorDetails)]

/-- The store of one member of a JSON object into a `tokenErrorResponse`. -/
def tokenErrorResponse.store (key : GoString) (item : Item) (r : tokenErrorResponse) :
    tokenErrorResponse × Option GoError :=
  match findField errorFields key with
  | none => (r, none)
  | some .ErrorMessage =>
    let x := storeString "tokenErrorResponse" "errorMessage" item r.ErrorMessage
    ({ r with ErrorMessage := x.1 }, x.2)
  | some .ErrorDetails =>
    let x := storeString "tokenErrorResponse" "errorDetails" item r.ErrorDetails
    ({ r with ErrorDetails := x.1 }, x.2)

/-- How a call ends: it returns an `error` (`none` is nil), or the goroutine panics. -/
inductive Outcome where
  | returned (err : Option GoError)
  | panicked
  deriving DecidableEq

/-- A call of a method of `*Token`: how it ended, the `Token` behind the receiver
afterwards, and the requests handed to `Client.Do`, in order. -/
structure Call where
  outcome : Outcome
  token : Token
  sent : List Request

/-- The function `NewToken`. The `http.Client` it allocates reaches the network, which
is outside the program: its behaviour is the argument `defaultClient`. -/
def NewToken (apikey : GoString) (defaultClient : httpclient) : Token :=
  { ApiKey := apikey, Client := some defaultClient, AccessToken := [], ExpiresIn := 0,
    Expiration := 0 }

/-- The request `RequestTokenWithContext` builds (lines 70 to 82): the form of
`grant_type` and `apikey`, encoded, as the body of a POST to `tokenUrl` with the two
headers; the error of `http.NewRequestWithContext` when that fails. -/
def Token.newRequest (t : Token) (ctx : Context) : Except GoError Request :=
  let data : Values := []
  let data := Values.Set data (str "grant_type") tokenGrantType
  let data := Values.Set data (str "apikey") t.ApiKey
  let dataEncoded := Values.Encode data
  match NewRequestWithContext ctx MethodPost tokenUrl dataEncoded with
  | .error err => .error err
  | .ok req =>
    let req := { req with Header := Header.Set req.Header (str "Content-Type") tokenContentType }
    let req := { req with Header := Header.Set req.Header (str "Accept") tokenAccept }
    .ok req

/-- The method `RequestTokenWithContext`. -/
def Token.RequestTokenWithContext (t : Token) (ctx : Context) : Call :=
  match t.newRequest ctx with
  | .error err => { outcome := .returned (some err), token := t, sent := [] }
  | .ok req =>
    match t.Client with
    | none => { outcome := .panicked, token := t, sent := [] }
    | some client =>
      match client.Do req with
      | .error err => { outcome := .returned (some err), token := t, sent := [req] }
      | .ok res =>
        if res.StatusCode ≥ 400 then
          let errResponse : tokenErrorResponse := { ErrorMessage := [], ErrorDetails := [] }
          match Decode (unmarshalStruct "ibmctoken.tokenErrorResponse" tokenErrorResponse.store)
              res.Body errResponse with
          | (_, some err) => { outcome := .returned (some err), token := t, sent := [req] }
          | (errResponse, none) =>
            { outcome := .returned (some (.errorString
                (errResponse.ErrorMessage ++ str " " ++ errResponse.ErrorDetails)))
              token := t, sent := [req] }
        else
          match Decode (unmarshalStruct "ibmctoken.Token" Token.store) res.Body t with
          | (t1, some err) => { outcome := .returned (some err), token := t1, sent := [req] }
          | (t1, none) => { outcome := .returned none, token := t1, sent := [req] }

/-- The method `RequestToken`. -/
def Token.RequestToken (t : Token) : Call := t.RequestTokenWithContext .Background

/-- The method `Expired`, with the value of `time.Now().Unix()` as the argument `now`:
the answer, and the `Token` behind the receiver afterwards. -/
def Token.Expired (t : Token) (now : Int) : Bool × Token := (decide (now > t.Expiration), t)

/-! ## cmd/ibmctoken/main.go -/

/-- What a run of the program leaves behind: the text written to standard output, the
exit code, and the requests handed to the transport. -/
structure Run where
  stdout : GoString
  exitCode : Nat
  sent : List Request

/-- The function `main`, with `os.Args` and the behaviour of the `http.Client` of
`NewToken` as arguments. `fmt.Println` writes its argument and a newline; a panic
ends a Go program with exit code 2 and writes nothing to standard output. -/
def main (osArgs : List GoString) (defaultClient : httpclient) : Run :=
  if osArgs.length ≠ 2 then
    { stdout := str "Usage: ibmctoken <api-key>" ++ str "\n", exitCode := 1, sent := [] }
  else
    let apikey := osArgs.getD 1 []
    let token := NewToken apikey defaultClient
    let call := token.RequestToken
    match call.outcome with
    | .returned (some err) => { stdout := err.Error ++ str "\n", exitCode := 1, sent := call.sent }
    | .returned none =>
      { stdout := call.token.AccessToken ++ str "\n", exitCode := 0, sent := call.sent }
    | .panicked => { stdout := [], exitCode := 2, sent := call.sent }

/-! ## pkg/ibmctoken/ibmctoken_test.go -/

/-- The store of one member of a JSON object into the struct `mockClient` of the test
file, whose one field `DoFunc` is a function: `null` changes nothing and no other
value fits. -/
def mockClientStore (key : GoString) (item : Item) (u : Unit) : Unit × Option GoError :=
  match findField [(str "DoFunc", ())] key, item with
  | some _, .null => (u, none)
  | some _, other =>
    (u, some (.UnmarshalTypeError other.describe
      (str "func(*http.Request) (*http.Response, error)") (str "mockClient")
      (str "Client.DoFunc")))
  | none, _ => (u, none)

/-- The function `newMockClient` of the test file: a client whose `Do` fails with `err`
when there is one and otherwise answers every request with `status` and `body`. -/
def newMockClient (status : Int) (body : GoString) (err : Option GoError) : httpclient :=
  { Do := fun _ =>
      match err with
      | some e => .error e
      | none => .ok { StatusCode := status, Body := { data := body, readErr := none } }
    typeName := str "ibmctoken_test.mockClient"
    unmarshalObject := fun raw =>
      match objectMembers raw with
      | some members => (storeMembers mockClientStore members ()).2
      | none => none }

/-- The constant `http.StatusOK`. -/
def StatusOK : Int := 200

/-- The constant `http.StatusBadRequest`. -/
def StatusBadRequest : Int := 400

/-- The constant `http.StatusBadGateway`. -/
def StatusBadGateway : Int := 502

/-- A token as a test makes it: `NewToken(apikey)` with `Client` replaced by a
mock. -/
def testToken (apikey : GoString) (client : httpclient) : Token :=
  { NewToken apikey client with Client := some client }

/-! ## Vocabulary of the statements, and the inputs of the tests -/

/-- JSON white space: any number of spaces, tabs, line feeds and carriage returns. -/
def Blank (w : GoString) : Prop :=
  ∀ c ∈ w, c.val = ' '.toNat ∨ c.val = '\t'.toNat ∨ c.val = '\n'.toNat ∨ c.val = '\r'.toNat

instance Blank.decidable (w : GoString) : Decidable (Blank w) := by
  unfold Blank
  infer_instance

/-- One or more decimal digits. -/
def Digits (ds : GoString) : Prop :=
  ds ≠ [] ∧ ∀ c ∈ ds, '0'.toNat ≤ c.val ∧ c.val ≤ '9'.toNat

instance Digits.decidable (ds : GoString) : Decidable (Digits ds) := by
  unfold Digits
  infer_instance

/-- A JSON number: an optional minus sign, an integer part that has no leading zero
unless it is `0`, an optional fraction and an optional exponent. -/
def Number (t : GoString) : Prop :=
  ∃ sign whole frac expo : GoString, t = sign ++ whole ++ frac ++ expo
    ∧ (sign = [] ∨ sign = str "-")
    ∧ Digits whole ∧ (whole = str "0" ∨ whole.head? ≠ some (byte '0'.toNat))
    ∧ (frac = [] ∨ ∃ ds, Digits ds ∧ frac = byte '.'.toNat :: ds)
    ∧ (expo = [] ∨ ∃ e sg ds, (e.val = 'e'.toNat ∨ e.val = 'E'.toNat)
        ∧ (sg = [] ∨ sg = str "+" ∨ sg = str "-") ∧ Digits ds ∧ expo = e :: (sg ++ ds))

/-- A byte that a JSON string holds as itself: ASCII from the space on, other than the
quote and the backslash. -/
def isPlain (c : Byte) : Bool :=
  0x20 ≤ c.val ∧ c.val < 0x80 ∧ c.val ≠ '"'.toNat ∧ c.val ≠ '\\'.toNat

/-- The two-character escapes of a JSON string: the byte that `\e` stands for. -/
def escapeOf (e : Byte) : Option Byte :=
  if e.val = '"'.toNat then some (byte '"'.toNat)
  else if e.val = '\\'.toNat then some (byte '\\'.toNat)
  else if e.val = '/'.toNat then some (byte '/'.toNat)
  else if e.val = 'b'.toNat then some (byte 0x08)
  else if e.val = 'f'.toNat then some (byte 0x0C)
  else if e.val = 'n'.toNat then some (byte 0x0A)
  else if e.val = 'r'.toNat then some (byte 0x0D)
  else if e.val = 't'.toNat then some (byte 0x09)
  else none

/-- The value of a hexadecimal digit, written in either case. -/
def hexDigit (c : Byte) : Option Nat :=
  if (str "0123456789abcdef").indexOf c < 16 then some ((str "0123456789abcdef").indexOf c)
  else if (str "0123456789ABCDEF").indexOf c < 16 then some ((str "0123456789ABCDEF").indexOf c)
  else none

/-- The number that four hexadecimal digits stand for. -/
def hex4 (h1 h2 h3 h4 : Byte) : Option Nat :=
  match hexDigit h1, hexDigit h2, hexDigit h3, hexDigit h4 with
  | some a, some b, some c, some d => some (a * 4096 + b * 256 + c * 16 + d)
  | _, _, _, _ => none

/-- A code point that is a Unicode scalar value beyond ASCII: `0x80 ≤ r ≤ 0x10FFFF`,
and no surrogate. -/
def isScalar (r : Nat) : Prop := 0x80 ≤ r ∧ r ≤ 0x10FFFF ∧ ¬(0xD800 ≤ r ∧ r ≤ 0xDFFF)

instance isScalar.decidable (r : Nat) : Decidable (isScalar r) := by
  unfold isScalar
  infer_instance

/-- `Chars t s`: the text `t`, standing between the quotes of a JSON string, is
well-formed and stands for the bytes `s`. It is made of plain ASCII bytes, UTF-8
encoded code points beyond ASCII, two-character escapes, `\uXXXX` escapes of code
points that are no surrogates, and pairs of `\uXXXX` escapes that are a high and a low
surrogate. -/
inductive Chars : GoString → GoString → Prop where
  | nil : Chars [] []
  | plain (c : Byte) {t s : GoString} (hc : isPlain c = true) (h : Chars t s) :
      Chars (c :: t) (c :: s)
  | utf8 (r : Nat) {t s : GoString} (hr : isScalar r) (h : Chars t s) :
      Chars (EncodeRune r ++ t) (EncodeRune r ++ s)
  | escape (e c : Byte) {t s : GoString} (he : escapeOf e = some c) (h : Chars t s) :
      Chars (byte '\\'.toNat :: e :: t) (c :: s)
  | unicode (h1 h2 h3 h4 : Byte) (u : Nat) {t s : GoString} (hu : hex4 h1 h2 h3 h4 = some u)
      (hs : ¬(0xD800 ≤ u ∧ u ≤ 0xDFFF)) (h : Chars t s) :
      Chars (byte '\\'.toNat :: byte 'u'.toNat :: h1 :: h2 :: h3 :: h4 :: t) (EncodeRune u ++ s)
  | pair (h1 h2 h3 h4 l1 l2 l3 l4 : Byte) (hi lo : Nat) {t s : GoString}
      (hhi : hex4 h1 h2 h3 h4 = some hi) (hlo : hex4 l1 l2 l3 l4 = some lo)
      (hh : 0xD800 ≤ hi ∧ hi ≤ 0xDBFF) (hl : 0xDC00 ≤ lo ∧ lo ≤ 0xDFFF) (h : Chars t s) :
      Chars
        (byte '\\'.toNat :: byte 'u'.toNat :: h1 :: h2 :: h3 :: h4
          :: byte '\\'.toNat :: byte 'u'.toNat :: l1 :: l2 :: l3 :: l4 :: t)
        (EncodeRune (0x10000 + (hi - 0xD800) * 0x400 + (lo - 0xDC00)) ++ s)

/-- The text `t` between quotes. -/
def quoted (t : GoString) : GoString := byte '"'.toNat :: (t ++ [byte '"'.toNat])

/-- The parts of a JSON text that `Json` describes: a value; the elements of an array,
with the commas between them; the members of an object, with the commas between them,
and what they are: of each member the key and the text of the value. -/
inductive Kind where
  | value
  | elements
  | members (ms : List (GoString × GoString))

/-- `Json k d t`: the text `t` is well-formed JSON of the kind `k`, in which arrays and
objects are nested at most `d` deep. White space may stand before and after every
element, key and member value. -/
inductive Json : Kind → Nat → GoString → Prop where
  | litNull (d : Nat) : Json .value d (str "null")
  | litTrue (d : Nat) : Json .value d (str "true")
  | litFalse (d : Nat) : Json .value d (str "false")
  | number (d : Nat) {t : GoString} (h : Number t) : Json .value d t
  | string (d : Nat) {t s : GoString} (h : Chars t s) : Json .value d (quoted t)
  | emptyArray (d : Nat) {w : GoString} (hw : Blank w) :
      Json .value (d + 1) (byte '['.toNat :: (w ++ [byte ']'.toNat]))
  | array {d : Nat} {t : GoString} (h : Json .elements d t) :
      Json .value (d + 1) (byte '['.toNat :: (t ++ [byte ']'.toNat]))
  | emptyObject (d : Nat) {w : GoString} (hw : Blank w) :
      Json .value (d + 1) (byte '{'.toNat :: (w ++ [byte '}'.toNat]))
  | object {d : Nat} {ms : List (GoString × GoString)} {t : GoString}
      (h : Json (.members ms) d t) :
      Json .value (d + 1) (byte '{'.toNat :: (t ++ [byte '}'.toNat]))
  | element {d : Nat} {w1 v w2 : GoString} (h1 : Blank w1) (h : Json .value d v)
      (h2 : Blank w2) : Json .elements d (w1 ++ v ++ w2)
  | elementCons {d : Nat} {w1 v w2 t : GoString} (h1 : Blank w1) (h : Json .value d v)
      (h2 : Blank w2) (hs : Json .elements d t) :
      Json .elements d (w1 ++ v ++ w2 ++ byte ','.toNat :: t)
  | member {d : Nat} {w1 kt k w2 w3 v w4 : GoString} (h1 : Blank w1) (hk : Chars kt k)
      (h2 : Blank w2) (h3 : Blank w3) (h : Json .value d v) (h4 : Blank w4) :
      Json (.members [(k, v)]) d (w1 ++ quoted kt ++ w2 ++ byte ':'.toNat :: (w3 ++ v ++ w4))
  | memberCons {d : Nat} {w1 kt k w2 w3 v w4 : GoString} {ms : List (GoString × GoString)}
      {t : GoString} (h1 : Blank w1) (hk : Chars kt k) (h2 : Blank w2) (h3 : Blank w3)
      (h : Json .value d v) (h4 : Blank w4) (hs : Json (.members ms) d t) :
      Json (.members ((k, v) :: ms)) d
        (w1 ++ quoted kt ++ w2 ++ byte ':'.toNat :: (w3 ++ v ++ w4) ++ byte ','.toNat :: t)

/-- `Object t ms`: the text `t` is a well-formed JSON object whose members are `ms`, in
the order of the text: of each member the key and the text of the value. Arrays and
objects are nested no deeper than `encoding/json` reads, `maxNestingDepth` levels. -/
def Object (t : GoString) (ms : List (GoString × GoString)) : Prop :=
  (ms = [] ∧ ∃ w, Blank w ∧ t = byte '{'.toNat :: (w ++ [byte '}'.toNat]))
    ∨ ∃ d b, d < maxNestingDepth ∧ Json (.members ms) d b
      ∧ t = byte '{'.toNat :: (b ++ [byte '}'.toNat])

/-- The request every call of the tests hands to the mock: the API key is
`test-token`. -/
def testRequest : Request :=
  { ctx := .Background, Method := str "POST", URL := str "https://iam.cloud.ibm.com/identity/token"
    Header :=
      [(str "Content-Type", [str "application/x-www-form-urlencoded"]),
        (str "Accept", [str "application/json"])]
    Body := str "apikey=test-token&grant_type=urn%3Aibm%3Aparams%3Aoauth%3Agrant-type%3Aapikey" }

/-- The bytes that separate the parts of a form: `&`, `=` and `;`. -/
def isSeparator (c : Byte) : Bool :=
  c.val = '&'.toNat ∨ c.val = '='.toNat ∨ c.val = ';'.toNat

/-- The scanner after the bytes `xs`, when `readValueLoop` reads all of them without
stopping: none of them ends the value or is an error. -/
def scanBytes : scanner → List Byte → Option scanner
  | s, [] => some s
  | s, c :: rest =>
    match scanner.doStep { s with bytes := s.bytes + 1 } c with
    | (.scanEnd, _) => none
    | (.scanEndObject, s2) =>
      if (stateEndValue s2 (byte ' '.toNat)).1 = .scanEnd then none
      else scanBytes (stateEndValue s2 (byte ' '.toNat)).2 rest
    | (.scanEndArray, s2) =>
      if (stateEndValue s2 (byte ' '.toNat)).1 = .scanEnd then none
      else scanBytes (stateEndValue s2 (byte ' '.toNat)).2 rest
    | (.scanError, _) => none
    | (_, s2) => scanBytes s2 rest

/-- The bytes `xs` take a scanner in step `step` with stack `ps` to step `step2` with
stack `ps2`, whatever its other fields hold. -/
def scansTo (step : Step) (ps : List ParseState) (xs : List Byte) (step2 : Step)
    (ps2 : List ParseState) : Prop :=
  ∀ s : scanner, s.step = step → s.parseState = ps →
    ∃ s2, scanBytes s xs = some s2 ∧ s2.step = step2 ∧ s2.parseState = ps2

/-- The decimal digits of `n`, the last digit first; `fuel` bounds their number. -/
def digitsLE : Nat → Nat → List Byte
  | 0, _ => []
  | fuel + 1, n =>
    if n < 10 then [byte ('0'.toNat + n)]
    else byte ('0'.toNat + n % 10) :: digitsLE fuel (n / 10)

/-- Go `strconv.FormatUint(n, 10)`: the decimal digits of `n`, without leading zeros. -/
def FormatUint (n : Nat) : GoString := (digitsLE (n + 1) n).reverse

/-- Go `strconv.FormatInt(i, 10)`: a minus sign for a negative number, then the digits
of its absolute value. -/
def FormatInt (i : Int) : GoString :=
  if i < 0 then byte '-'.toNat :: FormatUint i.natAbs else FormatUint i.natAbs

/-- The step of `parseDigits` on one more digit. -/
def parseDigitsStep (acc : Option Nat) (d : Byte) : Option Nat :=
  match acc with
  | some n => if isDigit d then some (n * 10 + (d.val - '0'.toNat)) else none
  | none => none

/-- The steps in which the scanner stands behind a complete value: behind a string, a
literal or a closing bracket (`stateEndValue`), or behind the last digit so far of a
number. -/
def valueEnd (st : Step) : Prop :=
  st = .stateEndValue ∨ st = .state0 ∨ st = .state1 ∨ st = .stateDot0 ∨ st = .stateE0

/-- The steps in which the scanner expects a value. -/
def valueBegin (st : Step) : Prop := st = .stateBeginValue ∨ st = .stateBeginValueOrEmpty

/-- The steps in which the scanner expects the key of a member. -/
def keyBegin (st : Step) : Prop := st = .stateBeginString ∨ st = .stateBeginStringOrEmpty

/-- The opcodes on which `readValue` reads on without a further look. -/
def Op.passes : Op → Bool
  | .scanEnd | .scanEndObject | .scanEndArray | .scanError => false
  | _ => true

/-- The byte `c` closes the array or object on top of the stack when the scanner is in
step `st`: `]` behind an element or right behind `[`, and `}` behind a member or right
behind `{`. -/
def closes (st : Step) (top : ParseState) (c : Byte) : Prop :=
  (c = byte ']'.toNat ∧ top = .parseArrayValue ∧ (valueEnd st ∨ st = .stateBeginValueOrEmpty))
    ∨ (c = byte '}'.toNat
      ∧ ((top = .parseObjectValue ∧ valueEnd st)
        ∨ (top = .parseObjectKey ∧ st = .stateBeginStringOrEmpty)))

/-- The steps from which the integer part of a number starts. -/
def wholeBegin (st : Step) : Prop := valueBegin st ∨ st = .stateNeg

/-- The text `t` does not start with an opening bracket. -/
def noBracket (t : GoString) : Prop :=
  ∃ c rest, t = c :: rest ∧ c.val ≠ '{'.toNat ∧ c.val ≠ '['.toNat

/-- What the scanner does on a well-formed text of each kind, `ps` being the stack
around it. A value is scanned from a step that expects one: a string, number or literal
to a step behind a value; an array or object up to its closing bracket, which then
closes it. The elements of an array and the members of an object are scanned whole,
inside their brackets. -/
def scanSpec : Kind → Nat → GoString → Prop
  | .value, d, t =>
    ∀ (st : Step) (ps : List ParseState), valueBegin st → ps.length + d ≤ maxNestingDepth →
      (noBracket t ∧ ∃ st2, valueEnd st2 ∧ scansTo st ps t st2 ps)
        ∨ ∃ pre c st2 top, t = pre ++ [c] ∧ scansTo st ps pre st2 (top :: ps) ∧ closes st2 top c
  | .elements, d, t =>
    ∀ (st : Step) (ps : List ParseState), valueBegin st →
      ps.length + 1 + d ≤ maxNestingDepth →
      ∃ st2, valueEnd st2 ∧ scansTo st (.parseArrayValue :: ps) t st2 (.parseArrayValue :: ps)
  | .members _, d, t =>
    ∀ (st : Step) (ps : List ParseState), keyBegin st →
      ps.length + 1 + d ≤ maxNestingDepth →
      ∃ st2, valueEnd st2 ∧ scansTo st (.parseObjectKey :: ps) t st2 (.parseObjectValue :: ps)

/-- The bytes that may follow a value inside a JSON text: white space, a comma, a colon
and the closing brackets. -/
def isDelimiter (c : Byte) : Bool :=
  isSpace c || decide (c.val = ','.toNat) || decide (c.val = ':'.toNat)
    || decide (c.val = '}'.toNat) || decide (c.val = ']'.toNat)

/-- What may follow a value for `readValue` to end it there: nothing, with the stream
at its end, or a delimiter. -/
def endsValue (readErr : Option GoError) (rest : List Byte) : Prop :=
  (rest = [] ∧ readErr = none) ∨ ∃ c rest2, rest = c :: rest2 ∧ isDelimiter c = true

/-- The kind of a value as its first byte tells it: no value starts with white space,
and what starts with a digit or a minus sign is a number. -/
def headKind (v : GoString) : Prop :=
  ∃ c rest, v = c :: rest ∧ isSpace c = false
    ∧ (c.val = '{'.toNat ∨ c.val = '['.toNat ∨ c.val = '"'.toNat ∨ c.val = 'n'.toNat
      ∨ c.val = 't'.toNat ∨ c.val = 'f'.toNat ∨ c.val = '-'.toNat
      ∨ ('0'.toNat ≤ c.val ∧ c.val ≤ '9'.toNat))

/-- The item the decoder makes of the text of a value. -/
def itemOf (v : GoString) : Item := (classify v).getD .null

/-- What the loop of `d.object` makes of the members of a well-formed object, up to its
closing brace: of each member the key, unquoted, and the item of its value. -/
def membersSpec : Kind → Nat → GoString → Prop
  | .members ms, d, t =>
    0 < ms.length ∧ ms.length ≤ t.length
      ∧ (d ≤ maxNestingDepth → ∀ (fuel : Nat) (rest : List Byte), ms.length ≤ fuel →
        membersLoop fuel (t ++ byte '}'.toNat :: rest)
          = some (ms.map fun m => (m.1, itemOf m.2)))
  | _, _, _ => True

/-- `StringLit s v`: the text `v` is a well-formed JSON string that stands for the
bytes `s`. -/
def StringLit (s : GoString) (v : GoString) : Prop := ∃ t, Chars t s ∧ v = quoted t

/-- `IntLit n v`: the text `v` is the integer `n`, of the range of `int64`, written in
decimal. -/
def IntLit (n : Int) (v : GoString) : Prop := v = FormatInt n ∧ -2 ^ 63 ≤ n ∧ n < 2 ^ 63

/-- What the members `ms` of an object say of the field `name`, a value of which is
written as `lit` tells. They say `some x` when there is a member of that name and every
member of that name gives `x`; they say `none` when every member of that name, should
there be one, gives `null`. -/
def fieldSays {α : Type} (ms : List (GoString × GoString)) (name : String)
    (lit : α → GoString → Prop) : Option α → Prop
  | some x => (∃ m ∈ ms, m.1 = str name) ∧ ∀ m ∈ ms, m.1 = str name → lit x m.2
  | none => ∀ m ∈ ms, m.1 = str name → m.2 = str "null"

/-- An ASCII letter in lower case; any other byte as it is. -/
def lower (c : Byte) : Byte :=
  if 'A'.toNat ≤ c.val ∧ c.val ≤ 'Z'.toNat then byte (c.val + 32) else c

/-- Whether the key `key` of a member is the name `name`, a name of ASCII bytes, without
regard to case: byte for byte with ASCII letters in either case, the long s (U+017F,
the bytes C5 BF) standing for `s` and the Kelvin sign (U+212A, the bytes E2 84 AA) for
`k`, the two letters beyond ASCII of which an ASCII letter is a case variant. -/
def sameName : GoString → GoString → Bool
  | [], key => key.isEmpty
  | d :: name, key =>
    match key with
    | [] => false
    | c :: rest =>
      if lower c = lower d then sameName name rest
      else if lower d = byte 's'.toNat ∧ key.take 2 = [byte 0xC5, byte 0xBF] then
        sameName name (key.drop 2)
      else if lower d = byte 'k'.toNat ∧ key.take 3 = [byte 0xE2, byte 0x84, byte 0xAA] then
        sameName name (key.drop 3)
      else false

/-- A success body that says `a`, `n` and `e` of the three fields of a token response:
white space, a well-formed JSON object, and whatever follows it. Of the members of the
object those named `access_token`, `expires_in` and `expiration` say `a`, `n` and `e`;
they may stand in any order among further members, whose keys are, also without regard
to case, no name of a field of `Token`. -/
def tokenBody (body : Body) (a : Option GoString) (n e : Option Int) : Prop :=
  ∃ (w obj rest : GoString) (ms : List (GoString × GoString)),
    body.data = w ++ obj ++ rest ∧ Blank w ∧ Object obj ms
      ∧ fieldSays ms "access_token" StringLit a ∧ fieldSays ms "expires_in" IntLit n
      ∧ fieldSays ms "expiration" IntLit e
      ∧ ∀ m ∈ ms, m.1 = str "access_token" ∨ m.1 = str "expires_in" ∨ m.1 = str "expiration"
        ∨ ∀ f ∈ tokenFields, sameName f.1 m.1 = false

/-- A well-formed success body `{"access_token": a, "expires_in": n, "expiration": e}`:
a `tokenBody` that gives all three fields. -/
def successBody (body : Body) (a : GoString) (n e : Int) : Prop :=
  tokenBody body (some a) (some n) (some e)

/-- A well-formed error body `{"errorMessage": m, "errorDetails": d}`: white space, a
well-formed JSON object, and whatever follows it. Of the members of the object those
named `errorMessage` and `errorDetails` are strings that stand for `m` and `d`; they may
stand in any order among further members, whose keys are, also without regard to case,
no name of a field of `tokenErrorResponse`. -/
def errorBody (body : Body) (m d : GoString) : Prop :=
  ∃ (w obj rest : GoString) (ms : List (GoString × GoString)),
    body.data = w ++ obj ++ rest ∧ Blank w ∧ Object obj ms
      ∧ fieldSays ms "errorMessage" StringLit (some m) ∧ fieldSays ms "errorDetails" StringLit (some d)
      ∧ ∀ x ∈ ms, x.1 = str "errorMessage" ∨ x.1 = str "errorDetails"
        ∨ ∀ f ∈ errorFields, sameName f.1 x.1 = false

/-- An ASCII letter in upper case, as `foldName` writes it; any other byte as it is. -/
def upperByte (c : Byte) : Byte :=
  if 'a'.toNat ≤ c.val ∧ c.val ≤ 'z'.toNat then byte (c.val - 32) else c

/-- What the text `v` of a member value says of a field: `some x` when it is a literal of
`x`, `none` when it is `null`. -/
def valueSays {α : Type} (lit : α → GoString → Prop) : Option α → GoString → Prop
  | some x, v => lit x v
  | none, v => v = str "null"

/-- The body of the test `StatusCodeOK`. -/
def okBody : GoString :=
  str "\x7b\"access_token\":\"access-token\",\"expires_in\":3600,\"expiration\":1577808000\x7d"

/-- The body of the test `StatusCodeNotOK`. -/
def notOkBody : GoString :=
  str "\x7b\"errorMessage\":\"error-message\",\"errorDetails\":\"error-details\"\x7d"

/-- The body of the tests `StatusCodeNotOkBrokenBody` and `DoError`. -/
def brokenErrorBody : GoString :=
  str "\x7b\"errorMessage\":\"error-message\",\"errorDetails\":\"error-details"

/-- A success response whose `expires_in` is a string: valid JSON that does not fit
`tokenResponse`. -/
def mismatchBody : GoString :=
  str "\x7b\"access_token\":\"half\",\"expires_in\":\"soon\",\"expiration\":1577808000\x7d"

/-- A success response that carries, besides the three fields, the key `apikey`. -/
def apiKeyBody : GoString :=
  str "\x7b\"access_token\":\"a\",\"expires_in\":3600,\"expiration\":1577808000,\"apikey\":\"overwritten\"\x7d"

/-- A success body laid out as a service may send it: white space before the object and
around a colon and a comma, the three fields in another order among three further
members, one of which holds an array and an object, an access token written with
escapes and with text beyond ASCII, and text behind the object. -/
def layoutBody : GoString :=
  str " \x7b\"expires_in\" : 3600, \"token_type\":\"Bearer\",\"access_token\":\"a\\u002Db\\n\\\"é\\uD83D\\uDE00\",\"scope\":[\"ibm\",\x7b\"x\":-1.5e+3\x7d],\"expiration\":1577808000,\"nothing\":null\x7d tail"

/-- An error body with the two fields in another order among two further members, one
of which holds an object. -/
def layoutErrorBody : GoString :=
  str "\x7b\"errorCode\":\"BXNIM0415E\",\"errorDetails\":\"no \\\"key\\\"\",\"context\":\x7b\"requestId\":\"r-1\"\x7d,\n\"errorMessage\":\"Provided API key could not be found.\"\x7d\n"

/-! ## Supporting lemmas -/

@[simp] theorem byte_val (n : Nat) : (byte n).val = n % 256 := rfl

theorem findField_access_token : findField tokenFields (str "access_token") = some .AccessToken := by
  decide

theorem findField_expires_in : findField tokenFields (str "expires_in") = some .ExpiresIn := by
  decide

theorem findField_expiration : findField tokenFields (str "expiration") = some .Expiration := by
  decide

theorem findField_errorMessage :
    findField errorFields (str "errorMessage") = some .ErrorMessage := by
  decide

theorem findField_errorDetails :
    findField errorFields (str "errorDetails") = some .ErrorDetails := by
  decide

theorem testToken_newRequest (client : httpclient) :
    (testToken (str "test-token") client).newRequest .Background = .ok testRequest := by
  rfl

theorem hexVal_upperhex (n : Nat) (h : n < 16) : hexVal (upperhex n) = some n := by
  interval_cases n <;> decide

theorem byte_hex_join (c : Byte) : byte (c.val / 16 * 16 + c.val % 16) = c := by
  apply Fin.ext
  simp only [byte_val]
  omega

theorem QueryUnescape_plus (rest : GoString) :
    QueryUnescape (byte '+'.toNat :: rest) = (QueryUnescape rest).map (byte ' '.toNat :: ·) := by
  rw [QueryUnescape.eq_def]
  simp

theorem QueryUnescape_percent (h l : Byte) (rest : GoString) (a b : Nat)
    (ha : hexVal h = some a) (hb : hexVal l = some b) :
    QueryUnescape (byte '%'.toNat :: h :: l :: rest)
      = (QueryUnescape rest).map (byte (a * 16 + b) :: ·) := by
  rw [QueryUnescape.eq_def]
  simp [ha, hb]

theorem QueryUnescape_plain (c : Byte) (rest : GoString) (h1 : c.val ≠ '%'.toNat)
    (h2 : c.val ≠ '+'.toNat) :
    QueryUnescape (c :: rest) = (QueryUnescape rest).map (c :: ·) := by
  rw [QueryUnescape.eq_def]
  simp at h1 h2
  simp [h1, h2]

theorem QueryUnescape_escapeByte (c : Byte) (rest : GoString) :
    QueryUnescape (escapeByte c ++ rest) = (QueryUnescape rest).map (c :: ·) := by
  unfold escapeByte
  split
  · rename_i h
    have hc : byte ' '.toNat = c := Fin.ext (by simp [h])
    rw [List.singleton_append, QueryUnescape_plus, hc]
  · split
    · have h1 := hexVal_upperhex (c.val / 16) (by omega)
      have h2 := hexVal_upperhex (c.val % 16) (by omega)
      rw [List.cons_append, List.cons_append, List.singleton_append,
        QueryUnescape_percent _ _ _ _ _ h1 h2, byte_hex_join]
    · rename_i hsp hesc
      have hne : c.val ≠ '%'.toNat ∧ c.val ≠ '+'.toNat := by
        simp [shouldEscape] at hesc hsp ⊢
        omega
      rw [List.singleton_append, QueryUnescape_plain _ _ hne.1 hne.2]

theorem QueryEscape_cons (c : Byte) (k : GoString) :
    QueryEscape (c :: k) = escapeByte c ++ QueryEscape k := by
  simp [QueryEscape]

theorem QueryUnescape_QueryEscape (k : GoString) : QueryUnescape (QueryEscape k) = some k := by
  induction k with
  | nil => rfl
  | cons c k ih =>
    rw [QueryEscape_cons, QueryUnescape_escapeByte, ih]
    rfl

theorem upperhex_not_separator (n : Nat) (h : n < 16) : isSeparator (upperhex n) = false := by
  interval_cases n <;> decide

theorem escapeByte_not_separator (c x : Byte) (hx : x ∈ escapeByte c) : isSeparator x = false := by
  unfold escapeByte at hx
  split at hx
  · simp at hx
    subst hx
    decide
  · split at hx
    · simp at hx
      rcases hx with h | h | h
      · subst h
        decide
      · subst h
        exact upperhex_not_separator _ (by omega)
      · subst h
        exact upperhex_not_separator _ (by omega)
    · rename_i hsp hesc
      simp at hx
      subst hx
      simp [shouldEscape] at hesc
      simp [isSeparator]
      omega

theorem QueryEscape_not_separator (k : GoString) (x : Byte) (hx : x ∈ QueryEscape k) :
    isSeparator x = false := by
  simp only [QueryEscape, List.mem_flatMap] at hx
  obtain ⟨c, _, hc⟩ := hx
  exact escapeByte_not_separator c x hc

theorem Cut_append (sep : Byte) (xs ys : GoString) (h : ∀ x ∈ xs, x ≠ sep) :
    Cut sep (xs ++ sep :: ys) = (xs, ys, true) := by
  induction xs with
  | nil => simp [Cut]
  | cons x xs ih =>
    have hx : x ≠ sep := h x (by simp)
    have ih2 := ih fun y hy => h y (by simp [hy])
    simp [Cut, hx, ih2]

theorem Cut_absent (sep : Byte) (xs : GoString) (h : ∀ x ∈ xs, x ≠ sep) :
    Cut sep xs = (xs, [], false) := by
  induction xs with
  | nil => simp [Cut]
  | cons x xs ih =>
    have hx : x ≠ sep := h x (by simp)
    have ih2 := ih fun y hy => h y (by simp [hy])
    simp [Cut, hx, ih2]

theorem ne_of_not_separator (x sep : Byte) (hx : isSeparator x = false)
    (hs : isSeparator sep = true) : x ≠ sep := by
  intro h
  subst h
  rw [hx] at hs
  exact Bool.noConfusion hs

/-- The body of the request, byte for byte: the two pairs in the order of their keys. -/
theorem Encode_form (k : GoString) :
    Values.Encode (Values.Set (Values.Set [] (str "grant_type") tokenGrantType) (str "apikey") k)
      = str "apikey=" ++ QueryEscape k
        ++ str "&grant_type=urn%3Aibm%3Aparams%3Aoauth%3Agrant-type%3Aapikey" := by
  have h1 : (str "grant_type" = str "apikey") = False := by decide
  have h2 : strLess (str "grant_type") (str "apikey") = false := by decide
  have h3 : QueryEscape (str "apikey") = str "apikey" := by decide
  have h4 : QueryEscape (str "grant_type") = str "grant_type" := by decide
  have h5 : QueryEscape tokenGrantType = str "urn%3Aibm%3Aparams%3Aoauth%3Agrant-type%3Aapikey" := by
    decide
  have h6 : str "apikey=" = str "apikey" ++ [byte '='.toNat] := by decide
  have h7 : str "&grant_type=urn%3Aibm%3Aparams%3Aoauth%3Agrant-type%3Aapikey"
      = [byte '&'.toNat] ++ str "grant_type" ++ [byte '='.toNat]
        ++ str "urn%3Aibm%3Aparams%3Aoauth%3Agrant-type%3Aapikey" := by decide
  have h8 : str "apikey" ≠ [] := by decide
  simp only [Values.Encode, Values.Set, sortByKey, h1, if_false, List.foldr, insertSorted, h2,
    List.foldl, h3, h4, h5, h6, h7, Bool.false_eq_true, if_true, List.nil_append]
  simp [h8]

theorem parseQueryLoop_nil (fuel : Nat) (m : Values) (err : Bool) :
    parseQueryLoop fuel m err [] = (m, err) := by
  cases fuel <;> simp [parseQueryLoop]

theorem not_mem_of_not_separator (xs : GoString) (sep : Byte)
    (h : ∀ x ∈ xs, isSeparator x = false) (hs : isSeparator sep = true) : sep ∉ xs :=
  fun hmem => ne_of_not_separator sep sep (h sep hmem) hs rfl

/-- One round of `parseQuery` on a pair `key=value` that is followed by `&`. -/
theorem parseQueryLoop_pair (fuel : Nat) (m : Values) (err : Bool)
    (key value rest k v : GoString)
    (hkey : ∀ x ∈ key, isSeparator x = false) (hval : ∀ x ∈ value, isSeparator x = false)
    (hne : key ≠ []) (hk : QueryUnescape key = some k) (hv : QueryUnescape value = some v) :
    parseQueryLoop (fuel + 1) m err
        (key ++ byte '='.toNat :: value ++ byte '&'.toNat :: rest)
      = parseQueryLoop fuel (Values.Add m k v) err rest := by
  have hamp : ∀ x ∈ key ++ byte '='.toNat :: value, x ≠ byte '&'.toNat := by
    intro x hx
    simp only [List.mem_append, List.mem_cons] at hx
    rcases hx with h | h | h
    · exact ne_of_not_separator x _ (hkey x h) (by decide)
    · subst h
      decide
    · exact ne_of_not_separator x _ (hval x h) (by decide)
  have hsemi : byte ';'.toNat ∉ key ++ byte '='.toNat :: value := by
    intro hx
    simp only [List.mem_append, List.mem_cons] at hx
    rcases hx with h | h | h
    · exact not_mem_of_not_separator key _ hkey (by decide) h
    · exact absurd h (by decide)
    · exact not_mem_of_not_separator value _ hval (by decide) h
  have heq : ∀ x ∈ key, x ≠ byte '='.toNat := fun x hx =>
    ne_of_not_separator x _ (hkey x hx) (by decide)
  have hcut1 := Cut_append (byte '&'.toNat) (key ++ byte '='.toNat :: value) rest hamp
  have hcut2 := Cut_append (byte '='.toNat) key value heq
  have hq : key ++ byte '='.toNat :: value ++ byte '&'.toNat :: rest ≠ [] := by simp [hne]
  have hkv : key ++ byte '='.toNat :: value ≠ [] := by simp [hne]
  rw [parseQueryLoop]
  simp only [hq, if_false, hcut1, hsemi, hkv, hcut2, hk, hv]

/-- The last round of `parseQuery`, on a pair `key=value` that ends the text. -/
theorem parseQueryLoop_last (fuel : Nat) (m : Values) (err : Bool) (key value k v : GoString)
    (hkey : ∀ x ∈ key, isSeparator x = false) (hval : ∀ x ∈ value, isSeparator x = false)
    (hne : key ≠ []) (hk : QueryUnescape key = some k) (hv : QueryUnescape value = some v) :
    parseQueryLoop (fuel + 1) m err (key ++ byte '='.toNat :: value)
      = (Values.Add m k v, err) := by
  have hamp : ∀ x ∈ key ++ byte '='.toNat :: value, x ≠ byte '&'.toNat := by
    intro x hx
    simp only [List.mem_append, List.mem_cons] at hx
    rcases hx with h | h | h
    · exact ne_of_not_separator x _ (hkey x h) (by decide)
    · subst h
      decide
    · exact ne_of_not_separator x _ (hval x h) (by decide)
  have hsemi : byte ';'.toNat ∉ key ++ byte '='.toNat :: value := by
    intro hx
    simp only [List.mem_append, List.mem_cons] at hx
    rcases hx with h | h | h
    · exact not_mem_of_not_separator key _ hkey (by decide) h
    · exact absurd h (by decide)
    · exact not_mem_of_not_separator value _ hval (by decide) h
  have heq : ∀ x ∈ key, x ≠ byte '='.toNat := fun x hx =>
    ne_of_not_separator x _ (hkey x hx) (by decide)
  have hcut1 := Cut_absent (byte '&'.toNat) (key ++ byte '='.toNat :: value) hamp
  have hcut2 := Cut_append (byte '='.toNat) key value heq
  have hkv : key ++ byte '='.toNat :: value ≠ [] := by simp [hne]
  rw [parseQueryLoop]
  simp only [hkv, if_false, hcut1, hsemi, hcut2, hk, hv, parseQueryLoop_nil]

/-- The form the body of the request stands for: decoding gives back the key. -/
theorem ParseQuery_form (k : GoString) :
    ParseQuery (str "apikey=" ++ QueryEscape k
        ++ str "&grant_type=urn%3Aibm%3Aparams%3Aoauth%3Agrant-type%3Aapikey")
      = ([(str "apikey", [k]), (str "grant_type", [tokenGrantType])], false) := by
  have hshape : str "apikey=" ++ QueryEscape k
        ++ str "&grant_type=urn%3Aibm%3Aparams%3Aoauth%3Agrant-type%3Aapikey"
      = str "apikey" ++ byte '='.toNat :: QueryEscape k ++ byte '&'.toNat
        :: (str "grant_type" ++ byte '='.toNat
          :: str "urn%3Aibm%3Aparams%3Aoauth%3Agrant-type%3Aapikey") := by
    have h6 : str "apikey=" = str "apikey" ++ [byte '='.toNat] := by decide
    have h7 : str "&grant_type=urn%3Aibm%3Aparams%3Aoauth%3Agrant-type%3Aapikey"
        = byte '&'.toNat :: (str "grant_type" ++ byte '='.toNat
          :: str "urn%3Aibm%3Aparams%3Aoauth%3Agrant-type%3Aapikey") := by decide
    rw [h6, h7]
    simp
  rw [hshape, ParseQuery]
  rw [parseQueryLoop_pair _ [] false (str "apikey") (QueryEscape k) _ (str "apikey") k
    (by decide) (QueryEscape_not_separator k) (by decide) (by decide)
    (QueryUnescape_QueryEscape k)]
  generalize hlen : (str "apikey" ++ byte '='.toNat :: QueryEscape k ++ byte '&'.toNat
        :: (str "grant_type" ++ byte '='.toNat
          :: str "urn%3Aibm%3Aparams%3Aoauth%3Agrant-type%3Aapikey")).length = len
  cases len with
  | zero => simp at hlen
  | succ f =>
    rw [parseQueryLoop_last f _ false (str "grant_type")
      (str "urn%3Aibm%3Aparams%3Aoauth%3Agrant-type%3Aapikey") (str "grant_type") tokenGrantType
      (by decide) (by decide) (by decide) (by decide) (by decide)]
    have hne : (str "apikey" = str "grant_type") = False := by decide
    simp [Values.Add, hne]

/-- The request that `RequestTokenWithContext` builds under the background context. -/
theorem newRequest_eq (t : Token) :
    t.newRequest .Background
      = .ok
        { ctx := .Background, Method := str "POST"
          URL := str "https://iam.cloud.ibm.com/identity/token"
          Header :=
            [(str "Content-Type", [str "application/x-www-form-urlencoded"]),
              (str "Accept", [str "application/json"])]
          Body := str "apikey=" ++ QueryEscape t.ApiKey
            ++ str "&grant_type=urn%3Aibm%3Aparams%3Aoauth%3Agrant-type%3Aapikey" } := by
  simp only [Token.newRequest, Encode_form]
  rfl

/-- Whatever the transport answers, the one request it was handed is the one that was
built. -/
theorem sent_of_client (t : Token) (c : httpclient) (ctx : Context) (req : Request)
    (hreq : t.newRequest ctx = .ok req) (hc : t.Client = some c) :
    (t.RequestTokenWithContext ctx).sent = [req] := by
  unfold Token.RequestTokenWithContext
  simp only [hreq, hc]
  split
  · rfl
  · split
    · split <;> rfl
    · split <;> rfl

theorem stateEndTop_fst (s : scanner) (c : Byte) : (stateEndTop s c).1 = .scanEnd := by
  unfold stateEndTop
  split <;> rfl

theorem readValueLoop_scanBytes (buf : GoString) (readErr : Option GoError) :
    ∀ (xs ys : List Byte) (s s2 : scanner) (scanp : Nat), scanBytes s xs = some s2 →
      readValueLoop buf readErr s (xs ++ ys) scanp
        = readValueLoop buf readErr s2 ys (scanp + xs.length) := by
  intro xs
  induction xs with
  | nil =>
    intro ys s s2 scanp h
    simp only [scanBytes, Option.some.injEq] at h
    subst h
    rfl
  | cons c xs ih =>
    intro ys s s2 scanp h
    have hlen : scanp + (c :: xs).length = scanp + 1 + xs.length := by
      simp only [List.length_cons]
      omega
    rw [scanBytes] at h
    rw [List.cons_append, readValueLoop.eq_def, hlen]
    simp only
    rcases hd : scanner.doStep { s with bytes := s.bytes + 1 } c with ⟨op, s1⟩
    rw [hd] at h
    cases op <;> simp only at h ⊢
    case scanEnd => exact absurd h (by simp)
    case scanError => exact absurd h (by simp)
    case scanEndObject =>
      split at h
      · exact absurd h (by simp)
      · rename_i hne
        simp only [hne, if_false]
        exact ih _ _ _ _ h
    case scanEndArray =>
      split at h
      · exact absurd h (by simp)
      · rename_i hne
        simp only [hne, if_false]
        exact ih _ _ _ _ h
    all_goals exact ih _ _ _ _ h

theorem scanBytes_append :
    ∀ (xs ys : List Byte) (s s2 : scanner), scanBytes s xs = some s2 →
      scanBytes s (xs ++ ys) = scanBytes s2 ys := by
  intro xs
  induction xs with
  | nil =>
    intro ys s s2 h
    simp only [scanBytes, Option.some.injEq] at h
    subst h
    rfl
  | cons c xs ih =>
    intro ys s s2 h
    rw [scanBytes] at h
    rw [List.cons_append, scanBytes]
    rcases hd : scanner.doStep { s with bytes := s.bytes + 1 } c with ⟨op, s1⟩
    rw [hd] at h
    cases op <;> simp only at h ⊢
    case scanEnd => exact absurd h (by simp)
    case scanError => exact absurd h (by simp)
    case scanEndObject =>
      split at h
      · exact absurd h (by simp)
      · rename_i hne
        simp only [hne, if_false]
        exact ih _ _ _ h
    case scanEndArray =>
      split at h
      · exact absurd h (by simp)
      · rename_i hne
        simp only [hne, if_false]
        exact ih _ _ _ h
    all_goals exact ih _ _ _ h

theorem scansTo_append (step : Step) (ps : List ParseState) (xs ys : List Byte) (step1 : Step)
    (ps1 : List ParseState) (step2 : Step) (ps2 : List ParseState)
    (h1 : scansTo step ps xs step1 ps1) (h2 : scansTo step1 ps1 ys step2 ps2) :
    scansTo step ps (xs ++ ys) step2 ps2 := by
  intro s hs hp
  obtain ⟨s1, hx, hs1, hp1⟩ := h1 s hs hp
  obtain ⟨s2, hy, hs2, hp2⟩ := h2 s1 hs1 hp1
  exact ⟨s2, by rw [scanBytes_append xs ys s s1 hx, hy], hs2, hp2⟩

theorem digit_val (d : Nat) (h : d < 10) : (byte ('0'.toNat + d)).val = 48 + d := by
  simp only [byte_val, Char.reduceToNat]
  omega

theorem isDigit_digit (d : Nat) (h : d < 10) : isDigit (byte ('0'.toNat + d)) = true := by
  simp only [isDigit, digit_val d h, Char.reduceToNat]
  simp
  omega

theorem digitsLE_ne_nil (fuel n : Nat) : digitsLE (fuel + 1) n ≠ [] := by
  rw [digitsLE]
  split <;> simp

theorem digitsLE_isDigit : ∀ (fuel n : Nat) (c : Byte), c ∈ digitsLE fuel n → isDigit c = true := by
  intro fuel
  induction fuel with
  | zero => intro n c h; simp [digitsLE] at h
  | succ fuel ih =>
    intro n c h
    rw [digitsLE] at h
    split at h
    · simp only [List.mem_singleton] at h
      subst h
      exact isDigit_digit _ (by omega)
    · simp only [List.mem_cons] at h
      rcases h with h | h
      · subst h
        exact isDigit_digit _ (by omega)
      · exact ih _ _ h

theorem parseDigits_eq_foldl (xs : List Byte) (h : xs ≠ []) :
    parseDigits xs = xs.foldl parseDigitsStep (some 0) := by
  cases xs with
  | nil => exact absurd rfl h
  | cons c xs => rfl

theorem parseDigitsStep_digit (m d : Nat) (h : d < 10) :
    parseDigitsStep (some m) (byte ('0'.toNat + d)) = some (m * 10 + d) := by
  have h1 := isDigit_digit d h
  have h2 := digit_val d h
  generalize byte ('0'.toNat + d) = c at h1 h2
  simp [parseDigitsStep, h1, h2]

theorem foldl_digitsLE :
    ∀ (fuel n : Nat), n < fuel →
      (digitsLE fuel n).reverse.foldl parseDigitsStep (some 0) = some n := by
  intro fuel
  induction fuel with
  | zero => intro n h; omega
  | succ fuel ih =>
    intro n hn
    rw [digitsLE]
    split
    · rename_i h10
      simp only [List.reverse_cons, List.reverse_nil, List.nil_append, List.foldl_cons,
        List.foldl_nil]
      rw [parseDigitsStep_digit 0 n h10]
      simp
    · rename_i h10
      simp only [List.reverse_cons, List.foldl_append, List.foldl_cons, List.foldl_nil]
      rw [ih (n / 10) (by omega), parseDigitsStep_digit _ _ (by omega)]
      congr 1
      omega

theorem FormatUint_ne_nil (n : Nat) : FormatUint n ≠ [] := by
  simp only [FormatUint, ne_eq, List.reverse_eq_nil_iff]
  exact digitsLE_ne_nil n n

theorem FormatUint_isDigit (n : Nat) (c : Byte) (h : c ∈ FormatUint n) : isDigit c = true := by
  simp only [FormatUint, List.mem_reverse] at h
  exact digitsLE_isDigit _ _ _ h

theorem parseDigits_FormatUint (n : Nat) : parseDigits (FormatUint n) = some n := by
  rw [parseDigits_eq_foldl _ (FormatUint_ne_nil n)]
  exact foldl_digitsLE (n + 1) n (by omega)

theorem isDigit_val (c : Byte) (h : isDigit c = true) : 48 ≤ c.val ∧ c.val ≤ 57 := by
  simp only [isDigit, Char.reduceToNat, decide_eq_true_eq] at h
  exact h

theorem ParseInt_minus (rest : List Byte) (m : Nat) (h : parseDigits rest = some m)
    (hm : m ≤ 2 ^ 63) : ParseInt (byte '-'.toNat :: rest) = some (-(m : Int)) := by
  have hm2 : ¬ m > 2 ^ 63 := by omega
  have hv : (byte '-'.toNat).val = 45 := by decide
  generalize byte '-'.toNat = c at hv
  simp [ParseInt, hv, h]
  norm_num at hm
  exact hm

theorem ParseInt_digits (c : Byte) (rest : List Byte) (m : Nat) (hc : isDigit c = true)
    (h : parseDigits (c :: rest) = some m) (hm : m < 2 ^ 63) :
    ParseInt (c :: rest) = some (m : Int) := by
  have hd := isDigit_val c hc
  have h1 : ¬ c.val = 43 := by omega
  have h2 : ¬ c.val = 45 := by omega
  have hm2 : ¬ 2 ^ 63 ≤ m := by omega
  simp [ParseInt, h1, h2, h]
  norm_num at hm
  exact hm

/-- `ParseInt` reads back what `FormatInt` writes, for every `int64`. -/
theorem ParseInt_FormatInt (i : Int) (hlo : -(2 : Int) ^ 63 ≤ i) (hhi : i < (2 : Int) ^ 63) :
    ParseInt (FormatInt i) = some i := by
  unfold FormatInt
  split
  · rename_i hneg
    rw [ParseInt_minus _ _ (parseDigits_FormatUint i.natAbs) (by omega)]
    congr 1
    omega
  · rename_i hneg
    have hne := FormatUint_ne_nil i.natAbs
    have hp := parseDigits_FormatUint i.natAbs
    cases hf : FormatUint i.natAbs with
    | nil => exact absurd hf hne
    | cons c rest =>
      rw [hf] at hp
      rw [ParseInt_digits c rest _ (FormatUint_isDigit i.natAbs c (by rw [hf]; simp)) hp
        (by omega)]
      congr 1
      omega

theorem scansTo_nil (step : Step) (ps : List ParseState) : scansTo step ps [] step ps :=
  fun s hs hp => ⟨s, rfl, hs, hp⟩

theorem scansTo_cons (step : Step) (ps : List ParseState) (c : Byte) (ys : List Byte)
    (step1 : Step) (ps1 : List ParseState) (step2 : Step) (ps2 : List ParseState)
    (h1 : scansTo step ps [c] step1 ps1) (h2 : scansTo step1 ps1 ys step2 ps2) :
    scansTo step ps (c :: ys) step2 ps2 :=
  scansTo_append step ps [c] ys step1 ps1 step2 ps2 h1 h2

/-- One byte on which the scanner moves on: if from step `st` with stack `ps` the byte
`c` leads to step `st2` with stack `ps2` and nothing else changes. -/
theorem scansTo_step (st : Step) (ps : List ParseState) (c : Byte) (st2 : Step)
    (ps2 : List ParseState)
    (h : ∀ (endTop : Bool) (err : Option GoError) (bytes : Nat),
      ∃ op, scanner.doStep
          { step := st, endTop := endTop, parseState := ps, err := err, bytes := bytes } c
        = (op, { step := st2, endTop := endTop, parseState := ps2, err := err, bytes := bytes })
        ∧ op.passes = true) :
    scansTo st ps [c] st2 ps2 := by
  intro s hs hp
  obtain ⟨step1, endTop, ps1, err, bytes⟩ := s
  simp only at hs hp
  subst hs hp
  obtain ⟨op, hd, hop⟩ := h endTop err (bytes + 1)
  refine ⟨{ step := st2, endTop := endTop, parseState := ps2, err := err, bytes := bytes + 1 },
    ?_, rfl, rfl⟩
  rw [scanBytes]
  simp only [hd]
  cases op <;> first | rfl | exact absurd hop (by decide)

theorem isSpace_of_blank (c : Byte)
    (h : c.val = ' '.toNat ∨ c.val = '\t'.toNat ∨ c.val = '\n'.toNat ∨ c.val = '\r'.toNat) :
    isSpace c = true := by
  simp only [isSpace, decide_eq_true_eq]
  tauto

theorem Blank_cons (c : Byte) (w : GoString) (h : Blank (c :: w)) :
    isSpace c = true ∧ Blank w :=
  ⟨isSpace_of_blank c (h c (by simp)), fun x hx => h x (by simp [hx])⟩

theorem space_val (c : Byte) (h : isSpace c = true) :
    c.val = 32 ∨ c.val = 9 ∨ c.val = 13 ∨ c.val = 10 := by
  simpa [isSpace] using h

/-- White space before a value or a key is skipped. -/
theorem scansTo_blank_begin (st : Step) (hst : valueBegin st ∨ keyBegin st)
    (ps : List ParseState) : ∀ w : GoString, Blank w → scansTo st ps w st ps := by
  intro w
  induction w with
  | nil => intro _; exact scansTo_nil _ _
  | cons c w ih =>
    intro h
    obtain ⟨hc, hw⟩ := Blank_cons c w h
    refine scansTo_cons _ _ c w st ps _ _ ?_ (ih hw)
    apply scansTo_step
    intro endTop err bytes
    refine ⟨.scanSkipSpace, ?_, rfl⟩
    rcases hst with (h | h) | (h | h) <;> subst h <;>
      simp [scanner.doStep, stateBeginValue, stateBeginValueOrEmpty, stateBeginString,
        stateBeginStringOrEmpty, hc]

/-- Behind a value, inside an object or an array, a byte that does not continue a number
is handled by `stateEndValue`. -/
theorem doStep_valueEnd (st : Step) (hst : valueEnd st) (s : scanner) (hs : s.step = st)
    (c : Byte) (hd : isDigit c = false)
    (hc : c.val ≠ '.'.toNat ∧ c.val ≠ 'e'.toNat ∧ c.val ≠ 'E'.toNat) :
    s.doStep c = stateEndValue s c := by
  obtain ⟨h1, h2, h3⟩ := hc
  simp only [Char.reduceToNat, ne_eq] at h1 h2 h3
  rcases hst with h | h | h | h | h <;> subst h <;>
    simp [scanner.doStep, hs, state0, state1, stateDot0, stateE0, hd, h1, h2, h3]

theorem not_digit_of_space (c : Byte) (h : isSpace c = true) : isDigit c = false := by
  have := space_val c h
  simp only [isDigit, Char.reduceToNat, decide_eq_false_iff_not, not_and, not_le]
  omega

/-- White space behind a value, inside an object or an array, is skipped. -/
theorem scansTo_blank_end (top : ParseState) (ps : List ParseState) :
    ∀ (w : GoString) (st : Step), valueEnd st → Blank w →
      ∃ st2, valueEnd st2 ∧ scansTo st (top :: ps) w st2 (top :: ps) := by
  intro w
  induction w with
  | nil => intro st hst _; exact ⟨st, hst, scansTo_nil _ _⟩
  | cons c w ih =>
    intro st hst h
    obtain ⟨hc, hw⟩ := Blank_cons c w h
    obtain ⟨st2, hst2, h2⟩ := ih .stateEndValue (Or.inl rfl) hw
    refine ⟨st2, hst2, scansTo_cons _ _ c w .stateEndValue (top :: ps) _ _ ?_ h2⟩
    apply scansTo_step
    intro endTop err bytes
    refine ⟨.scanSkipSpace, ?_, rfl⟩
    have hv := space_val c hc
    rw [doStep_valueEnd st hst _ rfl c (not_digit_of_space c hc)
      (by simp only [Char.reduceToNat]; omega)]
    simp [stateEndValue, hc]

/-- The comma between two elements of an array. -/
theorem scansTo_comma_array (st : Step) (hst : valueEnd st) (ps : List ParseState) :
    scansTo st (.parseArrayValue :: ps) [byte ','.toNat] .stateBeginValue
      (.parseArrayValue :: ps) := by
  apply scansTo_step
  intro endTop err bytes
  rcases hst with h | h | h | h | h <;> subst h <;> exact ⟨_, rfl, rfl⟩

/-- The comma between two members of an object. -/
theorem scansTo_comma_object (st : Step) (hst : valueEnd st) (ps : List ParseState) :
    scansTo st (.parseObjectValue :: ps) [byte ','.toNat] .stateBeginString
      (.parseObjectKey :: ps) := by
  apply scansTo_step
  intro endTop err bytes
  rcases hst with h | h | h | h | h <;> subst h <;> exact ⟨_, rfl, rfl⟩

/-- The colon between the key and the value of a member. -/
theorem scansTo_colon (st : Step) (hst : valueEnd st) (ps : List ParseState) :
    scansTo st (.parseObjectKey :: ps) [byte ':'.toNat] .stateBeginValue
      (.parseObjectValue :: ps) := by
  apply scansTo_step
  intro endTop err bytes
  rcases hst with h | h | h | h | h <;> subst h <;> exact ⟨_, rfl, rfl⟩

/-- The bracket that opens an array, while the nesting stays within
`maxNestingDepth`. -/
theorem scansTo_open_array (st : Step) (hst : valueBegin st) (ps : List ParseState)
    (hd : ps.length + 1 ≤ maxNestingDepth) :
    scansTo st ps [byte '['.toNat] .stateBeginValueOrEmpty (.parseArrayValue :: ps) := by
  apply scansTo_step
  intro endTop err bytes
  refine ⟨.scanBeginArray, ?_, rfl⟩
  rcases hst with h | h <;> subst h <;>
    simp [scanner.doStep, stateBeginValue, stateBeginValueOrEmpty, isSpace,
      scanner.pushParseState, hd]

/-- The brace that opens an object, while the nesting stays within
`maxNestingDepth`. -/
theorem scansTo_open_object (st : Step) (hst : valueBegin st) (ps : List ParseState)
    (hd : ps.length + 1 ≤ maxNestingDepth) :
    scansTo st ps [byte '{'.toNat] .stateBeginStringOrEmpty (.parseObjectKey :: ps) := by
  apply scansTo_step
  intro endTop err bytes
  refine ⟨.scanBeginObject, ?_, rfl⟩
  rcases hst with h | h <;> subst h <;>
    simp [scanner.doStep, stateBeginValue, stateBeginValueOrEmpty, isSpace,
      scanner.pushParseState, hd]

/-- What a closing bracket does: the stack is popped, and the step is `stateEndValue`, or
`stateEndTop` when the stack is empty now. -/
theorem doStep_closes (st : Step) (top : ParseState) (c : Byte) (h : closes st top c)
    (ps : List ParseState) (endTop : Bool) (err : Option GoError) (bytes : Nat) :
    ∃ op, (op = .scanEndObject ∨ op = .scanEndArray)
      ∧ scanner.doStep
          { step := st, endTop := endTop, parseState := top :: ps, err := err, bytes := bytes } c
        = (op,
          if ps.length = 0 then
            { step := .stateEndTop, endTop := true, parseState := ps, err := err, bytes := bytes }
          else
            { step := .stateEndValue, endTop := endTop, parseState := ps, err := err,
              bytes := bytes }) := by
  rcases h with ⟨hc, ht, hst⟩ | ⟨hc, ⟨ht, hst⟩ | ⟨ht, hst⟩⟩
  · subst hc ht
    refine ⟨.scanEndArray, Or.inr rfl, ?_⟩
    rcases hst with (h | h | h | h | h) | h <;> subst h <;>
      simp [scanner.doStep, state0, state1, stateDot0, stateE0, stateEndValue,
        stateBeginValueOrEmpty, isSpace, isDigit, scanner.popParseState]
  · subst hc ht
    refine ⟨.scanEndObject, Or.inl rfl, ?_⟩
    rcases hst with h | h | h | h | h <;> subst h <;>
      simp [scanner.doStep, state0, state1, stateDot0, stateE0, stateEndValue,
        isSpace, isDigit, scanner.popParseState]
  · subst hc ht hst
    refine ⟨.scanEndObject, Or.inl rfl, ?_⟩
    simp [scanner.doStep, stateBeginStringOrEmpty, stateEndValue, isSpace,
      scanner.popParseState]

/-- A closing bracket inside an enclosing array or object: the scanner stands behind the
value it closed. -/
theorem scansTo_close (st : Step) (top : ParseState) (c : Byte) (h : closes st top c)
    (ps : List ParseState) (hps : ps ≠ []) :
    scansTo st (top :: ps) [c] .stateEndValue ps := by
  intro s hs hp
  obtain ⟨step1, endTop, ps1, err, bytes⟩ := s
  simp only at hs hp
  subst hs hp
  obtain ⟨op, hop, hd⟩ := doStep_closes step1 top c h ps endTop err (bytes + 1)
  have hlen : ¬ ps.length = 0 := by
    intro h0
    exact hps (List.length_eq_zero.mp h0)
  simp only [hlen, if_false] at hd
  refine ⟨⟨.stateEndValue, endTop, ps, err, bytes + 1⟩, ?_, rfl, rfl⟩
  rw [scanBytes]
  simp only [hd]
  obtain ⟨p, ps2, rfl⟩ := List.exists_cons_of_ne_nil hps
  rcases hop with hop | hop <;> subst hop <;>
    simp [stateEndValue, isSpace, scanBytes]

/-- A closing bracket that ends the top-level value: `readValue` has its value. -/
theorem readValueLoop_close (buf : GoString) (readErr : Option GoError) (st : Step)
    (top : ParseState) (c : Byte) (h : closes st top c) (s : scanner) (hs : s.step = st)
    (hp : s.parseState = [top]) (rest : List Byte) (scanp : Nat) :
    readValueLoop buf readErr s (c :: rest) scanp = .ok (scanp + 1) := by
  obtain ⟨step1, endTop, ps1, err, bytes⟩ := s
  simp only at hs hp
  subst hs hp
  obtain ⟨op, hop, hd⟩ := doStep_closes step1 top c h [] endTop err (bytes + 1)
  rw [readValueLoop]
  simp only [hd]
  rcases hop with hop | hop <;> subst hop <;>
    simp [stateEndValue, stateEndTop, isSpace]

theorem hexVal_eq_hexDigit : ∀ c : Byte, hexVal c = hexDigit c := by decide

/-- The literals `null`, `true` and `false`. -/
theorem scansTo_literal (st : Step) (hst : valueBegin st) (ps : List ParseState) (t : GoString)
    (ht : t = str "null" ∨ t = str "true" ∨ t = str "false") :
    scansTo st ps t .stateEndValue ps := by
  intro s hs hp
  obtain ⟨step1, endTop, ps1, err, bytes⟩ := s
  simp only at hs hp
  subst hs hp
  rcases ht with h | h | h <;> subst h <;> rcases hst with h | h <;> subst h <;>
    exact ⟨_, rfl, rfl, rfl⟩

theorem isDigit_of_mem (ds : GoString) (h : ∀ c ∈ ds, '0'.toNat ≤ c.val ∧ c.val ≤ '9'.toNat)
    (c : Byte) (hc : c ∈ ds) : isDigit c = true := by
  simpa [isDigit] using h c hc

/-- Further digits of the integer part, of the fraction and of the exponent. -/
theorem scansTo_digits (st : Step) (hst : st = .state1 ∨ st = .stateDot0 ∨ st = .stateE0)
    (ps : List ParseState) :
    ∀ ds : GoString, (∀ c ∈ ds, isDigit c = true) → scansTo st ps ds st ps := by
  intro ds
  induction ds with
  | nil => intro _; exact scansTo_nil _ _
  | cons c ds ih =>
    intro h
    have hc := h c (by simp)
    refine scansTo_cons _ _ c ds st ps _ _ ?_ (ih fun x hx => h x (by simp [hx]))
    apply scansTo_step
    intro endTop err bytes
    refine ⟨.scanContinue, ?_, rfl⟩
    rcases hst with h | h | h <;> subst h <;>
      simp [scanner.doStep, state1, stateDot0, stateE0, hc]

/-- The first digit of a run of digits, from a step `st` in which a digit `c` leads
to `st2`. -/
theorem scansTo_digits_from (st st2 : Step) (hst2 : st2 = .state1 ∨ st2 = .stateDot0 ∨ st2 = .stateE0)
    (ps : List ParseState) (ds : GoString) (hds : ds ≠ [])
    (h : ∀ c ∈ ds, isDigit c = true)
    (hfirst : ∀ c : Byte, isDigit c = true → ds.head? = some c → scansTo st ps [c] st2 ps) :
    scansTo st ps ds st2 ps := by
  cases ds with
  | nil => exact absurd rfl hds
  | cons c ds =>
    exact scansTo_cons _ _ c ds st2 ps _ _ (hfirst c (h c (by simp)) rfl)
      (scansTo_digits st2 hst2 ps ds fun x hx => h x (by simp [hx]))

theorem scansTo_zero (st : Step) (hst : wholeBegin st) (ps : List ParseState) :
    scansTo st ps (str "0") .state0 ps := by
  apply scansTo_step
  intro endTop err bytes
  rcases hst with (h | h) | h <;> subst h <;> exact ⟨_, rfl, rfl⟩

theorem scansTo_nonzero (st : Step) (hst : wholeBegin st) (ps : List ParseState) (c : Byte)
    (hc : isDigit c = true) (h0 : c ≠ byte '0'.toNat) : scansTo st ps [c] .state1 ps := by
  apply scansTo_step
  intro endTop err bytes
  refine ⟨if st = .stateNeg then .scanContinue else .scanBeginLiteral, ?_, by split <;> rfl⟩
  have hv : 49 ≤ c.val ∧ c.val ≤ 57 := by
    have h1 : c.val ≠ 48 := fun h => h0 (Fin.ext (by simpa using h))
    simp only [isDigit, Char.reduceToNat, decide_eq_true_eq] at hc
    omega
  have e1 : ¬ c.val = 48 := by omega
  have e2 : ¬ c.val = 32 := by omega
  have e3 : ¬ c.val = 9 := by omega
  have e4 : ¬ c.val = 13 := by omega
  have e5 : ¬ c.val = 10 := by omega
  have e6 : ¬ c.val = 123 := by omega
  have e7 : ¬ c.val = 91 := by omega
  have e8 : ¬ c.val = 34 := by omega
  have e9 : ¬ c.val = 45 := by omega
  have e10 : ¬ c.val = 116 := by omega
  have e11 : ¬ c.val = 102 := by omega
  have e12 : ¬ c.val = 110 := by omega
  have e13 : ¬ c.val = 93 := by omega
  rcases hst with (h | h) | h <;> subst h <;>
    simp [scanner.doStep, stateBeginValue, stateBeginValueOrEmpty, stateNeg, isSpace, e1, e2, e3,
      e4, e5, e6, e7, e8, e9, e10, e11, e12, e13, hv.1, hv.2]

/-- The integer part of a number. -/
theorem scansTo_whole (st : Step) (hst : wholeBegin st) (ps : List ParseState) (whole : GoString)
    (hd : Digits whole) (hz : whole = str "0" ∨ whole.head? ≠ some (byte '0'.toNat)) :
    ∃ st2, (st2 = .state0 ∨ st2 = .state1) ∧ scansTo st ps whole st2 ps := by
  rcases hz with hz | hz
  · subst hz
    exact ⟨_, Or.inl rfl, scansTo_zero st hst ps⟩
  · refine ⟨.state1, Or.inr rfl, ?_⟩
    refine scansTo_digits_from st .state1 (Or.inl rfl) ps whole hd.1 (isDigit_of_mem whole hd.2) ?_
    intro c hc hhead
    refine scansTo_nonzero st hst ps c hc ?_
    intro h
    rw [hhead, h] at hz
    exact hz rfl

/-- The fraction of a number. -/
theorem scansTo_frac (st : Step) (hst : st = .state0 ∨ st = .state1) (ps : List ParseState)
    (ds : GoString) (hd : Digits ds) :
    scansTo st ps (byte '.'.toNat :: ds) .stateDot0 ps := by
  refine scansTo_cons _ _ _ ds .stateDot ps _ _ ?_ ?_
  · apply scansTo_step
    intro endTop err bytes
    rcases hst with h | h <;> subst h <;> exact ⟨_, rfl, rfl⟩
  · refine scansTo_digits_from .stateDot .stateDot0 (Or.inr (Or.inl rfl)) ps ds hd.1
      (isDigit_of_mem ds hd.2) ?_
    intro c hc _
    apply scansTo_step
    intro endTop err bytes
    exact ⟨.scanContinue, by simp [scanner.doStep, stateDot, hc], rfl⟩

/-- The exponent of a number. -/
theorem scansTo_expo (st : Step) (hst : st = .state0 ∨ st = .state1 ∨ st = .stateDot0)
    (ps : List ParseState) (e : Byte) (he : e.val = 'e'.toNat ∨ e.val = 'E'.toNat)
    (sg : GoString) (hsg : sg = [] ∨ sg = str "+" ∨ sg = str "-") (ds : GoString)
    (hd : Digits ds) :
    scansTo st ps (e :: (sg ++ ds)) .stateE0 ps := by
  have hE : scansTo st ps [e] .stateE ps := by
    apply scansTo_step
    intro endTop err bytes
    refine ⟨.scanContinue, ?_, rfl⟩
    simp only [Char.reduceToNat] at he
    have e1 : ¬ e.val = 46 := by omega
    have e2 : isDigit e = false := by
      simp only [isDigit, Char.reduceToNat, decide_eq_false_iff_not, not_and, not_le]
      omega
    rcases hst with h | h | h <;> subst h <;>
      simp [scanner.doStep, state0, state1, stateDot0, e1, e2, he]
  have hdig : ∀ st1, st1 = .stateE ∨ st1 = .stateESign → scansTo st1 ps ds .stateE0 ps := by
    intro st1 hst1
    refine scansTo_digits_from st1 .stateE0 (Or.inr (Or.inr rfl)) ps ds hd.1
      (isDigit_of_mem ds hd.2) ?_
    intro c hc _
    apply scansTo_step
    intro endTop err bytes
    refine ⟨.scanContinue, ?_, rfl⟩
    have hv : 48 ≤ c.val ∧ c.val ≤ 57 := by
      simpa [isDigit] using hc
    have e1 : ¬ c.val = 43 := by omega
    have e2 : ¬ c.val = 45 := by omega
    rcases hst1 with h | h <;> subst h <;>
      simp [scanner.doStep, stateE, stateESign, hc, e1, e2]
  refine scansTo_cons _ _ e _ .stateE ps _ _ hE ?_
  rcases hsg with h | h | h <;> subst h
  · exact hdig _ (Or.inl rfl)
  · refine scansTo_cons _ _ _ ds .stateESign ps _ _ ?_ (hdig _ (Or.inr rfl))
    apply scansTo_step
    intro endTop err bytes
    exact ⟨_, rfl, rfl⟩
  · refine scansTo_cons _ _ _ ds .stateESign ps _ _ ?_ (hdig _ (Or.inr rfl))
    apply scansTo_step
    intro endTop err bytes
    exact ⟨_, rfl, rfl⟩

/-- A number takes the scanner from the start of a value to a step behind a value. -/
theorem scansTo_number (st : Step) (hst : valueBegin st) (ps : List ParseState) (t : GoString)
    (h : Number t) : ∃ st2, valueEnd st2 ∧ scansTo st ps t st2 ps := by
  obtain ⟨sign, whole, frac, expo, rfl, hsign, hd, hz, hfrac, hexpo⟩ := h
  -- the sign
  have h1 : ∃ st1, wholeBegin st1 ∧ scansTo st ps sign st1 ps := by
    rcases hsign with h | h <;> subst h
    · exact ⟨st, Or.inl hst, scansTo_nil _ _⟩
    · refine ⟨.stateNeg, Or.inr rfl, ?_⟩
      apply scansTo_step
      intro endTop err bytes
      rcases hst with h | h <;> subst h <;> exact ⟨_, rfl, rfl⟩
  obtain ⟨st1, hst1, hs1⟩ := h1
  obtain ⟨st2, hst2, hs2⟩ := scansTo_whole st1 hst1 ps whole hd hz
  -- the fraction
  have h3 : ∃ st3, (st3 = .state0 ∨ st3 = .state1 ∨ st3 = .stateDot0)
      ∧ scansTo st2 ps frac st3 ps := by
    rcases hfrac with h | ⟨ds, hds, h⟩ <;> subst h
    · exact ⟨st2, hst2.elim Or.inl fun h => Or.inr (Or.inl h), scansTo_nil _ _⟩
    · exact ⟨.stateDot0, Or.inr (Or.inr rfl), scansTo_frac st2 hst2 ps ds hds⟩
  obtain ⟨st3, hst3, hs3⟩ := h3
  -- the exponent
  have h4 : ∃ st4, valueEnd st4 ∧ scansTo st3 ps expo st4 ps := by
    rcases hexpo with h | ⟨e, sg, ds, he, hsg, hds, h⟩ <;> subst h
    · refine ⟨st3, ?_, scansTo_nil _ _⟩
      rcases hst3 with h | h | h
      · exact Or.inr (Or.inl h)
      · exact Or.inr (Or.inr (Or.inl h))
      · exact Or.inr (Or.inr (Or.inr (Or.inl h)))
    · exact ⟨.stateE0, Or.inr (Or.inr (Or.inr (Or.inr rfl))),
        scansTo_expo st3 hst3 ps e he sg hsg ds hds⟩
  obtain ⟨st4, hst4, hs4⟩ := h4
  exact ⟨st4, hst4,
    scansTo_append _ _ _ _ _ _ _ _
      (scansTo_append _ _ _ _ _ _ _ _ (scansTo_append _ _ _ _ _ _ _ _ hs1 hs2) hs3) hs4⟩

theorem isPlain_val (c : Byte) (h : isPlain c = true) :
    32 ≤ c.val ∧ c.val < 128 ∧ c.val ≠ 34 ∧ c.val ≠ 92 := by
  simp only [isPlain, Char.reduceToNat, ne_eq, decide_eq_true_eq] at h
  exact h

/-- The UTF-8 encoding of a code point beyond ASCII has two to four bytes, none of them
ASCII. -/
theorem EncodeRune_high (r : Nat) (hr : isScalar r) :
    (∀ c ∈ EncodeRune r, 0x80 ≤ c.val) ∧ 2 ≤ (EncodeRune r).length := by
  obtain ⟨h1, h2, h3⟩ := hr
  unfold EncodeRune
  have e1 : ¬ r ≤ 0x7F := by omega
  have e3 : ¬ (r > 0x10FFFF ∨ (0xD800 ≤ r ∧ r ≤ 0xDFFF)) := by omega
  simp only [e1, e3, if_false]
  split
  · refine ⟨?_, by simp⟩
    intro c hc
    simp only [List.mem_cons, List.mem_singleton, List.not_mem_nil, or_false] at hc
    rcases hc with h | h <;> subst h <;> simp only [byte_val] <;> omega
  · split
    · refine ⟨?_, by simp⟩
      intro c hc
      simp only [List.mem_cons, List.mem_singleton, List.not_mem_nil, or_false] at hc
      rcases hc with h | h | h <;> subst h <;> simp only [byte_val] <;> omega
    · refine ⟨?_, by simp⟩
      intro c hc
      simp only [List.mem_cons, List.mem_singleton, List.not_mem_nil, or_false] at hc
      rcases hc with h | h | h | h <;> subst h <;> simp only [byte_val] <;> omega

/-- Inside a string, bytes from the space on that are neither the quote nor the
backslash leave the scanner inside the string. -/
theorem scansTo_inString (ps : List ParseState) :
    ∀ xs : GoString, (∀ c ∈ xs, 32 ≤ c.val ∧ c.val ≠ 34 ∧ c.val ≠ 92) →
      scansTo .stateInString ps xs .stateInString ps := by
  intro xs
  induction xs with
  | nil => intro _; exact scansTo_nil _ _
  | cons c xs ih =>
    intro h
    obtain ⟨h1, h2, h3⟩ := h c (by simp)
    refine scansTo_cons _ _ c xs _ _ _ _ ?_ (ih fun x hx => h x (by simp [hx]))
    apply scansTo_step
    intro endTop err bytes
    refine ⟨.scanContinue, ?_, rfl⟩
    have e3 : ¬ c.val < 32 := by omega
    simp [scanner.doStep, stateInString, h2, h3, e3]

theorem escapeOf_val : ∀ e : Byte, (escapeOf e).isSome = true →
    e.val = 34 ∨ e.val = 92 ∨ e.val = 47 ∨ e.val = 98 ∨ e.val = 102 ∨ e.val = 110
      ∨ e.val = 114 ∨ e.val = 116 := by
  decide

/-- A two-character escape inside a string. -/
theorem scansTo_escape (ps : List ParseState) (e : Byte) (he : (escapeOf e).isSome = true) :
    scansTo .stateInString ps [byte '\\'.toNat, e] .stateInString ps := by
  refine scansTo_cons _ _ _ [e] .stateInStringEsc ps _ _ ?_ ?_
  · apply scansTo_step
    intro endTop err bytes
    exact ⟨_, rfl, rfl⟩
  · apply scansTo_step
    intro endTop err bytes
    refine ⟨.scanContinue, ?_, rfl⟩
    rcases escapeOf_val e he with h | h | h | h | h | h | h | h <;>
      simp [scanner.doStep, stateInStringEsc, h]

theorem hexVal_isSome_of_hex4 (h1 h2 h3 h4 : Byte) (u : Nat) (h : hex4 h1 h2 h3 h4 = some u) :
    ∃ a b c d, hexVal h1 = some a ∧ hexVal h2 = some b ∧ hexVal h3 = some c ∧ hexVal h4 = some d
      ∧ u = a * 4096 + b * 256 + c * 16 + d := by
  unfold hex4 at h
  rw [← hexVal_eq_hexDigit, ← hexVal_eq_hexDigit, ← hexVal_eq_hexDigit, ← hexVal_eq_hexDigit] at h
  cases ha : hexVal h1 <;> cases hb : hexVal h2 <;> cases hc : hexVal h3 <;>
    cases hd : hexVal h4 <;> simp only [ha, hb, hc, hd] at h <;>
    first
      | exact ⟨_, _, _, _, rfl, rfl, rfl, rfl, (Option.some.inj h).symm⟩
      | exact absurd h (by simp)

/-- A `\uXXXX` escape inside a string. -/
theorem scansTo_unicode (ps : List ParseState) (h1 h2 h3 h4 : Byte) (u : Nat)
    (h : hex4 h1 h2 h3 h4 = some u) :
    scansTo .stateInString ps [byte '\\'.toNat, byte 'u'.toNat, h1, h2, h3, h4] .stateInString
      ps := by
  obtain ⟨a, b, c, d, ha, hb, hc, hd, _⟩ := hexVal_isSome_of_hex4 h1 h2 h3 h4 u h
  refine scansTo_cons _ _ _ _ .stateInStringEsc ps _ _ ?_ ?_
  · apply scansTo_step
    intro endTop err bytes
    exact ⟨_, rfl, rfl⟩
  refine scansTo_cons _ _ _ _ .stateInStringEscU ps _ _ ?_ ?_
  · apply scansTo_step
    intro endTop err bytes
    exact ⟨_, rfl, rfl⟩
  refine scansTo_cons _ _ _ _ .stateInStringEscU1 ps _ _ ?_ ?_
  · apply scansTo_step
    intro endTop err bytes
    exact ⟨.scanContinue, by simp [scanner.doStep, stateInStringEscHex, ha], rfl⟩
  refine scansTo_cons _ _ _ _ .stateInStringEscU12 ps _ _ ?_ ?_
  · apply scansTo_step
    intro endTop err bytes
    exact ⟨.scanContinue, by simp [scanner.doStep, stateInStringEscHex, hb], rfl⟩
  refine scansTo_cons _ _ _ _ .stateInStringEscU123 ps _ _ ?_ ?_
  · apply scansTo_step
    intro endTop err bytes
    exact ⟨.scanContinue, by simp [scanner.doStep, stateInStringEscHex, hc], rfl⟩
  · apply scansTo_step
    intro endTop err bytes
    exact ⟨.scanContinue, by simp [scanner.doStep, stateInStringEscHex, hd], rfl⟩

/-- The text between the quotes of a well-formed string leaves the scanner inside the
string. -/
theorem scansTo_chars (ps : List ParseState) (t s : GoString) (h : Chars t s) :
    scansTo .stateInString ps t .stateInString ps := by
  induction h with
  | nil => exact scansTo_nil _ _
  | plain c hc _ ih =>
    have hv := isPlain_val c hc
    exact scansTo_cons _ _ c _ _ _ _ _
      (scansTo_inString ps [c] fun x hx => by
        simp only [List.mem_singleton] at hx
        subst hx
        exact ⟨hv.1, hv.2.2.1, hv.2.2.2⟩) ih
  | utf8 r hr _ ih =>
    refine scansTo_append _ _ _ _ _ _ _ _ (scansTo_inString ps _ fun x hx => ?_) ih
    have := (EncodeRune_high r hr).1 x hx
    omega
  | escape e c he _ ih =>
    exact scansTo_append _ _ [byte '\\'.toNat, e] _ _ _ _ _
      (scansTo_escape ps e (by simp [he])) ih
  | unicode h1 h2 h3 h4 u hu _ _ ih =>
    exact scansTo_append _ _ [byte '\\'.toNat, byte 'u'.toNat, h1, h2, h3, h4] _ _ _ _ _
      (scansTo_unicode ps h1 h2 h3 h4 u hu) ih
  | pair h1 h2 h3 h4 l1 l2 l3 l4 hi lo hhi hlo _ _ _ ih =>
    exact scansTo_append _ _ [byte '\\'.toNat, byte 'u'.toNat, h1, h2, h3, h4] _ _ _ _ _
      (scansTo_unicode ps h1 h2 h3 h4 hi hhi)
      (scansTo_append _ _ [byte '\\'.toNat, byte 'u'.toNat, l1, l2, l3, l4] _ _ _ _ _
        (scansTo_unicode ps l1 l2 l3 l4 lo hlo) ih)

/-- A string takes the scanner from the start of a value or of a key to
`stateEndValue`. -/
theorem scansTo_quoted (st : Step) (hst : valueBegin st ∨ keyBegin st) (ps : List ParseState)
    (t s : GoString) (h : Chars t s) : scansTo st ps (quoted t) .stateEndValue ps := by
  refine scansTo_cons _ _ _ _ .stateInString ps _ _ ?_
    (scansTo_append _ _ t _ _ _ _ _ (scansTo_chars ps t s h) ?_)
  · apply scansTo_step
    intro endTop err bytes
    rcases hst with (h | h) | (h | h) <;> subst h <;> exact ⟨_, rfl, rfl⟩
  · apply scansTo_step
    intro endTop err bytes
    exact ⟨_, rfl, rfl⟩

theorem Digits_head (ds : GoString) (h : Digits ds) :
    ∃ c rest, ds = c :: rest ∧ 48 ≤ c.val ∧ c.val ≤ 57 := by
  obtain ⟨h1, h2⟩ := h
  cases ds with
  | nil => exact absurd rfl h1
  | cons c rest => exact ⟨c, rest, rfl, by simpa using h2 c (by simp)⟩

/-- The first byte of a number is a minus sign or a digit. -/
theorem Number_head (t : GoString) (h : Number t) :
    ∃ c rest, t = c :: rest ∧ (c.val = 45 ∨ (48 ≤ c.val ∧ c.val ≤ 57)) := by
  obtain ⟨sign, whole, frac, expo, rfl, hsign, hd, _, _, _⟩ := h
  obtain ⟨c, rest, rfl, hc⟩ := Digits_head whole hd
  rcases hsign with h | h <;> subst h
  · exact ⟨c, rest ++ frac ++ expo, by simp, Or.inr hc⟩
  · exact ⟨byte '-'.toNat, c :: rest ++ frac ++ expo, rfl, Or.inl rfl⟩

/-- A value inside an array or an object is scanned whole. -/
theorem scansTo_nested (d : Nat) (t : GoString) (h : scanSpec .value d t) (st : Step)
    (hst : valueBegin st) (top : ParseState) (ps : List ParseState)
    (hd : ps.length + 1 + d ≤ maxNestingDepth) :
    ∃ st2, valueEnd st2 ∧ scansTo st (top :: ps) t st2 (top :: ps) := by
  rcases h st (top :: ps) hst (by simp only [List.length_cons]; omega) with
    h | ⟨pre, c, st2, top2, rfl, hpre, hc⟩
  · exact h.2
  · exact ⟨.stateEndValue, Or.inl rfl,
      scansTo_append _ _ pre [c] _ _ _ _ hpre (scansTo_close st2 top2 c hc (top :: ps) (by simp))⟩

/-- A value between white space, inside an array or an object. -/
theorem scansTo_padded (d : Nat) (w1 v w2 : GoString) (h1 : Blank w1)
    (h : scanSpec .value d v) (h2 : Blank w2) (st : Step) (hst : valueBegin st)
    (top : ParseState) (ps : List ParseState) (hd : ps.length + 1 + d ≤ maxNestingDepth) :
    ∃ st2, valueEnd st2 ∧ scansTo st (top :: ps) (w1 ++ v ++ w2) st2 (top :: ps) := by
  obtain ⟨st1, hst1, hv⟩ := scansTo_nested d v h st hst top ps hd
  obtain ⟨st2, hst2, hw⟩ := scansTo_blank_end top ps w2 st1 hst1 h2
  exact ⟨st2, hst2,
    scansTo_append _ _ _ _ _ _ _ _
      (scansTo_append _ _ _ _ _ _ _ _ (scansTo_blank_begin st (Or.inl hst) _ w1 h1) hv) hw⟩

/-- A member of an object: key, colon and value, with the white space around them. -/
theorem scansTo_oneMember (d : Nat) (w1 kt k w2 w3 v w4 : GoString) (h1 : Blank w1)
    (hk : Chars kt k) (h2 : Blank w2) (h3 : Blank w3) (h : scanSpec .value d v) (h4 : Blank w4)
    (st : Step) (hst : keyBegin st) (ps : List ParseState)
    (hd : ps.length + 1 + d ≤ maxNestingDepth) :
    ∃ st2, valueEnd st2
      ∧ scansTo st (.parseObjectKey :: ps)
          (w1 ++ quoted kt ++ w2 ++ byte ':'.toNat :: (w3 ++ v ++ w4)) st2
          (.parseObjectValue :: ps) := by
  obtain ⟨sta, hsta, ha⟩ := scansTo_blank_end .parseObjectKey ps w2 .stateEndValue (Or.inl rfl) h2
  obtain ⟨stb, hstb, hb⟩ := scansTo_padded d w3 v w4 h3 h h4 .stateBeginValue (Or.inl rfl)
    .parseObjectValue ps hd
  refine ⟨stb, hstb, ?_⟩
  refine scansTo_append _ _ _ _ _ _ _ _
    (scansTo_append _ _ _ _ _ _ _ _
      (scansTo_append _ _ _ _ _ _ _ _ (scansTo_blank_begin st (Or.inr hst) _ w1 h1)
        (scansTo_quoted st (Or.inr hst) _ kt k hk)) ha)
    (scansTo_cons _ _ _ _ _ _ _ _ (scansTo_colon sta hsta ps) hb)

/-- The scanner reads well-formed JSON. -/
theorem Json_scan (k : Kind) (d : Nat) (t : GoString) (h : Json k d t) : scanSpec k d t := by
  induction h with
  | litNull d =>
    intro st ps hst _
    exact Or.inl ⟨⟨_, _, rfl, by decide, by decide⟩, _, Or.inl rfl,
      scansTo_literal st hst ps _ (Or.inl rfl)⟩
  | litTrue d =>
    intro st ps hst _
    exact Or.inl ⟨⟨_, _, rfl, by decide, by decide⟩, _, Or.inl rfl,
      scansTo_literal st hst ps _ (Or.inr (Or.inl rfl))⟩
  | litFalse d =>
    intro st ps hst _
    exact Or.inl ⟨⟨_, _, rfl, by decide, by decide⟩, _, Or.inl rfl,
      scansTo_literal st hst ps _ (Or.inr (Or.inr rfl))⟩
  | number d hn =>
    intro st ps hst _
    refine Or.inl ⟨?_, scansTo_number st hst ps _ hn⟩
    obtain ⟨c, rest, rfl, hc⟩ := Number_head _ hn
    refine ⟨c, rest, rfl, ?_⟩
    simp only [Char.reduceToNat]
    omega
  | string d hc =>
    intro st ps hst _
    exact Or.inl ⟨⟨_, _, rfl, by decide, by decide⟩, _, Or.inl rfl,
      scansTo_quoted st (Or.inl hst) ps _ _ hc⟩
  | @emptyArray d w hw =>
    intro st ps hst hd
    refine Or.inr ⟨byte '['.toNat :: w, byte ']'.toNat, .stateBeginValueOrEmpty,
      .parseArrayValue, by simp, ?_, Or.inl ⟨rfl, rfl, Or.inr rfl⟩⟩
    exact scansTo_cons _ _ _ _ _ _ _ _ (scansTo_open_array st hst ps (by omega))
      (scansTo_blank_begin _ (Or.inl (Or.inr rfl)) _ w hw)
  | @array d t _ ih =>
    intro st ps hst hd
    obtain ⟨st2, hst2, h2⟩ := ih .stateBeginValueOrEmpty ps (Or.inr rfl) (by omega)
    refine Or.inr ⟨byte '['.toNat :: t, byte ']'.toNat, st2, .parseArrayValue, by simp, ?_,
      Or.inl ⟨rfl, rfl, Or.inl hst2⟩⟩
    exact scansTo_cons _ _ _ _ _ _ _ _ (scansTo_open_array st hst ps (by omega)) h2
  | @emptyObject d w hw =>
    intro st ps hst hd
    refine Or.inr ⟨byte '{'.toNat :: w, byte '}'.toNat, .stateBeginStringOrEmpty,
      .parseObjectKey, by simp, ?_, Or.inr ⟨rfl, Or.inr ⟨rfl, rfl⟩⟩⟩
    exact scansTo_cons _ _ _ _ _ _ _ _ (scansTo_open_object st hst ps (by omega))
      (scansTo_blank_begin _ (Or.inr (Or.inr rfl)) _ w hw)
  | @object d ms t _ ih =>
    intro st ps hst hd
    obtain ⟨st2, hst2, h2⟩ := ih .stateBeginStringOrEmpty ps (Or.inr rfl) (by omega)
    refine Or.inr ⟨byte '{'.toNat :: t, byte '}'.toNat, st2, .parseObjectValue, by simp, ?_,
      Or.inr ⟨rfl, Or.inl ⟨rfl, hst2⟩⟩⟩
    exact scansTo_cons _ _ _ _ _ _ _ _ (scansTo_open_object st hst ps (by omega)) h2
  | @element d w1 v w2 h1 _ h2 ih =>
    intro st ps hst hd
    exact scansTo_padded d w1 v w2 h1 ih h2 st hst _ ps hd
  | @elementCons d w1 v w2 t h1 _ h2 _ ih ihs =>
    intro st ps hst hd
    obtain ⟨sta, hsta, ha⟩ := scansTo_padded d w1 v w2 h1 ih h2 st hst .parseArrayValue ps hd
    obtain ⟨stb, hstb, hb⟩ := ihs .stateBeginValue ps (Or.inl rfl) hd
    exact ⟨stb, hstb,
      scansTo_append _ _ _ _ _ _ _ _ ha
        (scansTo_cons _ _ _ _ _ _ _ _ (scansTo_comma_array sta hsta ps) hb)⟩
  | @member d w1 kt k w2 w3 v w4 h1 hk h2 h3 _ h4 ih =>
    intro st ps hst hd
    exact scansTo_oneMember d w1 kt k w2 w3 v w4 h1 hk h2 h3 ih h4 st hst ps hd
  | @memberCons d w1 kt k w2 w3 v w4 ms t h1 hk h2 h3 _ h4 _ ih ihs =>
    intro st ps hst hd
    obtain ⟨sta, hsta, ha⟩ :=
      scansTo_oneMember d w1 kt k w2 w3 v w4 h1 hk h2 h3 ih h4 st hst ps hd
    obtain ⟨stb, hstb, hb⟩ := ihs .stateBeginString ps (Or.inl rfl) hd
    exact ⟨stb, hstb,
      scansTo_append _ _ _ _ _ _ _ _ ha
        (scansTo_cons _ _ _ _ _ _ _ _ (scansTo_comma_object sta hsta ps) hb)⟩

theorem isDelimiter_spec : ∀ c : Byte, isDelimiter c = true →
    isDigit c = false ∧ c.val ≠ '.'.toNat ∧ c.val ≠ 'e'.toNat ∧ c.val ≠ 'E'.toNat := by
  decide

/-- At top level, a delimiter behind a value ends it. -/
theorem doStep_top_end (st : Step) (hst : valueEnd st) (s : scanner) (hs : s.step = st)
    (hp : s.parseState = []) (c : Byte) (hc : isDelimiter c = true) :
    (s.doStep c).1 = .scanEnd := by
  obtain ⟨h1, h2⟩ := isDelimiter_spec c hc
  rw [doStep_valueEnd st hst s hs c h1 h2]
  unfold stateEndValue
  rw [hp]
  exact stateEndTop_fst _ _

/-- At top level `readValue` reads a well-formed value whole: an array or an object
whatever follows it, any other value when the input ends there or a delimiter
follows. -/
theorem readValueLoop_value (buf : GoString) (readErr : Option GoError) (d : Nat)
    (v : GoString) (h : Json .value d v) (hd : d ≤ maxNestingDepth) (rest : List Byte)
    (hrest : endsValue readErr rest) (s : scanner) (hs : s.step = .stateBeginValue)
    (hp : s.parseState = []) (scanp : Nat) :
    readValueLoop buf readErr s (v ++ rest) scanp = .ok (scanp + v.length) := by
  rcases Json_scan _ _ _ h .stateBeginValue [] (Or.inl rfl) (by simpa using hd) with
    ⟨_, st2, hst2, hscan⟩ | ⟨pre, c, st2, top, rfl, hpre, hc⟩
  · obtain ⟨s2, hs2, hstep, hps⟩ := hscan s hs hp
    rw [readValueLoop_scanBytes buf readErr v rest s s2 scanp hs2]
    rcases hrest with ⟨rfl, rfl⟩ | ⟨c, rest2, rfl, hc⟩
    · rw [readValueLoop]
      have hsp : isDelimiter (byte ' '.toNat) = true := by decide
      simp only [doStep_top_end st2 hst2 s2 hstep hps (byte ' '.toNat) hsp, if_true]
    · rw [readValueLoop]
      have := doStep_top_end st2 hst2 { s2 with bytes := s2.bytes + 1 } hstep hps c hc
      rcases hdo : scanner.doStep { s2 with bytes := s2.bytes + 1 } c with ⟨op, s3⟩
      rw [hdo] at this
      simp only at this
      subst this
      rfl
  · obtain ⟨s2, hs2, hstep, hps⟩ := hpre s hs hp
    rw [List.append_assoc, readValueLoop_scanBytes buf readErr pre _ s s2 scanp hs2]
    rw [List.singleton_append, readValueLoop_close buf readErr st2 top c hc s2 hstep hps]
    simp only [List.length_append, List.length_singleton]
    rw [Nat.add_assoc]

/-- At top level `readValue` reads a well-formed array or object whole, whatever
follows it. -/
theorem readValueLoop_bracket (buf : GoString) (readErr : Option GoError) (d : Nat)
    (v : GoString) (h : Json .value d v) (hd : d ≤ maxNestingDepth) (hv : ¬ noBracket v)
    (rest : List Byte) (s : scanner) (hs : s.step = .stateBeginValue)
    (hp : s.parseState = []) (scanp : Nat) :
    readValueLoop buf readErr s (v ++ rest) scanp = .ok (scanp + v.length) := by
  rcases Json_scan _ _ _ h .stateBeginValue [] (Or.inl rfl) (by simpa using hd) with
    ⟨hno, _⟩ | ⟨pre, c, st2, top, rfl, hpre, hc⟩
  · exact absurd hno hv
  · obtain ⟨s2, hs2, hstep, hps⟩ := hpre s hs hp
    rw [List.append_assoc, readValueLoop_scanBytes buf readErr pre _ s s2 scanp hs2]
    rw [List.singleton_append, readValueLoop_close buf readErr st2 top c hc s2 hstep hps]
    simp only [List.length_append, List.length_singleton]
    rw [Nat.add_assoc]

/-- The decoder splits a well-formed value off the text it stands in. -/
theorem nextValue_value (d : Nat) (v : GoString) (h : Json .value d v)
    (hd : d ≤ maxNestingDepth) (rest : List Byte) (hrest : endsValue none rest) :
    nextValue (v ++ rest) = some (v, rest) := by
  unfold nextValue
  rw [readValueLoop_value (v ++ rest) none d v h hd rest hrest scanner.reset rfl rfl 0]
  simp

theorem isSpace_false_of_val (c : Byte) (h : c.val ≠ 32 ∧ c.val ≠ 9 ∧ c.val ≠ 13 ∧ c.val ≠ 10) :
    isSpace c = false := by
  obtain ⟨h1, h2, h3, h4⟩ := h
  simp [isSpace, h1, h2, h3, h4]

theorem value_head (d : Nat) (v : GoString) (h : Json .value d v) : headKind v := by
  cases h with
  | litNull => exact ⟨_, _, rfl, by decide, by decide⟩
  | litTrue => exact ⟨_, _, rfl, by decide, by decide⟩
  | litFalse => exact ⟨_, _, rfl, by decide, by decide⟩
  | number _ hn =>
    obtain ⟨c, rest, rfl, hc⟩ := Number_head v hn
    refine ⟨c, rest, rfl, isSpace_false_of_val c (by omega), ?_⟩
    simp only [Char.reduceToNat]
    omega
  | string _ _ => exact ⟨_, _, rfl, by decide, by decide⟩
  | emptyArray _ _ => exact ⟨_, _, rfl, by decide, by decide⟩
  | array _ => exact ⟨_, _, rfl, by decide, by decide⟩
  | emptyObject _ _ => exact ⟨_, _, rfl, by decide, by decide⟩
  | object _ => exact ⟨_, _, rfl, by decide, by decide⟩

theorem skipSpace_blank (w : GoString) (hw : Blank w) (rest : List Byte) :
    skipSpace (w ++ rest) = skipSpace rest := by
  induction w with
  | nil => rfl
  | cons c w ih =>
    obtain ⟨hc, hw2⟩ := Blank_cons c w hw
    rw [List.cons_append, skipSpace]
    simp only [hc, if_true]
    exact ih hw2

theorem skipSpace_cons (c : Byte) (rest : List Byte) (h : isSpace c = false) :
    skipSpace (c :: rest) = c :: rest := by
  rw [skipSpace]
  simp [h]

theorem skipSpace_value (d : Nat) (v : GoString) (h : Json .value d v) (rest : List Byte) :
    skipSpace (v ++ rest) = v ++ rest := by
  obtain ⟨c, r, rfl, hc, _⟩ := value_head d v h
  exact skipSpace_cons c _ hc

/-- White space, and then a delimiter that is none, ends a value. -/
theorem endsValue_blank (w : GoString) (hw : Blank w) (c : Byte) (hc : isDelimiter c = true)
    (rest : List Byte) : endsValue none (w ++ c :: rest) := by
  cases w with
  | nil => exact Or.inr ⟨c, rest, rfl, hc⟩
  | cons x w =>
    refine Or.inr ⟨x, w ++ c :: rest, rfl, ?_⟩
    have := (Blank_cons x w hw).1
    simp [isDelimiter, this]

theorem DecodeRune_two (p0 b1 : Byte) (a b : Nat) (rest : List Byte) (ha : 2 ≤ a ∧ a ≤ 31) (hb : b < 64)
    (hp0 : p0.val = 192 + a) (hb1 : b1.val = 128 + b) :
    DecodeRune (p0 :: b1 :: rest) = (a * 64 + b, 2) := by
  simp only [DecodeRune, hp0, hb1, List.length_cons]
  simp (disch := omega) only [if_pos, if_neg, if_true, if_false]
  simp only [Prod.mk.injEq, and_true]
  omega

theorem DecodeRune_three (p0 b1 b2 : Byte) (a b c : Nat) (rest : List Byte) (ha : a ≤ 15)
    (hb : b < 64) (hc : c < 64) (hlo : a = 0 → 32 ≤ b) (hhi : a = 13 → b < 32)
    (hp0 : p0.val = 224 + a) (hb1 : b1.val = 128 + b) (hb2 : b2.val = 128 + c) :
    DecodeRune (p0 :: b1 :: b2 :: rest) = (a * 4096 + b * 64 + c, 3) := by
  simp only [DecodeRune, hp0, hb1, hb2, List.length_cons]
  by_cases h0 : a = 0
  · subst h0
    have := hlo rfl
    simp (disch := omega) only [if_pos, if_neg, if_true, if_false]
    simp only [Prod.mk.injEq, and_true]
    omega
  · by_cases h13 : a = 13
    · subst h13
      have := hhi rfl
      simp (disch := omega) only [if_pos, if_neg, if_true, if_false]
      simp only [Prod.mk.injEq, and_true]
      omega
    · simp (disch := omega) only [if_pos, if_neg, if_true, if_false]
      simp only [Prod.mk.injEq, and_true]
      omega

theorem DecodeRune_four (p0 b1 b2 b3 : Byte) (a b c d : Nat) (rest : List Byte) (ha : a ≤ 4)
    (hb : b < 64) (hc : c < 64) (hd : d < 64) (hlo : a = 0 → 16 ≤ b) (hhi : a = 4 → b < 16)
    (hp0 : p0.val = 240 + a) (hb1 : b1.val = 128 + b) (hb2 : b2.val = 128 + c)
    (hb3 : b3.val = 128 + d) :
    DecodeRune (p0 :: b1 :: b2 :: b3 :: rest) = (a * 262144 + b * 4096 + c * 64 + d, 4) := by
  simp only [DecodeRune, hp0, hb1, hb2, hb3, List.length_cons]
  by_cases h0 : a = 0
  · subst h0
    have := hlo rfl
    simp (disch := omega) only [if_pos, if_neg, if_true, if_false]
    simp only [Prod.mk.injEq, and_true]
    omega
  · by_cases h4 : a = 4
    · subst h4
      have := hhi rfl
      simp (disch := omega) only [if_pos, if_neg, if_true, if_false]
      simp only [Prod.mk.injEq, and_true]
      omega
    · simp (disch := omega) only [if_pos, if_neg, if_true, if_false]
      simp only [Prod.mk.injEq, and_true]
      omega

/-- Decoding undoes encoding: the UTF-8 encoding of a code point beyond ASCII, with
whatever follows it, decodes to that code point and its width. -/
theorem DecodeRune_EncodeRune (r : Nat) (hr : isScalar r) (rest : List Byte) :
    DecodeRune (EncodeRune r ++ rest) = (r, (EncodeRune r).length) := by
  obtain ⟨h1, h2, h3⟩ := hr
  unfold EncodeRune
  have e1 : ¬ r ≤ 0x7F := by omega
  have e3 : ¬ (r > 0x10FFFF ∨ (0xD800 ≤ r ∧ r ≤ 0xDFFF)) := by omega
  simp only [e1, e3, if_false]
  split
  · rw [List.cons_append, List.cons_append, List.nil_append,
      DecodeRune_two _ _ (r / 64) (r % 64) rest (by omega) (by omega)
        (by simp only [byte_val]; omega) (by simp only [byte_val]; omega)]
    simp only [List.length_cons, List.length_nil, Prod.mk.injEq, and_true]
    omega
  · split
    · rw [List.cons_append, List.cons_append, List.cons_append, List.nil_append,
        DecodeRune_three _ _ _ (r / 4096) (r / 64 % 64) (r % 64) rest (by omega) (by omega)
          (by omega) (by omega) (by omega)
          (by simp only [byte_val]; omega) (by simp only [byte_val]; omega)
          (by simp only [byte_val]; omega)]
      simp only [List.length_cons, List.length_nil, Prod.mk.injEq, and_true]
      omega
    · rw [List.cons_append, List.cons_append, List.cons_append, List.cons_append,
        List.nil_append,
        DecodeRune_four _ _ _ _ (r / 262144) (r / 4096 % 64) (r / 64 % 64) (r % 64) rest
          (by omega) (by omega) (by omega) (by omega) (by omega) (by omega)
          (by simp only [byte_val]; omega) (by simp only [byte_val]; omega)
          (by simp only [byte_val]; omega) (by simp only [byte_val]; omega)]
      simp only [List.length_cons, List.length_nil, Prod.mk.injEq, and_true]
      omega

/-- One round of `unquoteBytes` on a plain byte. -/
theorem unquoteLoop_plain (fuel : Nat) (c : Byte) (rest : List Byte) (hc : isPlain c = true) :
    unquoteLoop (fuel + 1) (c :: rest) = (unquoteLoop fuel rest).map (c :: ·) := by
  obtain ⟨h1, h2, h3, h4⟩ := isPlain_val c hc
  rw [unquoteLoop.eq_def]
  have e1 : ¬ c.val < 32 := by omega
  simp [h3, h4, e1, h2]

/-- One round of `unquoteBytes` on a byte beyond ASCII. -/
theorem unquoteLoop_high (fuel : Nat) (c : Byte) (rest : List Byte) (hc : 0x80 ≤ c.val) :
    unquoteLoop (fuel + 1) (c :: rest)
      = (unquoteLoop fuel ((c :: rest).drop (DecodeRune (c :: rest)).2)).map
          (EncodeRune (DecodeRune (c :: rest)).1 ++ ·) := by
  rw [unquoteLoop.eq_def]
  have e1 : ¬ c.val = 92 := by omega
  have e2 : ¬ c.val = 34 := by omega
  have e3 : ¬ c.val < 32 := by omega
  have e4 : ¬ c.val < 128 := by omega
  simp [e1, e2, e3, e4]

/-- One round of `unquoteBytes` on a two-character escape. -/
theorem unquoteLoop_escape (fuel : Nat) (e c : Byte) (rest : List Byte)
    (he : escapeOf e = some c) :
    unquoteLoop (fuel + 1) (byte '\\'.toNat :: e :: rest) = (unquoteLoop fuel rest).map (c :: ·) := by
  have hv := escapeOf_val e (by simp [he])
  rcases hv with h | h | h | h | h | h | h | h
  all_goals
    have he2 : e = byte e.val := Fin.ext (by simp only [byte_val]; omega)
    rw [h] at he2
    subst he2
    obtain rfl : c = _ := Option.some.inj (he.symm.trans rfl)
    rfl

theorem getu4_of_hex4 (h1 h2 h3 h4 : Byte) (u : Nat) (rest : List Byte)
    (h : hex4 h1 h2 h3 h4 = some u) :
    getu4 (byte '\\'.toNat :: byte 'u'.toNat :: h1 :: h2 :: h3 :: h4 :: rest) = some u := by
  obtain ⟨a, b, c, d, ha, hb, hc, hd, rfl⟩ := hexVal_isSome_of_hex4 h1 h2 h3 h4 u h
  simp only [getu4, ha, hb, hc, hd, byte_val, Char.reduceToNat]
  simp only [Nat.reduceMod, and_self, if_true, Option.some.injEq]
  ring

/-- One round of `unquoteBytes` on a `\uXXXX` escape that is no surrogate. -/
theorem unquoteLoop_unicode (fuel : Nat) (h1 h2 h3 h4 : Byte) (u : Nat) (rest : List Byte)
    (hu : hex4 h1 h2 h3 h4 = some u) (hs : ¬(0xD800 ≤ u ∧ u ≤ 0xDFFF)) :
    unquoteLoop (fuel + 1) (byte '\\'.toNat :: byte 'u'.toNat :: h1 :: h2 :: h3 :: h4 :: rest)
      = (unquoteLoop fuel rest).map (EncodeRune u ++ ·) := by
  rw [unquoteLoop]
  have hs2 : ¬(0xD800 ≤ u ∧ u < 0xE000) := by omega
  have hg := getu4_of_hex4 h1 h2 h3 h4 u rest hu
  simp only [Char.reduceToNat] at hg
  simp [hg, hs2]

/-- One round of `unquoteBytes` on a surrogate pair of `\uXXXX` escapes. -/
theorem unquoteLoop_pair (fuel : Nat) (h1 h2 h3 h4 l1 l2 l3 l4 : Byte) (hi lo : Nat)
    (rest : List Byte) (hhi : hex4 h1 h2 h3 h4 = some hi) (hlo : hex4 l1 l2 l3 l4 = some lo)
    (hh : 0xD800 ≤ hi ∧ hi ≤ 0xDBFF) (hl : 0xDC00 ≤ lo ∧ lo ≤ 0xDFFF) :
    unquoteLoop (fuel + 1)
        (byte '\\'.toNat :: byte 'u'.toNat :: h1 :: h2 :: h3 :: h4
          :: byte '\\'.toNat :: byte 'u'.toNat :: l1 :: l2 :: l3 :: l4 :: rest)
      = (unquoteLoop fuel rest).map
          (EncodeRune (0x10000 + (hi - 0xD800) * 0x400 + (lo - 0xDC00)) ++ ·) := by
  rw [unquoteLoop]
  have hs2 : 0xD800 ≤ hi ∧ hi < 0xE000 := by omega
  have hdec : utf16DecodeRune hi (some lo) = 0x10000 + (hi - 0xD800) * 0x400 + (lo - 0xDC00) := by
    have hc : 0xD800 ≤ hi ∧ hi < 0xDC00 ∧ 0xDC00 ≤ lo ∧ lo < 0xE000 := by omega
    simp only [utf16DecodeRune, hc, and_self, if_true]
    omega
  have hne : ¬ (0x10000 + (hi - 0xD800) * 0x400 + (lo - 0xDC00) = 0xFFFD) := by omega
  have hg1 := getu4_of_hex4 h1 h2 h3 h4 hi
    (byte '\\'.toNat :: byte 'u'.toNat :: l1 :: l2 :: l3 :: l4 :: rest) hhi
  have hg2 := getu4_of_hex4 l1 l2 l3 l4 lo rest hlo
  simp only [Char.reduceToNat] at hg1 hg2
  simp [hg1, hg2, hs2, hdec, hne]

/-- The loop of `unquoteBytes` turns the text between the quotes of a well-formed
string into the bytes it stands for. -/
theorem unquoteLoop_chars (t s : GoString) (h : Chars t s) :
    ∀ fuel : Nat, t.length < fuel → unquoteLoop fuel t = some s := by
  induction h with
  | nil =>
    intro fuel hf
    obtain ⟨n, rfl⟩ := Nat.exists_eq_succ_of_ne_zero (Nat.ne_of_gt hf)
    rfl
  | @plain c t s hc _ ih =>
    intro fuel hf
    obtain ⟨n, rfl⟩ := Nat.exists_eq_succ_of_ne_zero (Nat.ne_of_gt (Nat.zero_lt_of_lt hf))
    rw [unquoteLoop_plain n c t hc, ih n (by simpa using hf)]
    rfl
  | @utf8 r t s hr _ ih =>
    intro fuel hf
    obtain ⟨n, rfl⟩ := Nat.exists_eq_succ_of_ne_zero (Nat.ne_of_gt (Nat.zero_lt_of_lt hf))
    obtain ⟨hhigh, hlen⟩ := EncodeRune_high r hr
    have hdec := DecodeRune_EncodeRune r hr t
    cases hE : EncodeRune r with
    | nil => rw [hE] at hlen; simp at hlen
    | cons c cs =>
      rw [hE] at hdec hhigh hf
      rw [List.cons_append] at hdec ⊢
      rw [unquoteLoop_high n c (cs ++ t) (hhigh c (by simp)), hdec]
      simp only
      rw [← List.cons_append, List.drop_left, ih n (by
        simp only [List.length_append, List.length_cons] at hf
        omega), hE]
      rfl
  | @escape e c t s he _ ih =>
    intro fuel hf
    obtain ⟨n, rfl⟩ := Nat.exists_eq_succ_of_ne_zero (Nat.ne_of_gt (Nat.zero_lt_of_lt hf))
    rw [unquoteLoop_escape n e c t he, ih n (by
      simp only [List.length_cons] at hf
      omega)]
    rfl
  | @unicode h1 h2 h3 h4 u t s hu hs _ ih =>
    intro fuel hf
    obtain ⟨n, rfl⟩ := Nat.exists_eq_succ_of_ne_zero (Nat.ne_of_gt (Nat.zero_lt_of_lt hf))
    rw [unquoteLoop_unicode n h1 h2 h3 h4 u t hu hs, ih n (by
      simp only [List.length_cons] at hf
      omega)]
    rfl
  | @pair h1 h2 h3 h4 l1 l2 l3 l4 hi lo t s hhi hlo hh hl _ ih =>
    intro fuel hf
    obtain ⟨n, rfl⟩ := Nat.exists_eq_succ_of_ne_zero (Nat.ne_of_gt (Nat.zero_lt_of_lt hf))
    rw [unquoteLoop_pair n h1 h2 h3 h4 l1 l2 l3 l4 hi lo t hhi hlo hh hl, ih n (by
      simp only [List.length_cons] at hf
      omega)]
    rfl

/-- The decoder unquotes a well-formed string literal to the bytes it stands for. -/
theorem unquoteBytes_quoted (t s : GoString) (h : Chars t s) :
    unquoteBytes (quoted t) = some s := by
  unfold unquoteBytes quoted
  simp only [List.length_append, List.length_singleton, byte_val, Char.reduceToNat,
    List.getLast?_append, List.getLast?_singleton, List.dropLast_concat]
  simp
  exact unquoteLoop_chars t s h _ (by omega)

/-- The decoder makes a string of a well-formed string literal. -/
theorem classify_quoted (t s : GoString) (h : Chars t s) :
    classify (quoted t) = some (.string s) := by
  have hu := unquoteBytes_quoted t s h
  unfold quoted at hu ⊢
  simp only [Char.reduceToNat] at hu
  simp only [classify, byte_val, Char.reduceToNat]
  simp [hu]

/-- The first byte of the text of an integer: a minus sign or a digit. -/
theorem FormatInt_head (i : Int) :
    ∃ c rest, FormatInt i = c :: rest ∧ (c.val = 45 ∨ (48 ≤ c.val ∧ c.val ≤ 57)) := by
  unfold FormatInt
  split
  · exact ⟨_, _, rfl, Or.inl (by decide)⟩
  · cases hf : FormatUint i.natAbs with
    | nil => exact absurd hf (FormatUint_ne_nil _)
    | cons c rest =>
      exact ⟨c, rest, rfl, Or.inr (isDigit_val c (FormatUint_isDigit i.natAbs c (by rw [hf]; simp)))⟩

/-- The decoder takes what starts with a minus sign or a digit for a number. -/
theorem classify_number (c : Byte) (rest : List Byte)
    (hc : c.val = 45 ∨ (48 ≤ c.val ∧ c.val ≤ 57)) :
    classify (c :: rest) = some (.number (c :: rest)) := by
  have h : ¬ c.val = 123 ∧ ¬ c.val = 91 ∧ ¬ c.val = 34 ∧ ¬ c.val = 110 ∧ ¬ c.val = 116
      ∧ ¬ c.val = 102 := by omega
  simp [classify, h]

theorem classify_FormatInt (i : Int) : classify (FormatInt i) = some (.number (FormatInt i)) := by
  obtain ⟨c, rest, hf, hc⟩ := FormatInt_head i
  rw [hf]
  exact classify_number c rest hc

/-- The decoder classifies every well-formed value. -/
theorem classify_value (d : Nat) (v : GoString) (h : Json .value d v) :
    classify v = some (itemOf v) := by
  have key : ∀ i, classify v = some i → classify v = some (itemOf v) := by
    intro i hi
    simp [itemOf, hi]
  cases h with
  | litNull => exact key _ rfl
  | litTrue => exact key _ rfl
  | litFalse => exact key _ rfl
  | number _ hn =>
    obtain ⟨c, rest, rfl, hc⟩ := Number_head v hn
    exact key _ (classify_number c rest hc)
  | string _ hc => exact key _ (classify_quoted _ _ hc)
  | emptyArray _ _ => exact key _ rfl
  | array _ => exact key _ rfl
  | emptyObject _ _ => exact key _ rfl
  | object _ => exact key _ rfl

theorem isDelimiter_not_space (sep : Byte) (h : sep = byte ','.toNat ∨ sep = byte '}'.toNat) :
    isDelimiter sep = true ∧ isSpace sep = false := by
  rcases h with h | h <;> subst h <;> decide

/-- One round of the loop of `d.object` on a well-formed member that a comma or a
closing brace follows: the key unquoted, the value classified. -/
theorem membersLoop_member (fuel d : Nat) (w1 kt k w2 w3 v w4 : GoString) (h1 : Blank w1)
    (hk : Chars kt k) (h2 : Blank w2) (h3 : Blank w3) (hv : Json .value d v)
    (hd : d ≤ maxNestingDepth) (h4 : Blank w4) (sep : Byte) (more : List Byte)
    (hsep : sep = byte ','.toNat ∨ sep = byte '}'.toNat) :
    membersLoop (fuel + 1)
        (w1 ++ (quoted kt ++ (w2 ++ byte ':'.toNat :: (w3 ++ (v ++ (w4 ++ sep :: more))))))
      = if sep = byte ','.toNat then (membersLoop fuel more).map ((k, itemOf v) :: ·)
        else some [(k, itemOf v)] := by
  obtain ⟨hsepd, hsepsp⟩ := isDelimiter_not_space sep hsep
  have hshape : ∀ X : List Byte,
      quoted kt ++ X = byte '"'.toNat :: (kt ++ [byte '"'.toNat] ++ X) := by
    intro X
    simp [quoted]
  have hq1 : isSpace (byte '"'.toNat) = false := by decide
  have hq2 : ¬ (byte '"'.toNat).val = '}'.toNat := by decide
  have hc1 : isSpace (byte ':'.toNat) = false := by decide
  have hc2 : ¬ (byte ':'.toNat).val ≠ ':'.toNat := by decide
  have hskip1 : skipSpace
        (w1 ++ (quoted kt ++ (w2 ++ byte ':'.toNat :: (w3 ++ (v ++ (w4 ++ sep :: more))))))
      = byte '"'.toNat
        :: (kt ++ [byte '"'.toNat]
          ++ (w2 ++ byte ':'.toNat :: (w3 ++ (v ++ (w4 ++ sep :: more))))) := by
    rw [skipSpace_blank w1 h1, hshape, skipSpace_cons _ _ hq1]
  have hnext1 : nextValue (byte '"'.toNat
        :: (kt ++ [byte '"'.toNat]
          ++ (w2 ++ byte ':'.toNat :: (w3 ++ (v ++ (w4 ++ sep :: more))))))
      = some (quoted kt, w2 ++ byte ':'.toNat :: (w3 ++ (v ++ (w4 ++ sep :: more)))) := by
    rw [← hshape]
    exact nextValue_value 0 (quoted kt) (Json.string 0 hk) (Nat.zero_le _) _
      (endsValue_blank w2 h2 _ (by decide) _)
  have hskip2 : skipSpace (w2 ++ byte ':'.toNat :: (w3 ++ (v ++ (w4 ++ sep :: more))))
      = byte ':'.toNat :: (w3 ++ (v ++ (w4 ++ sep :: more))) := by
    rw [skipSpace_blank w2 h2, skipSpace_cons _ _ hc1]
  have hskip3 : skipSpace (w3 ++ (v ++ (w4 ++ sep :: more))) = v ++ (w4 ++ sep :: more) := by
    rw [skipSpace_blank w3 h3, skipSpace_value d v hv]
  have hnext2 : nextValue (v ++ (w4 ++ sep :: more)) = some (v, w4 ++ sep :: more) :=
    nextValue_value d v hv hd _ (endsValue_blank w4 h4 sep hsepd more)
  have hskip4 : skipSpace (w4 ++ sep :: more) = sep :: more := by
    rw [skipSpace_blank w4 h4, skipSpace_cons _ _ hsepsp]
  rw [membersLoop.eq_def]
  simp only [hskip1, hq2, if_false, hnext1, unquoteBytes_quoted kt k hk, hskip2, hc2, hskip3,
    hnext2, classify_value d v hv, hskip4]
  rcases hsep with h | h <;> subst h
  · simp
  · have hne : ¬ byte 125 = byte 44 := by decide
    simp [hne]

theorem Json_members (k : Kind) (d : Nat) (t : GoString) (h : Json k d t) :
    membersSpec k d t := by
  induction h with
  | litNull => trivial
  | litTrue => trivial
  | litFalse => trivial
  | number => trivial
  | string => trivial
  | emptyArray => trivial
  | array => trivial
  | emptyObject => trivial
  | object => trivial
  | element => trivial
  | elementCons => trivial
  | @member d w1 kt k w2 w3 v w4 h1 hk h2 h3 hv h4 _ =>
    refine ⟨by simp, by simp [quoted]; omega, ?_⟩
    intro hd fuel rest hf
    obtain ⟨n, rfl⟩ := Nat.exists_eq_succ_of_ne_zero (Nat.ne_of_gt hf)
    have hshape : w1 ++ quoted kt ++ w2 ++ byte ':'.toNat :: (w3 ++ v ++ w4)
          ++ byte '}'.toNat :: rest
        = w1 ++ (quoted kt ++ (w2 ++ byte ':'.toNat
          :: (w3 ++ (v ++ (w4 ++ byte '}'.toNat :: rest))))) := by
      simp only [List.append_assoc, List.cons_append]
    rw [hshape, membersLoop_member n d w1 kt k w2 w3 v w4 h1 hk h2 h3 hv hd h4 _ rest
      (Or.inr rfl)]
    have hne : ¬ byte 125 = byte 44 := by decide
    simp [hne]
  | @memberCons d w1 kt k w2 w3 v w4 ms t h1 hk h2 h3 hv h4 _ _ ihs =>
    obtain ⟨hpos, hlen, ih⟩ := ihs
    refine ⟨by simp, ?_, ?_⟩
    · simp only [List.length_cons, List.length_append]
      omega
    intro hd fuel rest hf
    obtain ⟨n, rfl⟩ := Nat.exists_eq_succ_of_ne_zero
      (Nat.ne_of_gt (Nat.lt_of_lt_of_le (by simp) hf))
    have hshape : w1 ++ quoted kt ++ w2 ++ byte ':'.toNat :: (w3 ++ v ++ w4)
          ++ byte ','.toNat :: t ++ byte '}'.toNat :: rest
        = w1 ++ (quoted kt ++ (w2 ++ byte ':'.toNat
          :: (w3 ++ (v ++ (w4 ++ byte ','.toNat :: (t ++ byte '}'.toNat :: rest)))))) := by
      simp only [List.append_assoc, List.cons_append]
    rw [hshape, membersLoop_member n d w1 kt k w2 w3 v w4 h1 hk h2 h3 hv hd h4 _ _
      (Or.inl rfl), ih hd n rest (by simp only [List.length_cons] at hf; omega)]
    simp

/-- A well-formed object is a well-formed value that opens with a brace. -/
theorem Object_value (obj : GoString) (ms : List (GoString × GoString)) (h : Object obj ms) :
    ∃ d, d ≤ maxNestingDepth ∧ Json .value d obj ∧ ¬ noBracket obj
      ∧ ∃ b, obj = byte '{'.toNat :: (b ++ [byte '}'.toNat]) := by
  have hb : ∀ b : GoString, ¬ noBracket (byte '{'.toNat :: (b ++ [byte '}'.toNat])) := by
    rintro b ⟨c, rest, h, h1, _⟩
    simp only [List.cons.injEq] at h
    exact h1 (by rw [← h.1]; decide)
  rcases h with ⟨_, w, hw, rfl⟩ | ⟨d, b, hd, hj, rfl⟩
  · exact ⟨1, by decide, Json.emptyObject 0 hw, hb w, w, rfl⟩
  · exact ⟨d + 1, hd, Json.object hj, hb b, b, rfl⟩

/-- The decoder reads the first value of a body that starts, after white space, with a
well-formed object: that object, whatever follows it and however the stream ends. -/
theorem readValue_object (body : Body) (w obj rest : GoString)
    (ms : List (GoString × GoString)) (hdata : body.data = w ++ obj ++ rest) (hw : Blank w)
    (hobj : Object obj ms) : readValue body = .ok (w ++ obj) := by
  obtain ⟨d, hd, hj, hno, _⟩ := Object_value obj ms hobj
  obtain ⟨s1, hs1, hstep, hps⟩ :=
    scansTo_blank_begin .stateBeginValue (Or.inl (Or.inl rfl)) [] w hw scanner.reset rfl rfl
  unfold readValue
  rw [hdata, List.append_assoc,
    readValueLoop_scanBytes _ body.readErr w (obj ++ rest) scanner.reset s1 0 hs1,
    readValueLoop_bracket _ body.readErr d obj hj hd hno rest s1 hstep hps]
  simp only [Nat.zero_add, Except.ok.injEq]
  rw [← List.length_append, ← List.append_assoc, List.take_left]

/-- The members the decoder finds in a well-formed object. -/
theorem objectMembers_object (obj : GoString) (ms : List (GoString × GoString))
    (h : Object obj ms) : objectMembers obj = some (ms.map fun m => (m.1, itemOf m.2)) := by
  rcases h with ⟨rfl, w, hw, rfl⟩ | ⟨d, b, hd, hj, rfl⟩
  · unfold objectMembers
    simp only [List.tail_cons, List.length_cons, List.map_nil]
    rw [membersLoop.eq_def]
    have hb : isSpace (byte '}'.toNat) = false := by decide
    simp only [skipSpace_blank w hw, skipSpace_cons _ _ hb]
    simp
  · obtain ⟨_, hlen, hm⟩ := Json_members _ _ _ hj
    unfold objectMembers
    simp only [List.tail_cons]
    exact hm (Nat.le_of_lt hd) _ [] (by
      simp only [List.length_cons, List.length_append]
      omega)

/-- Decoding a body that starts with a well-formed object into a struct: the members of
the object are stored one after the other, each key unquoted and each value
classified. -/
theorem Decode_object {σ : Type} (typeName : String)
    (store : GoString → Item → σ → σ × Option GoError) (body : Body) (w obj rest : GoString)
    (ms : List (GoString × GoString)) (dst : σ) (hdata : body.data = w ++ obj ++ rest)
    (hw : Blank w) (hobj : Object obj ms) :
    Decode (unmarshalStruct typeName store) body dst
      = storeMembers store (ms.map fun m => (m.1, itemOf m.2)) dst := by
  obtain ⟨_, _, hj, _, b, hb⟩ := Object_value obj ms hobj
  have htop : topLevel (w ++ obj) = some (.object obj) := by
    unfold topLevel
    rw [skipSpace_blank w hw, hb, skipSpace_cons _ _ (by decide)]
    rfl
  unfold Decode unmarshalStruct
  simp only [readValue_object body w obj rest ms hdata hw hobj, htop,
    objectMembers_object obj ms hobj]

/-- What `DecodeRune` makes of a first byte beyond ASCII: it fails, or it reads an
encoding of two, three or four bytes. -/
theorem DecodeRune_high (c : Byte) (rest : List Byte) (hc : 0x80 ≤ c.val) :
    DecodeRune (c :: rest) = (0xFFFD, 1)
      ∨ (∃ b1 r, rest = b1 :: r ∧ 0xC2 ≤ c.val ∧ c.val ≤ 0xDF ∧ 0x80 ≤ b1.val ∧ b1.val ≤ 0xBF
        ∧ DecodeRune (c :: rest) = (c.val % 32 * 64 + b1.val % 64, 2))
      ∨ (∃ b1 b2 r, rest = b1 :: b2 :: r ∧ 0xE0 ≤ c.val ∧ c.val ≤ 0xEF
        ∧ (c.val = 0xE0 → 0xA0 ≤ b1.val) ∧ 0x80 ≤ b1.val ∧ b1.val ≤ 0xBF
        ∧ 0x80 ≤ b2.val ∧ b2.val ≤ 0xBF
        ∧ DecodeRune (c :: rest) = (c.val % 16 * 4096 + b1.val % 64 * 64 + b2.val % 64, 3))
      ∨ (∃ b1 b2 b3 r, rest = b1 :: b2 :: b3 :: r ∧ 0xF0 ≤ c.val ∧ c.val ≤ 0xF4
        ∧ (c.val = 0xF0 → 0x90 ≤ b1.val) ∧ 0x80 ≤ b1.val ∧ b1.val ≤ 0xBF
        ∧ DecodeRune (c :: rest)
          = (c.val % 8 * 262144 + b1.val % 64 * 4096 + b2.val % 64 * 64 + b3.val % 64, 4)) := by
  by_cases h2 : c.val < 0xC2 ∨ 0xF4 < c.val
  · left
    simp (disch := omega) only [DecodeRune, if_pos, if_neg]
  have hc2 : 0xC2 ≤ c.val ∧ c.val ≤ 0xF4 := by omega
  cases rest with
  | nil =>
    left
    simp (disch := omega) only [DecodeRune, List.length_nil, if_pos, if_neg, if_true, if_false,
      ite_self]
  | cons b1 r1 =>
    by_cases hA : c.val < 0xE0
    · -- two bytes
      by_cases hb1 : b1.val < 0x80 ∨ 0xBF < b1.val
      · left
        simp (disch := omega) only [DecodeRune, List.length_cons, if_pos, if_neg, if_true,
          if_false]
      · right; left
        refine ⟨b1, r1, rfl, by omega, by omega, by omega, by omega, ?_⟩
        simp (disch := omega) only [DecodeRune, List.length_cons, if_pos, if_neg, if_true,
          if_false]
    by_cases hB : c.val < 0xF0
    · -- three bytes
      cases r1 with
      | nil =>
        left
        simp (disch := omega) only [DecodeRune, List.length_cons, List.length_nil, if_pos,
          if_neg, if_true, if_false]
      | cons b2 r2 =>
        by_cases hE0 : c.val = 0xE0
        · by_cases hb1 : b1.val < 0xA0 ∨ 0xBF < b1.val
          · left
            simp (disch := omega) only [DecodeRune, List.length_cons, if_pos, if_neg, if_true,
              if_false]
          by_cases hb2 : b2.val < 0x80 ∨ 0xBF < b2.val
          · left
            simp (disch := omega) only [DecodeRune, List.length_cons, if_pos, if_neg, if_true,
              if_false]
          · right; right; left
            refine ⟨b1, b2, r2, rfl, by omega, by omega, by omega, by omega, by omega, by omega,
              by omega, ?_⟩
            simp (disch := omega) only [DecodeRune, List.length_cons, if_pos, if_neg, if_true,
              if_false]
        by_cases hED : c.val = 0xED
        · by_cases hb1 : b1.val < 0x80 ∨ 0x9F < b1.val
          · left
            simp (disch := omega) only [DecodeRune, List.length_cons, if_pos, if_neg, if_true,
              if_false]
          by_cases hb2 : b2.val < 0x80 ∨ 0xBF < b2.val
          · left
            simp (disch := omega) only [DecodeRune, List.length_cons, if_pos, if_neg, if_true,
              if_false]
          · right; right; left
            refine ⟨b1, b2, r2, rfl, by omega, by omega, by omega, by omega, by omega, by omega,
              by omega, ?_⟩
            simp (disch := omega) only [DecodeRune, List.length_cons, if_pos, if_neg, if_true,
              if_false]
        · by_cases hb1 : b1.val < 0x80 ∨ 0xBF < b1.val
          · left
            simp (disch := omega) only [DecodeRune, List.length_cons, if_pos, if_neg, if_true,
              if_false]
          by_cases hb2 : b2.val < 0x80 ∨ 0xBF < b2.val
          · left
            simp (disch := omega) only [DecodeRune, List.length_cons, if_pos, if_neg, if_true,
              if_false]
          · right; right; left
            refine ⟨b1, b2, r2, rfl, by omega, by omega, by omega, by omega, by omega, by omega,
              by omega, ?_⟩
            simp (disch := omega) only [DecodeRune, List.length_cons, if_pos, if_neg, if_true,
              if_false]
    · -- four bytes
      cases r1 with
      | nil =>
        left
        simp (disch := omega) only [DecodeRune, List.length_cons, List.length_nil, if_pos,
          if_neg, if_true, if_false]
      | cons b2 r2 =>
        cases r2 with
        | nil =>
          left
          simp (disch := omega) only [DecodeRune, List.length_cons, List.length_nil, if_pos,
            if_neg, if_true, if_false]
        | cons b3 r3 =>
          by_cases hF0 : c.val = 0xF0
          · by_cases hb1 : b1.val < 0x90 ∨ 0xBF < b1.val
            · left
              simp (disch := omega) only [DecodeRune, List.length_cons, if_pos, if_neg,
                if_true, if_false]
            by_cases hb2 : b2.val < 0x80 ∨ 0xBF < b2.val
            · left
              simp (disch := omega) only [DecodeRune, List.length_cons, if_pos, if_neg,
                if_true, if_false]
            by_cases hb3 : b3.val < 0x80 ∨ 0xBF < b3.val
            · left
              simp (disch := omega) only [DecodeRune, List.length_cons, if_pos, if_neg,
                if_true, if_false]
            · right; right; right
              refine ⟨b1, b2, b3, r3, rfl, by omega, by omega, by omega, by omega, by omega, ?_⟩
              simp (disch := omega) only [DecodeRune, List.length_cons, if_pos, if_neg,
                if_true, if_false]
          by_cases hF4 : c.val = 0xF4
          · by_cases hb1 : b1.val < 0x80 ∨ 0x8F < b1.val
            · left
              simp (disch := omega) only [DecodeRune, List.length_cons, if_pos, if_neg,
                if_true, if_false]
            by_cases hb2 : b2.val < 0x80 ∨ 0xBF < b2.val
            · left
              simp (disch := omega) only [DecodeRune, List.length_cons, if_pos, if_neg,
                if_true, if_false]
            by_cases hb3 : b3.val < 0x80 ∨ 0xBF < b3.val
            · left
              simp (disch := omega) only [DecodeRune, List.length_cons, if_pos, if_neg,
                if_true, if_false]
            · right; right; right
              refine ⟨b1, b2, b3, r3, rfl, by omega, by omega, by omega, by omega, by omega, ?_⟩
              simp (disch := omega) only [DecodeRune, List.length_cons, if_pos, if_neg,
                if_true, if_false]
          · by_cases hb1 : b1.val < 0x80 ∨ 0xBF < b1.val
            · left
              simp (disch := omega) only [DecodeRune, List.length_cons, if_pos, if_neg,
                if_true, if_false]
            by_cases hb2 : b2.val < 0x80 ∨ 0xBF < b2.val
            · left
              simp (disch := omega) only [DecodeRune, List.length_cons, if_pos, if_neg,
                if_true, if_false]
            by_cases hb3 : b3.val < 0x80 ∨ 0xBF < b3.val
            · left
              simp (disch := omega) only [DecodeRune, List.length_cons, if_pos, if_neg,
                if_true, if_false]
            · right; right; right
              refine ⟨b1, b2, b3, r3, rfl, by omega, by omega, by omega, by omega, by omega, ?_⟩
              simp (disch := omega) only [DecodeRune, List.length_cons, if_pos, if_neg,
                if_true, if_false]

theorem foldNameLoop_nil (fuel : Nat) : foldNameLoop fuel [] = [] := by
  cases fuel <;> rfl

theorem foldNameLoop_low (fuel : Nat) (c : Byte) (rest : List Byte) (hc : c.val < 0x80) :
    foldNameLoop (fuel + 1) (c :: rest) = upperByte c :: foldNameLoop fuel rest := by
  rw [foldNameLoop]
  simp only [hc, if_true, upperByte]

theorem foldNameLoop_high (fuel : Nat) (c : Byte) (rest : List Byte) (hc : 0x80 ≤ c.val) :
    foldNameLoop (fuel + 1) (c :: rest)
      = EncodeRune (foldRune (DecodeRune (c :: rest)).1)
        ++ foldNameLoop fuel ((c :: rest).drop (DecodeRune (c :: rest)).2) := by
  rw [foldNameLoop]
  have h : ¬ c.val < 0x80 := by omega
  simp only [h, if_false]

/-- The folded name of a name of ASCII bytes: its letters in upper case. -/
theorem foldNameLoop_ascii :
    ∀ (name : GoString) (fuel : Nat), name.length ≤ fuel → (∀ c ∈ name, c.val < 128) →
      foldNameLoop fuel name = name.map upperByte := by
  intro name
  induction name with
  | nil => intro fuel _ _; exact foldNameLoop_nil fuel
  | cons c name ih =>
    intro fuel hf hascii
    obtain ⟨n, rfl⟩ := Nat.exists_eq_succ_of_ne_zero
      (Nat.ne_of_gt (Nat.lt_of_lt_of_le (by simp) hf))
    rw [foldNameLoop_low n c name (hascii c (by simp)),
      ih n (by simp only [List.length_cons] at hf; omega) fun x hx => hascii x (by simp [hx])]
    rfl

/-- The first byte of the encoding of a code point beyond ASCII is beyond ASCII. -/
theorem EncodeRune_head (x : Nat) (hx : 0x80 ≤ x) :
    ∃ h tl, EncodeRune x = h :: tl ∧ 0x80 ≤ h.val := by
  unfold EncodeRune
  have e1 : ¬ x ≤ 0x7F := by omega
  simp only [e1, if_false]
  split
  · exact ⟨_, _, rfl, by simp only [byte_val]; omega⟩
  · split
    · exact ⟨_, _, rfl, by decide⟩
    · split
      · exact ⟨_, _, rfl, by simp only [byte_val]; omega⟩
      · exact ⟨_, _, rfl, by simp only [byte_val]; omega⟩

/-- What `foldName` makes of a code point whose first byte is beyond ASCII: text beyond
ASCII, unless the code point is the long s or the Kelvin sign. -/
theorem fold_high (c : Byte) (rest : List Byte) (hc : 0x80 ≤ c.val) :
    0x80 ≤ foldRune (DecodeRune (c :: rest)).1
      ∨ (c = byte 0xC5 ∧ ∃ r, rest = byte 0xBF :: r ∧ DecodeRune (c :: rest) = (0x17F, 2))
      ∨ (c = byte 0xE2
        ∧ ∃ r, rest = byte 0x84 :: byte 0xAA :: r ∧ DecodeRune (c :: rest) = (0x212A, 3)) := by
  rcases DecodeRune_high c rest hc with
    h | ⟨b1, r, rfl, h1, h2, h3, h4, h⟩ | ⟨b1, b2, r, rfl, h1, h2, h3, h4, h5, h6, h7, h⟩
      | ⟨b1, b2, b3, r, rfl, h1, h2, h3, h4, h5, h⟩
  · left
    rw [h]
    decide
  · rw [h]
    by_cases hv : c.val % 32 * 64 + b1.val % 64 = 0x17F
    · right; left
      have hcv : c.val = 0xC5 := by omega
      have hbv : b1.val = 0xBF := by omega
      refine ⟨Fin.ext hcv, r, ?_, by rw [hv]⟩
      rw [show b1 = byte 0xBF from Fin.ext hbv]
    · left
      have hv2 : ¬ c.val % 32 * 64 + b1.val % 64 = 0x212A := by omega
      simp only [foldRune, hv, hv2, if_false]
      omega
  · rw [h]
    by_cases hv : c.val % 16 * 4096 + b1.val % 64 * 64 + b2.val % 64 = 0x212A
    · right; right
      have hcv : c.val = 0xE2 := by omega
      have hb1 : b1.val = 0x84 := by omega
      have hb2 : b2.val = 0xAA := by omega
      refine ⟨Fin.ext hcv, r, ?_, by rw [hv]⟩
      rw [show b1 = byte 0x84 from Fin.ext hb1, show b2 = byte 0xAA from Fin.ext hb2]
    · left
      have hv2 : ¬ c.val % 16 * 4096 + b1.val % 64 * 64 + b2.val % 64 = 0x17F := by
        have := h3
        omega
      simp only [foldRune, hv, hv2, if_false]
      have := h3
      omega
  · rw [h]
    left
    have hv : ¬ c.val % 8 * 262144 + b1.val % 64 * 4096 + b2.val % 64 * 64 + b3.val % 64 = 0x17F := by
      have := h3
      omega
    have hv2 : ¬ c.val % 8 * 262144 + b1.val % 64 * 4096 + b2.val % 64 * 64 + b3.val % 64
        = 0x212A := by
      have := h3
      omega
    simp only [foldRune, hv, hv2, if_false]
    have := h3
    omega

theorem upperByte_val (d : Byte) (hd : d.val < 128) : (upperByte d).val < 128 := by
  unfold upperByte
  split
  · simp only [byte_val]
    omega
  · exact hd

/-- Two ASCII bytes with the same upper case have the same lower case. -/
theorem lower_of_upper (c d : Byte) (hc : c.val < 128) (hd : d.val < 128)
    (h : upperByte c = upperByte d) : lower c = lower d := by
  have hv := congrArg Fin.val h
  apply Fin.ext
  unfold upperByte at hv
  unfold lower
  simp only [Char.reduceToNat] at hv ⊢
  split_ifs at hv ⊢ <;> (try simp only [byte_val] at hv) <;> (try simp only [byte_val]) <;>
    omega

/-- A byte whose upper case is the ASCII byte `u`, an upper case letter: its lower case
is the lower case letter. -/
theorem lower_of_upper_eq (d : Byte) (hd : d.val < 128) (u : Nat) (hu : 65 ≤ u ∧ u ≤ 90)
    (h : upperByte d = byte u) : lower d = byte (u + 32) := by
  have hv := congrArg Fin.val h
  apply Fin.ext
  unfold upperByte at hv
  unfold lower
  simp only [Char.reduceToNat] at hv ⊢
  split_ifs at hv ⊢ <;> (try simp only [byte_val] at hv) <;> (try simp only [byte_val]) <;>
    omega

/-- When the folded name of a key is the folded name of a name of ASCII bytes, the key is
that name without regard to case. -/
theorem sameName_of_fold :
    ∀ (fuel : Nat) (key name : GoString), key.length ≤ fuel → (∀ c ∈ name, c.val < 128) →
      foldNameLoop fuel key = name.map upperByte → sameName name key = true := by
  intro fuel
  induction fuel with
  | zero =>
    intro key name hf _ h
    have hk : key = [] := List.length_eq_zero.mp (Nat.le_zero.mp hf)
    subst hk
    cases name with
    | nil => rfl
    | cons d name => simp [foldNameLoop] at h
  | succ n ih =>
    intro key name hf hascii h
    cases key with
    | nil =>
      cases name with
      | nil => rfl
      | cons d name => simp [foldNameLoop] at h
    | cons c rest =>
      have hrest : rest.length ≤ n := by
        simp only [List.length_cons] at hf
        omega
      by_cases hc : c.val < 0x80
      · rw [foldNameLoop_low n c rest hc] at h
        cases name with
        | nil => simp at h
        | cons d name =>
          simp only [List.map_cons, List.cons.injEq] at h
          have hl := lower_of_upper c d (by omega) (hascii d (by simp)) h.1
          have := ih rest name hrest (fun x hx => hascii x (by simp [hx])) h.2
          simp only [sameName, hl, if_true, this]
      · have hc2 : 0x80 ≤ c.val := by omega
        rw [foldNameLoop_high n c rest hc2] at h
        rcases fold_high c rest hc2 with hhigh | ⟨rfl, r, rfl, hD⟩ | ⟨rfl, r, rfl, hD⟩
        · obtain ⟨x, tl, hx, hxv⟩ := EncodeRune_head _ hhigh
          rw [hx] at h
          cases name with
          | nil => simp at h
          | cons d name =>
            simp only [List.cons_append, List.map_cons, List.cons.injEq] at h
            have := upperByte_val d (hascii d (by simp))
            rw [← h.1] at this
            omega
        · rw [hD] at h
          cases name with
          | nil => simp [foldRune, EncodeRune] at h
          | cons d name =>
            have h2 : byte 83 = upperByte d ∧ foldNameLoop n r = name.map upperByte := by
              simpa [foldRune, EncodeRune] using h
            have hl := lower_of_upper_eq d (hascii d (by simp)) 83 (by omega) h2.1.symm
            have hrec := ih r name (by simp only [List.length_cons] at hrest; omega)
              (fun x hx => hascii x (by simp [hx])) h2.2
            have hne : ¬ lower (byte 0xC5) = lower d := by
              rw [hl]
              decide
            simp only [sameName, hne, if_false, hl]
            simpa using hrec
        · rw [hD] at h
          cases name with
          | nil => simp [foldRune, EncodeRune] at h
          | cons d name =>
            have h2 : byte 75 = upperByte d ∧ foldNameLoop n r = name.map upperByte := by
              simpa [foldRune, EncodeRune] using h
            have hl := lower_of_upper_eq d (hascii d (by simp)) 75 (by omega) h2.1.symm
            have hrec := ih r name (by simp only [List.length_cons] at hrest; omega)
              (fun x hx => hascii x (by simp [hx])) h2.2
            have hne : ¬ lower (byte 0xE2) = lower d := by
              rw [hl]
              decide
            have hne2 : ¬ byte (75 + 32) = byte 's'.toNat := by decide
            simp only [sameName, hne, if_false, hl, hne2, false_and]
            simpa using hrec

/-- A key that is not the name `name` without regard to case is neither that name nor
a key that `encoding/json` folds to it. -/
theorem ne_of_sameName (name key : GoString) (hascii : ∀ c ∈ name, c.val < 128)
    (h : sameName name key = false) : name ≠ key ∧ foldName name ≠ foldName key := by
  have key2 : foldName name ≠ foldName key := by
    intro heq
    have h1 : foldNameLoop key.length key = name.map upperByte := by
      have := foldNameLoop_ascii name name.length (Nat.le_refl _) hascii
      unfold foldName at heq
      rw [← heq, this]
    rw [sameName_of_fold key.length key name (Nat.le_refl _) hascii h1] at h
    exact absurd h (by simp)
  exact ⟨fun heq => key2 (by rw [heq]), key2⟩

/-- A key that is, without regard to case, none of the names of the fields of a struct
selects no field. -/
theorem findField_none {φ : Type} (fields : List (GoString × φ)) (key : GoString)
    (hascii : ∀ f ∈ fields, ∀ c ∈ f.1, c.val < 128)
    (h : ∀ f ∈ fields, sameName f.1 key = false) : findField fields key = none := by
  have h1 : fields.find? (fun f => decide (f.1 = key)) = none := by
    rw [List.find?_eq_none]
    intro f hf
    simpa using (ne_of_sameName f.1 key (hascii f hf) (h f hf)).1
  have h2 : fields.find? (fun f => decide (foldName f.1 = foldName key)) = none := by
    rw [List.find?_eq_none]
    intro f hf
    simpa using (ne_of_sameName f.1 key (hascii f hf) (h f hf)).2
  unfold findField
  simp only [h1, h2, Option.map_none']

theorem fieldSays_all {α : Type} (ms : List (GoString × GoString)) (name : String)
    (lit : α → GoString → Prop) (x : Option α) (h : fieldSays ms name lit x) :
    ∀ m ∈ ms, m.1 = str name → valueSays lit x m.2 := by
  cases x with
  | none => exact h
  | some y => exact h.2

theorem fieldSays_some {α : Type} (ms : List (GoString × GoString)) (name : String)
    (lit : α → GoString → Prop) (y : α) (h : fieldSays ms name lit (some y)) :
    ∃ m ∈ ms, m.1 = str name := h.1

theorem storeMembers_cons_ok {σ : Type} (store : GoString → Item → σ → σ × Option GoError)
    (k : GoString) (item : Item) (rest : List (GoString × Item)) (dst dst2 : σ)
    (h : store k item dst = (dst2, none)) :
    storeMembers store ((k, item) :: rest) dst = storeMembers store rest dst2 := by
  simp [storeMembers, List.foldl_cons, h]

/-- The store of a string field from a member value that says `x` of it. -/
theorem storeString_says (struct field : String) (x : Option GoString) (v cur : GoString)
    (h : valueSays StringLit x v) :
    storeString struct field (itemOf v) cur = (x.getD cur, none) := by
  cases x with
  | none =>
    have hv : v = str "null" := h
    subst hv
    rfl
  | some a =>
    obtain ⟨t, ht, rfl⟩ : StringLit a v := h
    simp [itemOf, classify_quoted t a ht, storeString]

/-- The store of an integer field from a member value that says `x` of it. -/
theorem storeInt_says (type struct field : String) (x : Option Int) (v : GoString) (cur : Int)
    (h : valueSays IntLit x v) :
    storeInt type struct field (itemOf v) cur = (x.getD cur, none) := by
  cases x with
  | none =>
    have hv : v = str "null" := h
    subst hv
    rfl
  | some n =>
    obtain ⟨rfl, hlo, hhi⟩ : IntLit n v := h
    simp [itemOf, classify_FormatInt, storeInt, ParseInt_FormatInt n hlo hhi]

/-- The loop of `d.object` seen from one field, read by `get`, of which the body says
`x`: when no member fails, and each member leaves the field as it was or sets it to what
the body says, and the members named `name` do set it, then after the loop the field is
as it was or what the body says, and it is what the body says if the body has a member
named `name`. -/
theorem storeMembers_field {σ α : Type} (store : GoString → Item → σ → σ × Option GoError)
    (get : σ → α) (name : GoString) (x : Option α) :
    ∀ (items : List (GoString × Item)),
      (∀ m ∈ items, ∀ dst : σ, (store m.1 m.2 dst).2 = none
        ∧ (get (store m.1 m.2 dst).1 = get dst ∨ x = some (get (store m.1 m.2 dst).1))
        ∧ (m.1 = name → ∀ y, x = some y → get (store m.1 m.2 dst).1 = y)) →
      ∀ dst : σ, (storeMembers store items dst).2 = none
        ∧ (get (storeMembers store items dst).1 = get dst
          ∨ x = some (get (storeMembers store items dst).1))
        ∧ ((∃ m ∈ items, m.1 = name) → ∀ y, x = some y →
          get (storeMembers store items dst).1 = y) := by
  intro items
  induction items with
  | nil =>
    intro _ dst
    exact ⟨rfl, Or.inl rfl, fun h => by simp at h⟩
  | cons m rest ih =>
    intro hstep dst
    obtain ⟨h1, h2, h3⟩ := hstep m (by simp) dst
    have hcons : storeMembers store (m :: rest) dst
        = storeMembers store rest (store m.1 m.2 dst).1 :=
      storeMembers_cons_ok store m.1 m.2 rest dst _ (Prod.ext rfl h1)
    obtain ⟨i1, i2, i3⟩ := ih (fun x hx => hstep x (by simp [hx])) (store m.1 m.2 dst).1
    rw [hcons]
    refine ⟨i1, ?_, ?_⟩
    · rcases i2 with i2 | i2
      · rcases h2 with h2 | h2
        · exact Or.inl (i2.trans h2)
        · exact Or.inr (by rw [i2]; exact h2)
      · exact Or.inr i2
    · rintro ⟨m2, hm2, hname⟩ y hy
      simp only [List.mem_cons] at hm2
      rcases hm2 with rfl | hm2
      · have h4 := h3 hname y hy
        rcases i2 with i2 | i2
        · exact i2.trans h4
        · rw [hy] at i2
          exact (Option.some.inj i2).symm
      · exact i3 ⟨m2, hm2, hname⟩ y hy

theorem tokenFields_ascii : ∀ f ∈ tokenFields, ∀ c ∈ f.1, c.val < 128 := by decide

theorem errorFields_ascii : ∀ f ∈ errorFields, ∀ c ∈ f.1, c.val < 128 := by decide

/-- The store of one member of a token body into a `Token`: a member named after one of
the three fields sets it to what the body says of it, or leaves it when the body says
nothing; any other member is skipped. -/
theorem Token_store_says (a : Option GoString) (n e : Option Int) (m : GoString × GoString)
    (hA : m.1 = str "access_token" → valueSays StringLit a m.2)
    (hN : m.1 = str "expires_in" → valueSays IntLit n m.2)
    (hE : m.1 = str "expiration" → valueSays IntLit e m.2)
    (hother : m.1 = str "access_token" ∨ m.1 = str "expires_in" ∨ m.1 = str "expiration"
      ∨ ∀ f ∈ tokenFields, sameName f.1 m.1 = false) (t : Token) :
    Token.store m.1 (itemOf m.2) t
      = (if m.1 = str "access_token" then { t with AccessToken := a.getD t.AccessToken }
        else if m.1 = str "expires_in" then { t with ExpiresIn := n.getD t.ExpiresIn }
        else if m.1 = str "expiration" then { t with Expiration := e.getD t.Expiration }
        else t, none) := by
  have d1 : ¬ str "expires_in" = str "access_token" := by decide
  have d2 : ¬ str "expiration" = str "access_token" := by decide
  have d3 : ¬ str "expiration" = str "expires_in" := by decide
  rcases hother with h | h | h | h
  · have hv := hA h
    unfold Token.store
    rw [h, findField_access_token]
    simp only [storeString_says _ _ a m.2 _ hv, if_true]
  · have hv := hN h
    unfold Token.store
    rw [h, findField_expires_in]
    simp only [storeInt_says _ _ _ n m.2 _ hv, d1, if_true, if_false]
  · have hv := hE h
    unfold Token.store
    rw [h, findField_expiration]
    simp only [storeInt_says _ _ _ e m.2 _ hv, d2, d3, if_true, if_false]
  · have hnone := findField_none tokenFields m.1 tokenFields_ascii h
    have n1 : ¬ m.1 = str "access_token" := by
      intro heq
      have := h (str "access_token", .AccessToken) (by decide)
      rw [heq] at this
      exact absurd this (by decide)
    have n2 : ¬ m.1 = str "expires_in" := by
      intro heq
      have := h (str "expires_in", .ExpiresIn) (by decide)
      rw [heq] at this
      exact absurd this (by decide)
    have n3 : ¬ m.1 = str "expiration" := by
      intro heq
      have := h (str "expiration", .Expiration) (by decide)
      rw [heq] at this
      exact absurd this (by decide)
    unfold Token.store
    rw [hnone]
    simp only [n1, n2, n3, if_false]

/-- Decoding a token body into a `Token`: no error, and each of the three fields holds
what the body says of it, or what it held before when the body says nothing of it;
`ApiKey` and `Client` are as they were. -/
theorem storeMembers_tokenBody (ms : List (GoString × GoString)) (a : Option GoString)
    (n e : Option Int) (hA : fieldSays ms "access_token" StringLit a)
    (hN : fieldSays ms "expires_in" IntLit n) (hE : fieldSays ms "expiration" IntLit e)
    (hother : ∀ m ∈ ms, m.1 = str "access_token" ∨ m.1 = str "expires_in"
      ∨ m.1 = str "expiration" ∨ ∀ f ∈ tokenFields, sameName f.1 m.1 = false)
    (t : Token) :
    storeMembers Token.store (ms.map fun m => (m.1, itemOf m.2)) t
      = ({ t with
          AccessToken := a.getD t.AccessToken
          ExpiresIn := n.getD t.ExpiresIn
          Expiration := e.getD t.Expiration }, none) := by
  have d1 : ¬ str "expires_in" = str "access_token" := by decide
  have d2 : ¬ str "expiration" = str "access_token" := by decide
  have d3 : ¬ str "expiration" = str "expires_in" := by decide
  have hstore : ∀ x ∈ ms.map (fun m => (m.1, itemOf m.2)), ∀ dst : Token,
      Token.store x.1 x.2 dst
        = (if x.1 = str "access_token" then { dst with AccessToken := a.getD dst.AccessToken }
          else if x.1 = str "expires_in" then { dst with ExpiresIn := n.getD dst.ExpiresIn }
          else if x.1 = str "expiration" then { dst with Expiration := e.getD dst.Expiration }
          else dst, none) := by
    intro x hx dst
    obtain ⟨m, hm, rfl⟩ := List.mem_map.mp hx
    exact Token_store_says a n e m (fieldSays_all ms _ _ a hA m hm)
      (fieldSays_all ms _ _ n hN m hm) (fieldSays_all ms _ _ e hE m hm) (hother m hm) dst
  have hex : ∀ name : GoString, (∃ m ∈ ms, m.1 = name)
      → ∃ x ∈ ms.map (fun m => (m.1, itemOf m.2)), x.1 = name := by
    rintro name ⟨m, hm, h⟩
    exact ⟨(m.1, itemOf m.2), List.mem_map.mpr ⟨m, hm, rfl⟩, h⟩
  -- the five fields, one after the other
  have fA := storeMembers_field Token.store (fun t => t.AccessToken) (str "access_token") a _
    (fun x hx dst => by
      rw [hstore x hx dst]
      refine ⟨rfl, ?_, ?_⟩
      · simp only
        split_ifs <;> first | exact Or.inl rfl | skip
        cases a with
        | none => exact Or.inl rfl
        | some y => exact Or.inr rfl
      · intro hname y hy
        simp only [hname, if_true, hy, Option.getD_some]) t
  have fN := storeMembers_field Token.store (fun t => t.ExpiresIn) (str "expires_in") n _
    (fun x hx dst => by
      rw [hstore x hx dst]
      refine ⟨rfl, ?_, ?_⟩
      · simp only
        split_ifs <;> first | exact Or.inl rfl | skip
        cases n with
        | none => exact Or.inl rfl
        | some y => exact Or.inr rfl
      · intro hname y hy
        simp only [hname, d1, if_true, if_false, hy, Option.getD_some]) t
  have fE := storeMembers_field Token.store (fun t => t.Expiration) (str "expiration") e _
    (fun x hx dst => by
      rw [hstore x hx dst]
      refine ⟨rfl, ?_, ?_⟩
      · simp only
        split_ifs <;> first | exact Or.inl rfl | skip
        cases e with
        | none => exact Or.inl rfl
        | some y => exact Or.inr rfl
      · intro hname y hy
        simp only [hname, d2, d3, if_true, if_false, hy, Option.getD_some]) t
  have fK := storeMembers_field Token.store (fun t => t.ApiKey) [] none _
    (fun x hx dst => by
      rw [hstore x hx dst]
      refine ⟨rfl, ?_, fun _ y hy => absurd hy (by simp)⟩
      simp only
      split_ifs <;> exact Or.inl rfl) t
  have fC := storeMembers_field Token.store (fun t => t.Client) [] none _
    (fun x hx dst => by
      rw [hstore x hx dst]
      refine ⟨rfl, ?_, fun _ y hy => absurd hy (by simp)⟩
      simp only
      split_ifs <;> exact Or.inl rfl) t
  have hAf : (storeMembers Token.store (ms.map fun m => (m.1, itemOf m.2)) t).1.AccessToken
      = a.getD t.AccessToken := by
    cases a with
    | none => exact fA.2.1.elim id fun h => absurd h (by simp)
    | some y => exact fA.2.2 (hex _ (fieldSays_some ms _ _ y hA)) y rfl
  have hNf : (storeMembers Token.store (ms.map fun m => (m.1, itemOf m.2)) t).1.ExpiresIn
      = n.getD t.ExpiresIn := by
    cases n with
    | none => exact fN.2.1.elim id fun h => absurd h (by simp)
    | some y => exact fN.2.2 (hex _ (fieldSays_some ms _ _ y hN)) y rfl
  have hEf : (storeMembers Token.store (ms.map fun m => (m.1, itemOf m.2)) t).1.Expiration
      = e.getD t.Expiration := by
    cases e with
    | none => exact fE.2.1.elim id fun h => absurd h (by simp)
    | some y => exact fE.2.2 (hex _ (fieldSays_some ms _ _ y hE)) y rfl
  have hKf := fK.2.1.elim id fun h => absurd h (by simp)
  have hCf := fC.2.1.elim id fun h => absurd h (by simp)
  have herr := fA.1
  rcases hr : storeMembers Token.store (ms.map fun m => (m.1, itemOf m.2)) t with ⟨t1, err⟩
  rw [hr] at hAf hNf hEf hKf hCf herr
  simp only at hAf hNf hEf hKf hCf herr
  obtain ⟨⟨A, N, E⟩, K, C⟩ := t1
  simp only at hAf hNf hEf hKf hCf
  subst hAf hNf hEf hKf hCf herr
  exact hr

/-- The store of one member of an error body into a `tokenErrorResponse`. -/
theorem errorResponse_store_says (m d : GoString) (x : GoString × GoString)
    (hM : x.1 = str "errorMessage" → valueSays StringLit (some m) x.2)
    (hD : x.1 = str "errorDetails" → valueSays StringLit (some d) x.2)
    (hother : x.1 = str "errorMessage" ∨ x.1 = str "errorDetails"
      ∨ ∀ f ∈ errorFields, sameName f.1 x.1 = false) (r : tokenErrorResponse) :
    tokenErrorResponse.store x.1 (itemOf x.2) r
      = (if x.1 = str "errorMessage" then { r with ErrorMessage := m }
        else if x.1 = str "errorDetails" then { r with ErrorDetails := d }
        else r, none) := by
  have d1 : ¬ str "errorDetails" = str "errorMessage" := by decide
  rcases hother with h | h | h
  · have hv := hM h
    unfold tokenErrorResponse.store
    rw [h, findField_errorMessage]
    simp only [storeString_says _ _ (some m) x.2 _ hv, if_true, Option.getD_some]
  · have hv := hD h
    unfold tokenErrorResponse.store
    rw [h, findField_errorDetails]
    simp only [storeString_says _ _ (some d) x.2 _ hv, d1, if_true, if_false, Option.getD_some]
  · have hnone := findField_none errorFields x.1 errorFields_ascii h
    have n1 : ¬ x.1 = str "errorMessage" := by
      intro heq
      have := h (str "errorMessage", .ErrorMessage) (by decide)
      rw [heq] at this
      exact absurd this (by decide)
    have n2 : ¬ x.1 = str "errorDetails" := by
      intro heq
      have := h (str "errorDetails", .ErrorDetails) (by decide)
      rw [heq] at this
      exact absurd this (by decide)
    unfold tokenErrorResponse.store
    rw [hnone]
    simp only [n1, n2, if_false]

/-- Decoding an error body into a `tokenErrorResponse`: no error, and the two fields hold
the message and the details of the body. -/
theorem storeMembers_errorBody (ms : List (GoString × GoString)) (m d : GoString)
    (hM : fieldSays ms "errorMessage" StringLit (some m))
    (hD : fieldSays ms "errorDetails" StringLit (some d))
    (hother : ∀ x ∈ ms, x.1 = str "errorMessage" ∨ x.1 = str "errorDetails"
      ∨ ∀ f ∈ errorFields, sameName f.1 x.1 = false)
    (r : tokenErrorResponse) :
    storeMembers tokenErrorResponse.store (ms.map fun x => (x.1, itemOf x.2)) r
      = ({ ErrorMessage := m, ErrorDetails := d }, none) := by
  have d1 : ¬ str "errorDetails" = str "errorMessage" := by decide
  have hstore : ∀ x ∈ ms.map (fun x => (x.1, itemOf x.2)), ∀ dst : tokenErrorResponse,
      tokenErrorResponse.store x.1 x.2 dst
        = (if x.1 = str "errorMessage" then { dst with ErrorMessage := m }
          else if x.1 = str "errorDetails" then { dst with ErrorDetails := d }
          else dst, none) := by
    intro x hx dst
    obtain ⟨y, hy, rfl⟩ := List.mem_map.mp hx
    exact errorResponse_store_says m d y (fieldSays_all ms _ _ _ hM y hy)
      (fieldSays_all ms _ _ _ hD y hy) (hother y hy) dst
  have hex : ∀ name : GoString, (∃ x ∈ ms, x.1 = name)
      → ∃ x ∈ ms.map (fun x => (x.1, itemOf x.2)), x.1 = name := by
    rintro name ⟨x, hx, h⟩
    exact ⟨(x.1, itemOf x.2), List.mem_map.mpr ⟨x, hx, rfl⟩, h⟩
  have fM := storeMembers_field tokenErrorResponse.store (fun r => r.ErrorMessage)
    (str "errorMessage") (some m) _
    (fun x hx dst => by
      rw [hstore x hx dst]
      refine ⟨rfl, ?_, ?_⟩
      · simp only
        split_ifs <;> first | exact Or.inl rfl | exact Or.inr rfl
      · intro hname y hy
        simp only [hname, if_true]
        exact Option.some.inj hy) r
  have fD := storeMembers_field tokenErrorResponse.store (fun r => r.ErrorDetails)
    (str "errorDetails") (some d) _
    (fun x hx dst => by
      rw [hstore x hx dst]
      refine ⟨rfl, ?_, ?_⟩
      · simp only
        split_ifs <;> first | exact Or.inl rfl | exact Or.inr rfl
      · intro hname y hy
        simp only [hname, d1, if_true, if_false]
        exact Option.some.inj hy) r
  have hMf := fM.2.2 (hex _ (fieldSays_some ms _ _ m hM)) m rfl
  have hDf := fD.2.2 (hex _ (fieldSays_some ms _ _ d hD)) d rfl
  have herr := fM.1
  rcases hr : storeMembers tokenErrorResponse.store (ms.map fun x => (x.1, itemOf x.2)) r with
    ⟨r1, err⟩
  rw [hr] at hMf hDf herr
  simp only at hMf hDf herr
  obtain ⟨M, D⟩ := r1
  simp only at hMf hDf
  subst hMf hDf herr
  exact hr

/-- A response of status below 400 with a token body: `RequestTokenWithContext` returns
no error, and the `Token` holds in each of the three fields what the body says of it,
or what it held before when the body says nothing of it; nothing else has changed. -/
theorem RequestTokenWithContext_tokenBody (t : Token) (c : httpclient) (ctx : Context)
    (req : Request) (res : Response) (a : Option GoString) (n e : Option Int)
    (hreq : t.newRequest ctx = .ok req) (hc : t.Client = some c) (hdo : c.Do req = .ok res)
    (hstatus : res.StatusCode < 400) (hbody : tokenBody res.Body a n e) :
    (t.RequestTokenWithContext ctx).outcome = .returned none
      ∧ (t.RequestTokenWithContext ctx).token
        = { t with
            AccessToken := a.getD t.AccessToken
            ExpiresIn := n.getD t.ExpiresIn
            Expiration := e.getD t.Expiration } := by
  obtain ⟨w, obj, rest, ms, hdata, hw, hobj, hA, hN, hE, hother⟩ := hbody
  have hs : ¬ res.StatusCode ≥ 400 := by omega
  unfold Token.RequestTokenWithContext
  simp only [hreq, hc, hdo, hs, if_false,
    Decode_object _ _ res.Body w obj rest ms _ hdata hw hobj,
    storeMembers_tokenBody ms a n e hA hN hE hother t, and_self]

/-- A response of status 400 or more with an error body: `RequestTokenWithContext`
returns the error whose text is the message, a space and the details, and the `Token`
is as it was. -/
theorem RequestTokenWithContext_errorBody (t : Token) (c : httpclient) (ctx : Context)
    (req : Request) (res : Response) (m d : GoString)
    (hreq : t.newRequest ctx = .ok req) (hc : t.Client = some c) (hdo : c.Do req = .ok res)
    (hstatus : res.StatusCode ≥ 400) (hbody : errorBody res.Body m d) :
    (t.RequestTokenWithContext ctx).outcome
        = .returned (some (.errorString (m ++ str " " ++ d)))
      ∧ (t.RequestTokenWithContext ctx).token = t := by
  obtain ⟨w, obj, rest, ms, hdata, hw, hobj, hM, hD, hother⟩ := hbody
  unfold Token.RequestTokenWithContext
  simp only [hreq, hc, hdo, hstatus, if_true,
    Decode_object _ _ res.Body w obj rest ms _ hdata hw hobj,
    storeMembers_errorBody ms m d hM hD hother, and_self]

theorem Blank_nil : Blank [] := fun _ h => absurd h (List.not_mem_nil _)

/-- A text of plain bytes, between quotes, stands for itself. -/
theorem Chars_plain : ∀ s : GoString, (∀ c ∈ s, isPlain c = true) → Chars s s := by
  intro s
  induction s with
  | nil => intro _; exact Chars.nil
  | cons c s ih =>
    intro h
    exact Chars.plain c (h c (by simp)) (ih fun x hx => h x (by simp [hx]))

/-- Digits without a leading zero, and no sign, fraction or exponent, are a number. -/
theorem Number_digits (ds : GoString) (hd : Digits ds)
    (hz : ds = str "0" ∨ ds.head? ≠ some (byte '0'.toNat)) : Number ds :=
  ⟨[], ds, [], [], by simp, Or.inl rfl, hd, hz, Or.inl rfl, Or.inl rfl⟩

theorem okBody_members :
    Json
      (.members
        [(str "access_token", str "\"access-token\""), (str "expires_in", str "3600"),
          (str "expiration", str "1577808000")])
      0 (str "\"access_token\":\"access-token\",\"expires_in\":3600,\"expiration\":1577808000") :=
  Json.memberCons Blank_nil (Chars_plain (str "access_token") (by decide)) Blank_nil Blank_nil
    (Json.string 0 (Chars_plain (str "access-token") (by decide))) Blank_nil
    (Json.memberCons Blank_nil (Chars_plain (str "expires_in") (by decide)) Blank_nil Blank_nil
      (Json.number 0 (Number_digits (str "3600") (by decide) (by decide))) Blank_nil
      (Json.member Blank_nil (Chars_plain (str "expiration") (by decide)) Blank_nil Blank_nil
        (Json.number 0 (Number_digits (str "1577808000") (by decide) (by decide))) Blank_nil))

/-- The body of the test `StatusCodeOK` is a well-formed success body. -/
theorem okBody_successBody :
    successBody { data := okBody, readErr := none } (str "access-token") 3600 1577808000 :=
  ⟨[], okBody, [], _, by decide, Blank_nil, Or.inr ⟨0, _, by decide, okBody_members, by decide⟩,
    ⟨by decide, by
      intro m hm hk
      simp only [List.mem_cons, List.mem_singleton, List.not_mem_nil, or_false] at hm
      rcases hm with rfl | rfl | rfl
      · exact ⟨str "access-token", Chars_plain _ (by decide), by decide⟩
      · exact absurd hk (by decide)
      · exact absurd hk (by decide)⟩,
    ⟨by decide, by
      intro m hm hk
      simp only [List.mem_cons, List.mem_singleton, List.not_mem_nil, or_false] at hm
      rcases hm with rfl | rfl | rfl
      · exact absurd hk (by decide)
      · exact ⟨by decide, by decide, by decide⟩
      · exact absurd hk (by decide)⟩,
    ⟨by decide, by
      intro m hm hk
      simp only [List.mem_cons, List.mem_singleton, List.not_mem_nil, or_false] at hm
      rcases hm with rfl | rfl | rfl
      · exact absurd hk (by decide)
      · exact absurd hk (by decide)
      · exact ⟨by decide, by decide, by decide⟩⟩,
    by decide⟩

/-- The access token of `layoutBody`, as it is written and what it stands for. -/
theorem layoutToken_chars :
    Chars (str "a\\u002Db\\n\\\"é\\uD83D\\uDE00") (str "a-b\n\"é😀") :=
  Chars.plain (byte 'a'.toNat) (by decide)
    (Chars.unicode (byte '0'.toNat) (byte '0'.toNat) (byte '2'.toNat) (byte 'D'.toNat) 0x2D
      (by decide) (by decide)
      (Chars.plain (byte 'b'.toNat) (by decide)
        (Chars.escape (byte 'n'.toNat) (byte 0x0A) (by decide)
          (Chars.escape (byte '"'.toNat) (byte '"'.toNat) (by decide)
            (Chars.utf8 0xE9 (by decide)
              (Chars.pair (byte 'D'.toNat) (byte '8'.toNat) (byte '3'.toNat) (byte 'D'.toNat)
                (byte 'D'.toNat) (byte 'E'.toNat) (byte '0'.toNat) (byte '0'.toNat) 0xD83D 0xDE00
                (by decide) (by decide) (by decide) (by decide) Chars.nil))))))

/-- The value of the member `scope` of `layoutBody`: an array of a string and an
object. -/
theorem layoutScope_value : Json .value 2 (str "[\"ibm\",\x7b\"x\":-1.5e+3\x7d]") :=
  Json.array
    (Json.elementCons Blank_nil (Json.string 1 (Chars_plain (str "ibm") (by decide))) Blank_nil
      (Json.element Blank_nil
        (Json.object
          (Json.member Blank_nil (Chars_plain (str "x") (by decide)) Blank_nil Blank_nil
            (Json.number 0
              (⟨str "-", str "1", str ".5", str "e+3", by decide, Or.inr rfl, by decide,
                Or.inr (by decide), Or.inr ⟨str "5", by decide, rfl⟩,
                Or.inr ⟨byte 'e'.toNat, str "+", str "3", Or.inl rfl, Or.inr (Or.inl rfl),
                  by decide, rfl⟩⟩ : Number (str "-1.5e+3")))
            Blank_nil))
        Blank_nil))

theorem layoutBody_members :
    Json
      (.members
        [(str "expires_in", str "3600"), (str "token_type", str "\"Bearer\""),
          (str "access_token", str "\"a\\u002Db\\n\\\"é\\uD83D\\uDE00\""),
          (str "scope", str "[\"ibm\",\x7b\"x\":-1.5e+3\x7d]"),
          (str "expiration", str "1577808000"), (str "nothing", str "null")])
      2
      (str "\"expires_in\" : 3600, \"token_type\":\"Bearer\",\"access_token\":\"a\\u002Db\\n\\\"é\\uD83D\\uDE00\",\"scope\":[\"ibm\",\x7b\"x\":-1.5e+3\x7d],\"expiration\":1577808000,\"nothing\":null") :=
  Json.memberCons Blank_nil (Chars_plain (str "expires_in") (by decide))
    (by decide : Blank (str " ")) (by decide : Blank (str " "))
    (Json.number 2 (Number_digits (str "3600") (by decide) (by decide))) Blank_nil
    (Json.memberCons (by decide : Blank (str " ")) (Chars_plain (str "token_type") (by decide))
      Blank_nil Blank_nil (Json.string 2 (Chars_plain (str "Bearer") (by decide))) Blank_nil
      (Json.memberCons Blank_nil (Chars_plain (str "access_token") (by decide)) Blank_nil
        Blank_nil (Json.string 2 layoutToken_chars) Blank_nil
        (Json.memberCons Blank_nil (Chars_plain (str "scope") (by decide)) Blank_nil Blank_nil
          layoutScope_value Blank_nil
          (Json.memberCons Blank_nil (Chars_plain (str "expiration") (by decide)) Blank_nil
            Blank_nil (Json.number 2 (Number_digits (str "1577808000") (by decide) (by decide)))
            Blank_nil
            (Json.member Blank_nil (Chars_plain (str "nothing") (by decide)) Blank_nil Blank_nil
              (Json.litNull 2) Blank_nil)))))

/-- The body `layoutBody` is a well-formed success body. -/
theorem layoutBody_successBody :
    successBody { data := layoutBody, readErr := none } (str "a-b\n\"é😀") 3600 1577808000 :=
  ⟨str " ", layoutBody.tail.take (layoutBody.length - 6), str " tail", _, by decide, by decide,
    Or.inr ⟨2, _, by decide, layoutBody_members, by decide⟩,
    ⟨by decide, by
      intro m hm hk
      simp only [List.mem_cons, List.mem_singleton, List.not_mem_nil, or_false] at hm
      rcases hm with rfl | rfl | rfl | rfl | rfl | rfl
      · exact absurd hk (by decide)
      · exact absurd hk (by decide)
      · exact ⟨_, layoutToken_chars, by decide⟩
      · exact absurd hk (by decide)
      · exact absurd hk (by decide)
      · exact absurd hk (by decide)⟩,
    ⟨by decide, by
      intro m hm hk
      simp only [List.mem_cons, List.mem_singleton, List.not_mem_nil, or_false] at hm
      rcases hm with rfl | rfl | rfl | rfl | rfl | rfl
      · exact ⟨by decide, by decide, by decide⟩
      · exact absurd hk (by decide)
      · exact absurd hk (by decide)
      · exact absurd hk (by decide)
      · exact absurd hk (by decide)
      · exact absurd hk (by decide)⟩,
    ⟨by decide, by
      intro m hm hk
      simp only [List.mem_cons, List.mem_singleton, List.not_mem_nil, or_false] at hm
      rcases hm with rfl | rfl | rfl | rfl | rfl | rfl
      · exact absurd hk (by decide)
      · exact absurd hk (by decide)
      · exact absurd hk (by decide)
      · exact absurd hk (by decide)
      · exact ⟨by decide, by decide, by decide⟩
      · exact absurd hk (by decide)⟩,
    by decide⟩

theorem notOkBody_members :
    Json
      (.members
        [(str "errorMessage", str "\"error-message\""),
          (str "errorDetails", str "\"error-details\"")])
      0 (str "\"errorMessage\":\"error-message\",\"errorDetails\":\"error-details\"") :=
  Json.memberCons Blank_nil (Chars_plain (str "errorMessage") (by decide)) Blank_nil Blank_nil
    (Json.string 0 (Chars_plain (str "error-message") (by decide))) Blank_nil
    (Json.member Blank_nil (Chars_plain (str "errorDetails") (by decide)) Blank_nil Blank_nil
      (Json.string 0 (Chars_plain (str "error-details") (by decide))) Blank_nil)

/-- The body of the test `StatusCodeNotOK` is a well-formed error body. -/
theorem notOkBody_errorBody :
    errorBody { data := notOkBody, readErr := none } (str "error-message")
      (str "error-details") :=
  ⟨[], notOkBody, [], _, by decide, Blank_nil,
    Or.inr ⟨0, _, by decide, notOkBody_members, by decide⟩,
    ⟨by decide, by
      intro m hm hk
      simp only [List.mem_cons, List.mem_singleton, List.not_mem_nil, or_false] at hm
      rcases hm with rfl | rfl
      · exact ⟨str "error-message", Chars_plain _ (by decide), by decide⟩
      · exact absurd hk (by decide)⟩,
    ⟨by decide, by
      intro m hm hk
      simp only [List.mem_cons, List.mem_singleton, List.not_mem_nil, or_false] at hm
      rcases hm with rfl | rfl
      · exact absurd hk (by decide)
      · exact ⟨str "error-details", Chars_plain _ (by decide), by decide⟩⟩,
    by decide⟩

/-- The details of `layoutErrorBody`, as they are written and what they stand for. -/
theorem layoutDetails_chars : Chars (str "no \\\"key\\\"") (str "no \"key\"") :=
  Chars.plain (byte 'n'.toNat) (by decide)
    (Chars.plain (byte 'o'.toNat) (by decide)
      (Chars.plain (byte ' '.toNat) (by decide)
        (Chars.escape (byte '"'.toNat) (byte '"'.toNat) (by decide)
          (Chars.plain (byte 'k'.toNat) (by decide)
            (Chars.plain (byte 'e'.toNat) (by decide)
              (Chars.plain (byte 'y'.toNat) (by decide)
                (Chars.escape (byte '"'.toNat) (byte '"'.toNat) (by decide) Chars.nil)))))))

theorem layoutErrorBody_members :
    Json
      (.members
        [(str "errorCode", str "\"BXNIM0415E\""), (str "errorDetails", str "\"no \\\"key\\\"\""),
          (str "context", str "\x7b\"requestId\":\"r-1\"\x7d"),
          (str "errorMessage", str "\"Provided API key could not be found.\"")])
      1
      (str "\"errorCode\":\"BXNIM0415E\",\"errorDetails\":\"no \\\"key\\\"\",\"context\":\x7b\"requestId\":\"r-1\"\x7d,\n\"errorMessage\":\"Provided API key could not be found.\"") :=
  Json.memberCons Blank_nil (Chars_plain (str "errorCode") (by decide)) Blank_nil Blank_nil
    (Json.string 1 (Chars_plain (str "BXNIM0415E") (by decide))) Blank_nil
    (Json.memberCons Blank_nil (Chars_plain (str "errorDetails") (by decide)) Blank_nil
      Blank_nil (Json.string 1 layoutDetails_chars) Blank_nil
      (Json.memberCons Blank_nil (Chars_plain (str "context") (by decide)) Blank_nil Blank_nil
        (Json.object
          (Json.member Blank_nil (Chars_plain (str "requestId") (by decide)) Blank_nil
            Blank_nil (Json.string 0 (Chars_plain (str "r-1") (by decide))) Blank_nil))
        Blank_nil
        (Json.member (by decide : Blank (str "\n"))
          (Chars_plain (str "errorMessage") (by decide)) Blank_nil Blank_nil
          (Json.string 1 (Chars_plain (str "Provided API key could not be found.") (by decide)))
          Blank_nil)))

/-- The body `layoutErrorBody` is a well-formed error body. -/
theorem layoutErrorBody_errorBody :
    errorBody { data := layoutErrorBody, readErr := none }
      (str "Provided API key could not be found.") (str "no \"key\"") :=
  ⟨[], layoutErrorBody.take (layoutErrorBody.length - 1), str "\n", _, by decide, Blank_nil,
    Or.inr ⟨1, _, by decide, layoutErrorBody_members, by decide⟩,
    ⟨by decide, by
      intro m hm hk
      simp only [List.mem_cons, List.mem_singleton, List.not_mem_nil, or_false] at hm
      rcases hm with rfl | rfl | rfl | rfl
      · exact absurd hk (by decide)
      · exact absurd hk (by decide)
      · exact absurd hk (by decide)
      · exact ⟨_, Chars_plain _ (by decide), by decide⟩⟩,
    ⟨by decide, by
      intro m hm hk
      simp only [List.mem_cons, List.mem_singleton, List.not_mem_nil, or_false] at hm
      rcases hm with rfl | rfl | rfl | rfl
      · exact absurd hk (by decide)
      · exact ⟨_, layoutDetails_chars, by decide⟩
      · exact absurd hk (by decide)
      · exact absurd hk (by decide)⟩,
    by decide⟩

/-- Under every context that is not nil `newRequest` returns a request: the nil context
alone makes `http.NewRequestWithContext` fail. -/
theorem newRequest_of_context (t : Token) (ctx : Context) (h : ctx ≠ .nil) :
    ∃ req, t.newRequest ctx = .ok req := by
  simp only [Token.newRequest, NewRequestWithContext, if_neg h]
  exact ⟨_, rfl⟩

/-! ## The claims -/

/-- C1: for every API key, every status code below 400 and every well-formed success
body `{"access_token": a, "expires_in": n, "expiration": e}`, `RequestTokenWithContext`
(under any context for which `newRequest` returns a request: every context that is not
nil, by `newRequest_of_context`) and `RequestToken` return no error, and afterwards
`AccessToken` is `a`, `ExpiresIn` is `n` and `Expiration` is `e`, whatever the client
held before. The body is any text that `successBody` admits: white space and escapes as
JSON allows them, the three members in any order, further members of any value so long
as their keys name no field of `Token`, and anything behind the object. -/
theorem C1_success_populates_token (t : Token) (c : httpclient) (ctx : Context)
    (req : Request) (res : Response) (a : GoString) (n e : Int)
    (hreq : t.newRequest ctx = .ok req) (hc : t.Client = some c) (hdo : c.Do req = .ok res)
    (hstatus : res.StatusCode < 400) (hbody : successBody res.Body a n e) :
    ((t.RequestTokenWithContext ctx).outcome = .returned none
        ∧ (t.RequestTokenWithContext ctx).token.AccessToken = a
        ∧ (t.RequestTokenWithContext ctx).token.ExpiresIn = n
        ∧ (t.RequestTokenWithContext ctx).token.Expiration = e)
      ∧ (ctx = .Background →
        t.RequestToken.outcome = .returned none ∧ t.RequestToken.token.AccessToken = a
          ∧ t.RequestToken.token.ExpiresIn = n ∧ t.RequestToken.token.Expiration = e) := by
  have h := RequestTokenWithContext_tokenBody t c ctx req res (some a) (some n) (some e) hreq hc
    hdo hstatus hbody
  have key : (t.RequestTokenWithContext ctx).outcome = .returned none
      ∧ (t.RequestTokenWithContext ctx).token.AccessToken = a
      ∧ (t.RequestTokenWithContext ctx).token.ExpiresIn = n
      ∧ (t.RequestTokenWithContext ctx).token.Expiration = e := by
    refine ⟨h.1, ?_, ?_, ?_⟩ <;> rw [h.2] <;> rfl
  refine ⟨key, ?_⟩
  intro hctx
  subst hctx
  exact key

/-- C1 at the input of the test `StatusCodeOK`, and at `layoutBody`, a body with white
space, escapes, another order of the members, further members and text behind the
object. -/
theorem C1_witness :
    (successBody { data := okBody, readErr := none } (str "access-token") 3600 1577808000
      ∧ (testToken (str "test-token") (newMockClient StatusOK okBody none)).RequestToken.outcome
        = .returned none
      ∧ (testToken (str "test-token")
          (newMockClient StatusOK okBody none)).RequestToken.token.AccessToken
        = str "access-token")
    ∧ (successBody { data := layoutBody, readErr := none } (str "a-b\n\"é😀") 3600 1577808000
      ∧ (testToken (str "test-token")
          (newMockClient StatusOK layoutBody none)).RequestToken.outcome = .returned none
      ∧ (testToken (str "test-token")
          (newMockClient StatusOK layoutBody none)).RequestToken.token.AccessToken
        = str "a-b\n\"é😀"
      ∧ (testToken (str "test-token")
          (newMockClient StatusOK layoutBody none)).RequestToken.token.ExpiresIn = 3600
      ∧ (testToken (str "test-token")
          (newMockClient StatusOK layoutBody none)).RequestToken.token.Expiration
        = 1577808000) :=
  have h1 := C1_success_populates_token
    (testToken (str "test-token") (newMockClient StatusOK okBody none))
    (newMockClient StatusOK okBody none) .Background testRequest
    { StatusCode := StatusOK, Body := { data := okBody, readErr := none } }
    (str "access-token") 3600 1577808000 (testToken_newRequest _) rfl rfl (by decide)
    okBody_successBody
  have h2 := C1_success_populates_token
    (testToken (str "test-token") (newMockClient StatusOK layoutBody none))
    (newMockClient StatusOK layoutBody none) .Background testRequest
    { StatusCode := StatusOK, Body := { data := layoutBody, readErr := none } }
    (str "a-b\n\"é😀") 3600 1577808000 (testToken_newRequest _) rfl rfl (by decide)
    layoutBody_successBody
  ⟨⟨okBody_successBody, (h1.2 rfl).1, (h1.2 rfl).2.1⟩,
    ⟨layoutBody_successBody, (h2.2 rfl).1, (h2.2 rfl).2.1, (h2.2 rfl).2.2.1,
      (h2.2 rfl).2.2.2⟩⟩

/-- C2: for every status code of 400 or more and every well-formed error body
`{"errorMessage": m, "errorDetails": d}`, `RequestToken` returns an error whose text
is `m`, one space, `d`, and `AccessToken`, `ExpiresIn` and `Expiration` (the whole
`Token`, in fact) are as they were before the call. The body is any text that
`errorBody` admits: white space and escapes as JSON allows them, the two members in any
order, further members of any value so long as their keys name no field of
`tokenErrorResponse`, and anything behind the object. -/
theorem C2_provider_error (t : Token) (c : httpclient) (req : Request) (res : Response)
    (m d : GoString)
    (hreq : t.newRequest .Background = .ok req) (hc : t.Client = some c)
    (hdo : c.Do req = .ok res) (hstatus : res.StatusCode ≥ 400)
    (hbody : errorBody res.Body m d) :
    (∃ err, t.RequestToken.outcome = .returned (some err)
        ∧ err.Error = m ++ str " " ++ d)
      ∧ t.RequestToken.token.AccessToken = t.AccessToken
      ∧ t.RequestToken.token.ExpiresIn = t.ExpiresIn
      ∧ t.RequestToken.token.Expiration = t.Expiration := by
  have h := RequestTokenWithContext_errorBody t c .Background req res m d hreq hc hdo hstatus
    hbody
  have ht : t.RequestToken.token = t := h.2
  exact ⟨⟨_, h.1, rfl⟩, by rw [ht], by rw [ht], by rw [ht]⟩

/-- C2 at the input of the test `StatusCodeNotOK`, and at `layoutErrorBody`, a body with
an escape, another order of the members and further members. -/
theorem C2_witness :
    (errorBody { data := notOkBody, readErr := none } (str "error-message")
        (str "error-details")
      ∧ ∃ err,
        (testToken (str "test-token")
            (newMockClient StatusBadRequest notOkBody none)).RequestToken.outcome
          = .returned (some err)
        ∧ err.Error = str "error-message error-details")
    ∧ (errorBody { data := layoutErrorBody, readErr := none }
        (str "Provided API key could not be found.") (str "no \"key\"")
      ∧ ∃ err,
        (testToken (str "test-token")
            (newMockClient StatusBadRequest layoutErrorBody none)).RequestToken.outcome
          = .returned (some err)
        ∧ err.Error = str "Provided API key could not be found. no \"key\"") :=
  have h1 := C2_provider_error
    (testToken (str "test-token") (newMockClient StatusBadRequest notOkBody none))
    (newMockClient StatusBadRequest notOkBody none) testRequest
    { StatusCode := StatusBadRequest, Body := { data := notOkBody, readErr := none } }
    (str "error-message") (str "error-details") (testToken_newRequest _) rfl rfl (by decide)
    notOkBody_errorBody
  have h2 := C2_provider_error
    (testToken (str "test-token") (newMockClient StatusBadRequest layoutErrorBody none))
    (newMockClient StatusBadRequest layoutErrorBody none) testRequest
    { StatusCode := StatusBadRequest, Body := { data := layoutErrorBody, readErr := none } }
    (str "Provided API key could not be found.") (str "no \"key\"") (testToken_newRequest _)
    rfl rfl (by decide) layoutErrorBody_errorBody
  ⟨⟨notOkBody_errorBody, h1.1.elim fun err he => ⟨err, he.1, he.2.trans (by decide)⟩⟩,
    ⟨layoutErrorBody_errorBody, h2.1.elim fun err he => ⟨err, he.1, he.2.trans (by decide)⟩⟩⟩

/-- C3 at its failing input: status 200 and a body whose `expires_in` is a string.
`RequestToken` returns an `UnmarshalTypeError`, and yet `AccessToken` and `Expiration`
of the new client have been set, while `ExpiresIn` has not. -/
theorem C3_failing_input :
    (testToken (str "test-token") (newMockClient StatusOK mismatchBody none)).AccessToken = []
      ∧ (testToken (str "test-token") (newMockClient StatusOK mismatchBody none)).Expiration = 0
      ∧ (testToken (str "test-token")
          (newMockClient StatusOK mismatchBody none)).RequestToken.outcome
        = .returned (some
          (.UnmarshalTypeError (str "string") (str "int") (str "Token") (str "expires_in")))
      ∧ (testToken (str "test-token")
          (newMockClient StatusOK mismatchBody none)).RequestToken.token.AccessToken = str "half"
      ∧ (testToken (str "test-token")
          (newMockClient StatusOK mismatchBody none)).RequestToken.token.ExpiresIn = 0
      ∧ (testToken (str "test-token")
          (newMockClient StatusOK mismatchBody none)).RequestToken.token.Expiration
        = 1577808000 := by
  decide

/-- C4: when the client's `Do` fails with the error `e`, `RequestToken` returns `e`
itself, whatever response the transport would otherwise have produced, and
`AccessToken`, `ExpiresIn` and `Expiration` are unchanged. -/
theorem C4_transport_error (t : Token) (c : httpclient) (req : Request) (e : GoError)
    (hreq : t.newRequest .Background = .ok req) (hc : t.Client = some c)
    (hdo : c.Do req = .error e) :
    t.RequestToken.outcome = .returned (some e)
      ∧ t.RequestToken.token.AccessToken = t.AccessToken
      ∧ t.RequestToken.token.ExpiresIn = t.ExpiresIn
      ∧ t.RequestToken.token.Expiration = t.Expiration := by
  simp [Token.RequestToken, Token.RequestTokenWithContext, hreq, hc, hdo]

/-- C4 at the input of the test `DoError`. -/
theorem C4_witness :
    (testToken (str "test-token")
        (newMockClient StatusBadGateway brokenErrorBody
          (some (.errorString (str "error"))))).RequestToken.outcome
      = .returned (some (.errorString (str "error")))
    ∧ (testToken (str "test-token")
        (newMockClient StatusBadGateway brokenErrorBody
          (some (.errorString (str "error"))))).RequestToken.token.AccessToken = [] :=
  have h := C4_transport_error
    (testToken (str "test-token")
      (newMockClient StatusBadGateway brokenErrorBody (some (.errorString (str "error")))))
    (newMockClient StatusBadGateway brokenErrorBody (some (.errorString (str "error"))))
    testRequest (.errorString (str "error")) (testToken_newRequest _) rfl rfl
  ⟨h.1, h.2.1⟩

/-- C6: with the current Unix time as the input `now`, `Expired` answers true exactly
when `now > Expiration`: false at `now = Expiration`, and true at every `now > 0` on a
client whose `Expiration` is still zero. The answer depends on `Expiration` alone and
the call changes no field. -/
theorem C6_expired (t : Token) (now : Int) :
    ((t.Expired now).1 = true ↔ now > t.Expiration)
      ∧ (now = t.Expiration → (t.Expired now).1 = false)
      ∧ (t.Expiration = 0 → now > 0 → (t.Expired now).1 = true)
      ∧ (∀ t2 : Token, t2.Expiration = t.Expiration → (t2.Expired now).1 = (t.Expired now).1)
      ∧ (t.Expired now).2 = t := by
  refine ⟨by simp [Token.Expired], ?_, ?_, ?_, rfl⟩
  · intro h
    simp [Token.Expired, h]
  · intro h0 hnow
    simp [Token.Expired, h0, hnow]
  · intro t2 h
    simp [Token.Expired, h]

/-- C8 at its failing input: `NewToken` stores the key as given, and one call of
`RequestToken` that returns no error, on a status 200 body with the key `apikey`,
leaves `ApiKey` equal to the value the response gave. -/
theorem C8_failing_input :
    (NewToken (str "test-token") (newMockClient StatusOK apiKeyBody none)).ApiKey
        = str "test-token"
      ∧ (NewToken (str "test-token")
          (newMockClient StatusOK apiKeyBody none)).RequestToken.outcome = .returned none
      ∧ (NewToken (str "test-token")
          (newMockClient StatusOK apiKeyBody none)).RequestToken.token.ApiKey
        = str "overwritten" := by
  decide

/-- C9: for every API key `k`, the one request `RequestToken` hands to the transport
is a POST to `https://iam.cloud.ibm.com/identity/token` whose headers are
`Content-Type: application/x-www-form-urlencoded` and `Accept: application/json` and
whose body is the URL-encoded form of `grant_type` and `apikey` (in the order
`Values.Encode` writes them, `apikey` first): decoded as a form it has exactly the two
fields, `apikey` equal to `k` byte for byte and `grant_type` equal to
`urn:ibm:params:oauth:grant-type:apikey`. -/
theorem C9_request_form (t : Token) (c : httpclient) (hc : t.Client = some c) :
    ∃ req, t.RequestToken.sent = [req]
      ∧ req.Method = str "POST"
      ∧ req.URL = str "https://iam.cloud.ibm.com/identity/token"
      ∧ req.Header
        = [(str "Content-Type", [str "application/x-www-form-urlencoded"]),
          (str "Accept", [str "application/json"])]
      ∧ req.Body = str "apikey=" ++ QueryEscape t.ApiKey
          ++ str "&grant_type=urn%3Aibm%3Aparams%3Aoauth%3Agrant-type%3Aapikey"
      ∧ ParseQuery req.Body
        = ([(str "apikey", [t.ApiKey]),
            (str "grant_type", [str "urn:ibm:params:oauth:grant-type:apikey"])], false) :=
  ⟨_, sent_of_client t c .Background _ (newRequest_eq t) hc, rfl, rfl, rfl, rfl,
    ParseQuery_form t.ApiKey⟩

/-- C9 at a key that holds `&`, `=`, `%`, `+`, a space and a letter outside ASCII. -/
theorem C9_witness :
    ∃ req,
      (testToken (str "k&1=é +%") (newMockClient StatusOK okBody none)).RequestToken.sent = [req]
        ∧ req.Body
          = str "apikey=k%261%3D%C3%A9+%2B%25&grant_type=urn%3Aibm%3Aparams%3Aoauth%3Agrant-type%3Aapikey"
        ∧ ParseQuery req.Body
          = ([(str "apikey", [str "k&1=é +%"]),
              (str "grant_type", [str "urn:ibm:params:oauth:grant-type:apikey"])], false) :=
  (C9_request_form (testToken (str "k&1=é +%") (newMockClient StatusOK okBody none))
      (newMockClient StatusOK okBody none) rfl).elim
    fun req h => ⟨req, h.1, h.2.2.2.2.1.trans (by decide), h.2.2.2.2.2⟩

/-- C10: the program as a function from `os.Args` and the outcome of the exchange to
standard output and exit code. With exactly one argument after the program name: on no
error it prints the access token and exits 0; on an error it prints the error's text
and exits 1. With any other number of arguments it prints the usage line, exits 1 and
hands no request to the transport. The exit code is 0 exactly when there was one
argument and the exchange returned no error. -/
theorem C10_cli (osArgs : List GoString) (defaultClient : httpclient) :
    (osArgs.length = 2 →
        (NewToken (osArgs.getD 1 []) defaultClient).RequestToken.outcome = .returned none →
        (main osArgs defaultClient).stdout
            = (NewToken (osArgs.getD 1 []) defaultClient).RequestToken.token.AccessToken
              ++ str "\n"
          ∧ (main osArgs defaultClient).exitCode = 0)
      ∧ (osArgs.length = 2 → ∀ err,
        (NewToken (osArgs.getD 1 []) defaultClient).RequestToken.outcome
            = .returned (some err) →
        (main osArgs defaultClient).stdout = err.Error ++ str "\n"
          ∧ (main osArgs defaultClient).exitCode = 1)
      ∧ (osArgs.length ≠ 2 →
        (main osArgs defaultClient).stdout = str "Usage: ibmctoken <api-key>\n"
          ∧ (main osArgs defaultClient).exitCode = 1
          ∧ (main osArgs defaultClient).sent = [])
      ∧ ((main osArgs defaultClient).exitCode = 0 ↔
        osArgs.length = 2
          ∧ (NewToken (osArgs.getD 1 []) defaultClient).RequestToken.outcome
            = .returned none) := by
  by_cases hlen : osArgs.length = 2
  · cases hout : (NewToken (osArgs.getD 1 []) defaultClient).RequestToken.outcome with
    | returned err =>
      cases err with
      | none => simp [main, hlen, hout, -List.getD_eq_getElem?_getD]
      | some e => simp [main, hlen, hout, -List.getD_eq_getElem?_getD]
    | panicked => simp [main, hlen, hout, -List.getD_eq_getElem?_getD]
  · refine ⟨fun h => absurd h hlen, fun h => absurd h hlen, fun _ => ?_, ?_⟩
    · refine ⟨?_, ?_, ?_⟩
      · simp only [main, hlen, ne_eq, not_false_eq_true, if_true]
        decide
      · simp [main, hlen]
      · simp [main, hlen]
    · simp [main, hlen]

end Ibmctoken
